import Mathlib

/-! # muddoc: comment traversal and declaration checks

A shallow embedding of the comment traversal of `src/descriptor.cpp`
(`Descriptor::traverse` and the overrides of the derived descriptors), of the
checks that the `generate` functions run after the traversal, and of `escape`
from `src/utility.cpp`.  The state of a descriptor object is passed explicitly;
the two output streams are lists of lines inside that state.
-/

namespace muddoc

/-- The command identifiers that the switch of
`Descriptor::traverse(const BlockCommandComment*)` names (`CommandTraits::KCI_*`),
in the order of the switch.  `registered n` is any identifier the switch does not
name; it reaches `default`. -/
inductive CommandID where
  | KCI_a | KCI_abstract | KCI_addindex | KCI_addtogroup | KCI_anchor | KCI_arg
  | KCI_attention | KCI_author | KCI_authors | KCI_b | KCI_brief | KCI_bug | KCI_c
  | KCI_callgraph | KCI_callback | KCI_callergraph | KCI_category | KCI_cite | KCI_class
  | KCI_classdesign | KCI_coclass | KCI_code | KCI_endcode | KCI_concept | KCI_cond
  | KCI_const | KCI_constant | KCI_copybrief | KCI_copydetails | KCI_copydoc | KCI_copyright
  | KCI_date | KCI_def | KCI_defgroup | KCI_dependency | KCI_deprecated | KCI_details
  | KCI_diafile | KCI_dir | KCI_discussion | KCI_docbookinclude | KCI_docbookonly
  | KCI_enddocbookonly | KCI_dontinclude | KCI_dot | KCI_enddot | KCI_dotfile | KCI_e
  | KCI_else | KCI_elseif | KCI_em | KCI_emoji | KCI_endcond | KCI_endif | KCI_enum
  | KCI_example | KCI_exception | KCI_extends | KCI_flbrace | KCI_frbrace | KCI_flsquare
  | KCI_frsquare | KCI_fdollar | KCI_flparen | KCI_frparen | KCI_file | KCI_fn | KCI_function
  | KCI_functiongroup | KCI_headerfile | KCI_helper | KCI_helperclass | KCI_helps
  | KCI_hidecallgraph | KCI_hidecallergraph | KCI_hideinitializer | KCI_hiderefby
  | KCI_hiderefs | KCI_htmlinclude | KCI_htmlonly | KCI_endhtmlonly | KCI_idlexcept | KCI_if
  | KCI_ifnot | KCI_image | KCI_implements | KCI_include | KCI_ingroup | KCI_instancesize
  | KCI_interface | KCI_internal | KCI_endinternal | KCI_invariant | KCI_latexinclude
  | KCI_latexonly | KCI_endlatexonly | KCI_li | KCI_line | KCI_link | KCI_slashlink
  | KCI_mainpage | KCI_maninclude | KCI_manonly | KCI_endmanonly | KCI_memberof | KCI_method
  | KCI_methodgroup | KCI_msc | KCI_endmsc | KCI_mscfile | KCI_n | KCI_name | KCI_namespace
  | KCI_noop | KCI_nosubgrouping | KCI_note | KCI_overload | KCI_ownership | KCI_p | KCI_page
  | KCI_par | KCI_parblock | KCI_endparblock | KCI_paragraph | KCI_param | KCI_performance
  | KCI_post | KCI_pre | KCI_private | KCI_privatesection | KCI_property | KCI_protected
  | KCI_protectedsection | KCI_protocol | KCI_public | KCI_publicsection | KCI_pure | KCI_ref
  | KCI_refitem | KCI_related | KCI_relatedalso | KCI_relates | KCI_relatesalso | KCI_remark
  | KCI_remarks | KCI_result | KCI_return | KCI_returns | KCI_retval | KCI_rtfinclude
  | KCI_rtfonly | KCI_endrtfonly | KCI_sa | KCI_secreflist | KCI_endsecreflist | KCI_section
  | KCI_security | KCI_see | KCI_seealso | KCI_short | KCI_showinitializer | KCI_showrefby
  | KCI_showrefs | KCI_since | KCI_skip | KCI_skipline | KCI_snippet | KCI_static
  | KCI_struct | KCI_subpage | KCI_subsection | KCI_subsubsection | KCI_superclass
  | KCI_tableofcontents | KCI_template | KCI_templatefield | KCI_test | KCI_textblock
  | KCI_slashtextblock | KCI_throw | KCI_throws | KCI_todo | KCI_tparam | KCI_typedef
  | KCI_startuml | KCI_enduml | KCI_union | KCI_until | KCI_var | KCI_verbinclude
  | KCI_verbatim | KCI_endverbatim | KCI_version | KCI_warning | KCI_weakgroup | KCI_xrefitem
  | KCI_xmlinclude | KCI_xmlonly | KCI_endxmlonly
  | registered (n : Nat)

/-- Modelled from the spec: the comment tree of clang (`clang::comments::Comment` and
its subclasses), which the repository only uses.  One constructor per comment kind
that `Descriptor::traverse(const Comment*)` dispatches on, named as in clang, with
the data the handlers read; `null` is a null pointer in a child list. -/
inductive Comment where
  | null
  | BlockCommandComment (commandID : CommandID) (children : List Comment)
  | FullComment (children : List Comment)
  | HTMLEndTagComment (children : List Comment)
  | HTMLStartTagComment (children : List Comment)
  | InlineCommandComment (commandID : CommandID)
  | ParamCommandComment (paramIndex : Option Nat) (paramNameAsWritten : String)
      (children : List Comment)
  | ParagraphComment (children : List Comment)
  | TextComment (text : String) (isWhitespace : Bool)
  | TParamCommandComment (position : Option Nat) (paramNameAsWritten : String)
      (children : List Comment)
  | VerbatimBlockComment (children : List Comment)
  | VerbatimBlockLineComment (text : String)
  | VerbatimLineComment (children : List Comment)

/-- The class `ParamDescriptor` of `descriptor.h`. -/
structure ParamDescriptor where
  index : Nat
  name : String
  description : String
deriving DecidableEq, Repr

/-- The data members that the traversal and the checks read and write: `_brief` and
`_detailed` of `Descriptor`, `_params` of the class, constructor, destructor and
method descriptors, `_return` of `MethodDescriptor`, and what has been written to
`std::cout` and, through `warn`, to `std::cerr` (one entry per line). -/
structure Descriptor where
  brief : String
  detailed : String
  params : List ParamDescriptor
  ret : String
  cout : List String
  cerr : List String
deriving DecidableEq, Repr

/-- A freshly constructed descriptor. -/
def Descriptor.init : Descriptor :=
  ⟨"", "", [], "", [], []⟩

/-- The derived classes of `Descriptor`. -/
inductive Kind where
  | NamespaceDescriptor
  | ClassDescriptor
  | ConstructorDescriptor
  | DestructorDescriptor
  | MethodDescriptor
  | EnumDescriptor
  | EnumConstantDescriptor
deriving DecidableEq, Repr

/-- The function `warn` of `warn_error.cpp`: one line on `std::cerr`.  The location prefix is
the one of the descriptor's cursor and is the same for every line, so only the
message is kept. -/
def warn (d : Descriptor) (msg : String) : Descriptor :=
  { d with cerr := d.cerr ++ [msg] }

/-- The function `escape` of `utility.cpp`: the loop over the characters of `str`. -/
def escape (str : String) : String :=
  str.data.foldl
    (fun result ch =>
      if ch = Char.ofNat 39 then result ++ "&apos;"
      else if ch = Char.ofNat 34 then result ++ "&quot;"
      else if ch = Char.ofNat 60 then result ++ "&lt;"
      else if ch = Char.ofNat 62 then result ++ "&gt;"
      else if ch = Char.ofNat 38 then result ++ "&amp;"
      else result.push ch)
    ""

/-- The three paths through the switch of
`Descriptor::traverse(const BlockCommandComment*)`. -/
inductive BlockPath where
  /-- The path `break` with `result` still empty. -/
  | skip
  /-- The path `_brief = traverse(children); return std::string();`. -/
  | brief
  /-- The path that wraps the children in `<verbatim>`. -/
  | verbatim
deriving DecidableEq, Repr

/-- The case labels of the switch of `Descriptor::traverse(const BlockCommandComment*)`,
group by group: which statements a command identifier reaches.  A label without
statements of its own falls through to the next statements. -/
def blockPath : CommandID → BlockPath
  | .KCI_a | .KCI_abstract | .KCI_addindex | .KCI_addtogroup | .KCI_anchor | .KCI_arg
  | .KCI_attention | .KCI_author | .KCI_authors | .KCI_b => .skip
  | .KCI_brief => .brief
  | .KCI_bug | .KCI_c | .KCI_callgraph | .KCI_callback | .KCI_callergraph | .KCI_category
  | .KCI_cite | .KCI_class | .KCI_classdesign | .KCI_coclass | .KCI_code => .verbatim
  | .KCI_endcode | .KCI_concept | .KCI_cond | .KCI_const | .KCI_constant | .KCI_copybrief
  | .KCI_copydetails | .KCI_copydoc | .KCI_copyright | .KCI_date | .KCI_def | .KCI_defgroup
  | .KCI_dependency | .KCI_deprecated | .KCI_details | .KCI_diafile | .KCI_dir
  | .KCI_discussion | .KCI_docbookinclude | .KCI_docbookonly | .KCI_enddocbookonly
  | .KCI_dontinclude | .KCI_dot | .KCI_enddot | .KCI_dotfile | .KCI_e | .KCI_else
  | .KCI_elseif | .KCI_em | .KCI_emoji | .KCI_endcond | .KCI_endif | .KCI_enum | .KCI_example
  | .KCI_exception | .KCI_extends | .KCI_flbrace | .KCI_frbrace | .KCI_flsquare
  | .KCI_frsquare | .KCI_fdollar | .KCI_flparen | .KCI_frparen | .KCI_file | .KCI_fn
  | .KCI_function | .KCI_functiongroup | .KCI_headerfile | .KCI_helper | .KCI_helperclass
  | .KCI_helps | .KCI_hidecallgraph | .KCI_hidecallergraph | .KCI_hideinitializer
  | .KCI_hiderefby | .KCI_hiderefs | .KCI_htmlinclude | .KCI_htmlonly | .KCI_endhtmlonly
  | .KCI_idlexcept | .KCI_if | .KCI_ifnot | .KCI_image | .KCI_implements | .KCI_include
  | .KCI_ingroup | .KCI_instancesize | .KCI_interface | .KCI_internal | .KCI_endinternal
  | .KCI_invariant | .KCI_latexinclude | .KCI_latexonly | .KCI_endlatexonly | .KCI_li
  | .KCI_line | .KCI_link | .KCI_slashlink | .KCI_mainpage | .KCI_maninclude | .KCI_manonly
  | .KCI_endmanonly | .KCI_memberof | .KCI_method | .KCI_methodgroup | .KCI_msc | .KCI_endmsc
  | .KCI_mscfile | .KCI_n | .KCI_name | .KCI_namespace | .KCI_noop | .KCI_nosubgrouping
  | .KCI_note | .KCI_overload | .KCI_ownership | .KCI_p | .KCI_page | .KCI_par
  | .KCI_parblock | .KCI_endparblock | .KCI_paragraph | .KCI_param | .KCI_performance
  | .KCI_post | .KCI_pre | .KCI_private | .KCI_privatesection | .KCI_property
  | .KCI_protected | .KCI_protectedsection | .KCI_protocol | .KCI_public | .KCI_publicsection
  | .KCI_pure | .KCI_ref | .KCI_refitem | .KCI_related | .KCI_relatedalso | .KCI_relates
  | .KCI_relatesalso | .KCI_remark | .KCI_remarks | .KCI_result | .KCI_return | .KCI_returns
  | .KCI_retval | .KCI_rtfinclude | .KCI_rtfonly | .KCI_endrtfonly | .KCI_sa
  | .KCI_secreflist | .KCI_endsecreflist | .KCI_section | .KCI_security | .KCI_see
  | .KCI_seealso | .KCI_short | .KCI_showinitializer | .KCI_showrefby | .KCI_showrefs
  | .KCI_since | .KCI_skip | .KCI_skipline | .KCI_snippet | .KCI_static | .KCI_struct
  | .KCI_subpage | .KCI_subsection | .KCI_subsubsection | .KCI_superclass
  | .KCI_tableofcontents | .KCI_template | .KCI_templatefield | .KCI_test | .KCI_textblock
  | .KCI_slashtextblock | .KCI_throw | .KCI_throws | .KCI_todo | .KCI_tparam | .KCI_typedef
  | .KCI_startuml | .KCI_enduml | .KCI_union | .KCI_until | .KCI_var | .KCI_verbinclude
  | .KCI_verbatim | .KCI_endverbatim | .KCI_version | .KCI_warning | .KCI_weakgroup
  | .KCI_xrefitem | .KCI_xmlinclude | .KCI_xmlonly | .KCI_endxmlonly => .skip
  | .registered _ => .skip

/-- The case labels `KCI_return` and `KCI_returns` of the switch of
`MethodDescriptor::traverse(const BlockCommandComment*)`. -/
def returnCommand : CommandID → Bool
  | .KCI_return | .KCI_returns => true
  | _ => false

/-- The value `unsigned(-1)` stored for a parameter without a valid index. -/
def unsignedMinusOne : Nat := ((-1 : Int) % 2 ^ 32).toNat

mutual
/-- The function `traverse(const Comment*)` with the handler it dispatches to, for a
descriptor of class `k`: the handlers of `Descriptor` and the overrides
`MethodDescriptor::traverse(const BlockCommandComment*)`,
`{Constructor,Destructor,Method}Descriptor::traverse(const ParamCommandComment*)`
and `ClassDescriptor::traverse(const TParamCommandComment*)`.  Returns the string
the handler returns and the state it leaves. -/
def traverse (k : Kind) : Comment → Descriptor → String × Descriptor
  | .null, d => ("", d)
  | .BlockCommandComment commandID children, d =>
    if k = .MethodDescriptor ∧ returnCommand commandID = true then
      let r := traverseChildren k children d ""
      ("", { r.2 with ret := r.1 })
    else
      match blockPath commandID with
      | .skip => ("", d)
      | .brief =>
        let r := traverseChildren k children d ""
        ("", { r.2 with brief := r.1 })
      | .verbatim =>
        let r := traverseChildren k children d ""
        ("" ++ "<verbatim>" ++ r.1 ++ "</verbatim>", r.2)
  | .FullComment children, d => traverseChildren k children d ""
  | .HTMLEndTagComment children, d => traverseChildren k children d ""
  | .HTMLStartTagComment children, d => traverseChildren k children d ""
  | .InlineCommandComment _, d => ("", d)
  | .ParamCommandComment paramIndex name children, d =>
    match k with
    | .ConstructorDescriptor | .DestructorDescriptor | .MethodDescriptor =>
      let r := traverseChildren k children d ""
      match paramIndex with
      | some i => ("", { r.2 with params := r.2.params ++ [⟨i, name, r.1⟩] })
      | none =>
        ("", { r.2 with
                cout := r.2.cout ++ [name]
                params := r.2.params ++ [⟨unsignedMinusOne, name, r.1⟩] })
    | _ => traverseChildren k children d ""
  | .ParagraphComment children, d => traverseChildren k children d ""
  | .TextComment text isWhitespace, d =>
    if isWhitespace then ("", d) else (escape text, d)
  | .TParamCommandComment position name children, d =>
    match k with
    | .ClassDescriptor =>
      let r := traverseChildren k children d ""
      match position with
      | some i => ("", { r.2 with params := r.2.params ++ [⟨i, name, r.1⟩] })
      | none =>
        ("", { r.2 with
                cout := r.2.cout ++ [name]
                params := r.2.params ++ [⟨unsignedMinusOne, name, r.1⟩] })
    | _ => traverseChildren k children d ""
  | .VerbatimBlockComment children, d =>
    let r := traverseChildren k children d ""
    ("" ++ "<verbatim><![CDATA[" ++ r.1 ++ "]]></verbatim>", r.2)
  | .VerbatimBlockLineComment text, d => ("" ++ (text ++ "\n"), d)
  | .VerbatimLineComment children, d => traverseChildren k children d ""
/-- The function `Descriptor::traverse(child_iterator begin, child_iterator end)`: the
loop `result += traverse(*iter)`, with `result` as the last argument. -/
def traverseChildren (k : Kind) : List Comment → Descriptor → String → String × Descriptor
  | [], d, result => (result, d)
  | c :: rest, d, result =>
    let r := traverse k c d
    traverseChildren k rest r.2 (result ++ r.1)
end

/-- The function `Descriptor::traverse()`: the detailed description is what the
traversal of the full comment returns; a declaration without comment is reported. -/
def traverseDecl (k : Kind) (fc : Comment) (d : Descriptor) : Descriptor :=
  match fc with
  | .null => warn d "No comment for declaration."
  | fc =>
    let r := traverse k fc d
    { r.2 with detailed := r.1 }

/-- Modelled from the spec: what the checks of `generate` read from the clang
declaration `_decl`: the names of the declared parameters in order
(`param_begin()` to `param_end()`, `getName()`), and whether the return type is
present and not void (`type && !type->isVoidType()`). -/
structure Decl where
  params : List String
  returnsNonVoid : Bool
deriving DecidableEq, Repr

/-- The text of the warning for a differing number of parameters. -/
def countMessage (declared documented : Nat) : String :=
  "Number of parameters in declaration (" ++ toString declared
    ++ ") does not match comment (" ++ toString documented ++ ")."

/-- The text of the warning for a parameter whose name differs. -/
def nameMessage (declName descName : String) : String :=
  "Parameter \"" ++ declName ++ "\" " ++ "in declaration does not match "
    ++ "parameter \"" ++ descName ++ "\" " ++ "in the comment."

/-- The text of the warning for a missing return comment. -/
def returnMessage : String :=
  "Method has a non-void return type, but no return comment"

/-- The loop over `desc_iter` and `decl_iter` in `generate`: both advance together
until one of them ends, and a differing name is reported. -/
def matchNames : List ParamDescriptor → List String → Descriptor → Descriptor
  | desc :: descs, declName :: declNames, d =>
    matchNames descs declNames
      (if desc.name ≠ declName then warn d (nameMessage declName desc.name) else d)
  | _, _, d => d

/-- The block "Match the description to the declaration and report any mismatch" of
`ConstructorDescriptor::generate`, `DestructorDescriptor::generate` and
`MethodDescriptor::generate` (the same statements in all three). -/
def checkParams (decl : Decl) (d : Descriptor) : Descriptor :=
  if d.params.length ≠ decl.params.length then
    warn d (countMessage decl.params.length d.params.length)
  else
    matchNames d.params decl.params d

/-- The block "Match the description of the return value" of
`MethodDescriptor::generate`. -/
def checkReturn (decl : Decl) (d : Descriptor) : Descriptor :=
  if decl.returnsNonVoid = true ∧ d.ret = "" then warn d returnMessage else d

/-- The statements of `generate` that follow the traversal, for a descriptor of class
`k`.  In `ClassDescriptor::generate` the check is commented out; the namespace, enum
and enum constant descriptors have none. -/
def validate (k : Kind) (decl : Decl) (d : Descriptor) : Descriptor :=
  match k with
  | .ConstructorDescriptor => checkParams decl d
  | .DestructorDescriptor => checkParams decl d
  | .MethodDescriptor => checkReturn decl (checkParams decl d)
  | _ => d

/-- The function `generate` of the descriptor of class `k`, on a fresh descriptor:
the traversal of the comment, then the checks against the declaration. -/
def generate (k : Kind) (fc : Comment) (decl : Decl) : Descriptor :=
  validate k decl (traverseDecl k fc Descriptor.init)

/-! ## Definitions used to state the properties -/

/-- The name warning for position `i` of two parameter lists, if both lists have that
position and the names there differ. -/
def mismatchAt (descs : List ParamDescriptor) (decls : List String) (i : Nat) :
    Option String :=
  match descs[i]?, decls[i]? with
  | some desc, some declName =>
    if desc.name ≠ declName then some (nameMessage declName desc.name) else none
  | _, _ => none

/-- The name warnings for two parameter lists, position by position in increasing
order. -/
def mismatches (descs : List ParamDescriptor) (decls : List String) : List String :=
  (List.range descs.length).filterMap (mismatchAt descs decls)

/-- The lines that the checks of `generate` add to `std::cerr`. -/
def emitted (k : Kind) (decl : Decl) (d : Descriptor) : List String :=
  (validate k decl d).cerr.drop d.cerr.length

/-- The return warning, when `checkReturn` gives one. -/
def returnWarnings (decl : Decl) (d : Descriptor) : List String :=
  if decl.returnsNonVoid = true ∧ d.ret = "" then [returnMessage] else []

/-- A comment that documents the parameters `a` and `b`, in this order. -/
def commentAB : Comment :=
  .FullComment
    [.ParamCommandComment (some 0) "a" [.TextComment "first" false],
     .ParamCommandComment (some 1) "b" [.TextComment "second" false]]

/-- A comment that documents the parameters `b` and `a`, in this order. -/
def commentBA : Comment :=
  .FullComment
    [.ParamCommandComment (some 1) "b" [.TextComment "second" false],
     .ParamCommandComment (some 0) "a" [.TextComment "first" false]]

/-- What one traversal does to a descriptor, apart from the string it returns: the
brief description and the return comment it writes last, if it writes them, and the
parameters and output lines it appends. -/
structure Effect where
  text : String
  brief : Option String
  params : List ParamDescriptor
  ret : Option String
  cout : List String

/-- The descriptor after a traversal with the effect `e` that starts from `d`. -/
def Effect.apply (e : Effect) (d : Descriptor) : Descriptor :=
  { brief := e.brief.getD d.brief
    detailed := d.detailed
    params := d.params ++ e.params
    ret := e.ret.getD d.ret
    cout := d.cout ++ e.cout
    cerr := d.cerr }

/-- The effect of one traversal followed by another. -/
def Effect.andThen (e₁ e₂ : Effect) : Effect :=
  { text := e₁.text ++ e₂.text
    brief := e₂.brief.orElse (fun _ => e₁.brief)
    params := e₁.params ++ e₂.params
    ret := e₂.ret.orElse (fun _ => e₁.ret)
    cout := e₁.cout ++ e₂.cout }

/-- The index stored for a parameter: the resolved index if there is one, and
`unsigned(-1)` otherwise. -/
def storedIndex (index : Option Nat) : Nat :=
  index.getD unsignedMinusOne

/-- The line written to `std::cout` for a parameter: its name, if its index is not
resolved. -/
def printedName (index : Option Nat) (name : String) : List String :=
  match index with
  | some _ => []
  | none => [name]

mutual
/-- The comments whose handler a traversal by a descriptor of class `k` enters, in the
order in which it enters them: a comment, then what is entered below it, child by
child from left to right.  The children of a block command on the path `skip` are
not entered. -/
def visitedNodes (k : Kind) : Comment → List Comment
  | .null => []
  | .BlockCommandComment commandID children =>
    .BlockCommandComment commandID children ::
      (if k = .MethodDescriptor ∧ returnCommand commandID = true then
        visitedNodesChildren k children
      else
        match blockPath commandID with
        | .skip => []
        | .brief => visitedNodesChildren k children
        | .verbatim => visitedNodesChildren k children)
  | .FullComment children => .FullComment children :: visitedNodesChildren k children
  | .HTMLEndTagComment children =>
    .HTMLEndTagComment children :: visitedNodesChildren k children
  | .HTMLStartTagComment children =>
    .HTMLStartTagComment children :: visitedNodesChildren k children
  | .InlineCommandComment commandID => [.InlineCommandComment commandID]
  | .ParamCommandComment paramIndex name children =>
    .ParamCommandComment paramIndex name children :: visitedNodesChildren k children
  | .ParagraphComment children =>
    .ParagraphComment children :: visitedNodesChildren k children
  | .TextComment text isWhitespace => [.TextComment text isWhitespace]
  | .TParamCommandComment position name children =>
    .TParamCommandComment position name children :: visitedNodesChildren k children
  | .VerbatimBlockComment children =>
    .VerbatimBlockComment children :: visitedNodesChildren k children
  | .VerbatimBlockLineComment text => [.VerbatimBlockLineComment text]
  | .VerbatimLineComment children =>
    .VerbatimLineComment children :: visitedNodesChildren k children
/-- The comments entered by the loop over a list of children. -/
def visitedNodesChildren (k : Kind) : List Comment → List Comment
  | [] => []
  | c :: rest => visitedNodes k c ++ visitedNodesChildren k rest
end

/-- The string that the loop over the children returns, on a fresh descriptor. -/
def childrenText (k : Kind) (children : List Comment) : String :=
  (traverseChildren k children Descriptor.init "").1

/-- The parameter description that a `ParamCommandComment` stands for: the stored
index, the name as written and the text of the children. -/
def paramDoc (k : Kind) : Comment → Option ParamDescriptor
  | .ParamCommandComment paramIndex name children =>
    some ⟨storedIndex paramIndex, name, childrenText k children⟩
  | _ => none

/-- The parameter descriptions of the entered `ParamCommandComment`s, in the order in
which the traversal enters them. -/
def paramsInOrder (k : Kind) (c : Comment) : List ParamDescriptor :=
  (visitedNodes k c).filterMap (paramDoc k)

/-- Whether a comment is a `ParamCommandComment`. -/
def isParamCommand : Comment → Bool
  | .ParamCommandComment _ _ _ => true
  | _ => false

/-- Whether a comment is a `ParamCommandComment` below which another
`ParamCommandComment` is entered. -/
def paramInsideParam (k : Kind) : Comment → Bool
  | .ParamCommandComment _ _ children => (visitedNodesChildren k children).any isParamCommand
  | _ => false

/-- The text that a `brief` block command stores: the text of its children, for a
block command that reaches the path `brief` of the switch. -/
def briefDoc (k : Kind) : Comment → Option String
  | .BlockCommandComment commandID children =>
    if ¬ (k = .MethodDescriptor ∧ returnCommand commandID = true)
        ∧ blockPath commandID = .brief then
      some (childrenText k children)
    else none
  | _ => none

/-- The texts of the entered `brief` block commands, in the order in which the
traversal enters them. -/
def briefsInOrder (k : Kind) (c : Comment) : List String :=
  (visitedNodes k c).filterMap (briefDoc k)

/-- Whether a comment is a `brief` block command below which another `brief` block
command is entered. -/
def briefInsideBrief (k : Kind) : Comment → Bool
  | .BlockCommandComment commandID children =>
    (briefDoc k (.BlockCommandComment commandID children)).isSome
      && (visitedNodesChildren k children).any (fun n => (briefDoc k n).isSome)
  | _ => false

/-- Two descriptors that agree in everything the traversal stores except the indices
of the parameters and the lines on `std::cout`. -/
def sameUpToIndex (a b : Descriptor) : Prop :=
  a.brief = b.brief ∧ a.detailed = b.detailed ∧ a.ret = b.ret ∧ a.cerr = b.cerr
    ∧ a.params.map (fun p => (p.name, p.description))
        = b.params.map (fun p => (p.name, p.description))

/-- The ten command identifiers whose case labels stand between the `return` of the
case `KCI_brief` and the statements of the case `KCI_code`. -/
def labelsBeforeCode : List CommandID :=
  [.KCI_bug, .KCI_c, .KCI_callgraph, .KCI_callback, .KCI_callergraph, .KCI_category,
   .KCI_cite, .KCI_class, .KCI_classdesign, .KCI_coclass]

/-- A comment with the block command `bug`. -/
def commentBug : Comment :=
  .FullComment
    [.BlockCommandComment .KCI_bug [.ParagraphComment [.TextComment "x" false]]]

/-- A comment with two `brief` block commands, with the texts `A` and `B`. -/
def commentBriefAB : Comment :=
  .FullComment
    [.BlockCommandComment .KCI_brief [.ParagraphComment [.TextComment "A" false]],
     .BlockCommandComment .KCI_brief [.ParagraphComment [.TextComment "B" false]]]

/-- A comment with a parameter command, whose index no declaration has resolved. -/
def commentParamX : Comment :=
  .FullComment
    [.ParamCommandComment none "x" [.ParagraphComment [.TextComment "the value" false]]]

/-- A comment that documents `p1`, `p2`, `p3` in this order, with the resolved indices
2, none and 0. -/
def commentP123 : Comment :=
  .FullComment
    [.ParamCommandComment (some 2) "p1" [.ParagraphComment [.TextComment "one" false]],
     .ParamCommandComment none "p2" [.ParagraphComment [.TextComment "two" false]],
     .ParamCommandComment (some 0) "p3" [.ParagraphComment [.TextComment "three" false]]]

/-- A parameter command with another parameter command among its children. -/
def commentParamInParam : Comment :=
  .FullComment
    [.ParamCommandComment (some 0) "a"
      [.ParagraphComment [.TextComment "outer" false],
       .ParamCommandComment (some 1) "b" [.ParagraphComment [.TextComment "inner" false]]]]

/-- The five characters that `escape` replaces: apostrophe, double quote, `<`, `>`
and `&`. -/
def reservedChars : List Char :=
  [Char.ofNat 39, Char.ofNat 34, '<', '>', '&']

/-- The replacement of one character as the documentation of `escape` states it: an
entity for each of the five reserved characters, the character itself otherwise. -/
def escapeChar (ch : Char) : String :=
  if ch = Char.ofNat 39 then "&apos;"
  else if ch = Char.ofNat 34 then "&quot;"
  else if ch = '<' then "&lt;"
  else if ch = '>' then "&gt;"
  else if ch = '&' then "&amp;"
  else String.singleton ch

/-- The string that the handler of a comment returns, on a fresh descriptor. -/
def nodeText (k : Kind) (c : Comment) : String :=
  (traverse k c Descriptor.init).1

/-- The record that a descriptor holds: brief and detailed description, parameters and
return comment (without the lines written to the output streams). -/
def record (d : Descriptor) : String × String × List ParamDescriptor × String :=
  (d.brief, d.detailed, d.params, d.ret)

/-- What the handler of a comment does, in terms of the loop over the children: the
seven forms that the handlers of `descriptor.cpp` have. -/
inductive Shape where
  /-- A null pointer: the empty string is returned. -/
  | absent
  /-- The handler returns a string without traversing any children. -/
  | leaf (text : String)
  /-- The handler returns what the loop over the children returns. -/
  | transparent (children : List Comment)
  /-- The handler returns what the loop over the children returns, between two fixed
  strings. -/
  | wrap (opening closing : String) (children : List Comment)
  /-- The handler stores the text of the children as the brief description. -/
  | storeBrief (children : List Comment)
  /-- The handler stores the text of the children as the return comment. -/
  | storeReturn (children : List Comment)
  /-- The handler appends a parameter with the text of the children. -/
  | storeParam (index : Option Nat) (name : String) (children : List Comment)

/-- The form of the handler that a descriptor of class `k` runs for a comment. -/
def shape (k : Kind) : Comment → Shape
  | .null => .absent
  | .BlockCommandComment commandID children =>
    if k = .MethodDescriptor ∧ returnCommand commandID = true then .storeReturn children
    else
      match blockPath commandID with
      | .skip => .leaf ""
      | .brief => .storeBrief children
      | .verbatim => .wrap "<verbatim>" "</verbatim>" children
  | .FullComment children => .transparent children
  | .HTMLEndTagComment children => .transparent children
  | .HTMLStartTagComment children => .transparent children
  | .InlineCommandComment _ => .leaf ""
  | .ParamCommandComment paramIndex name children =>
    match k with
    | .ConstructorDescriptor | .DestructorDescriptor | .MethodDescriptor =>
      .storeParam paramIndex name children
    | _ => .transparent children
  | .ParagraphComment children => .transparent children
  | .TextComment text isWhitespace => .leaf (if isWhitespace then "" else escape text)
  | .TParamCommandComment position name children =>
    match k with
    | .ClassDescriptor => .storeParam position name children
    | _ => .transparent children
  | .VerbatimBlockComment children => .wrap "<verbatim><![CDATA[" "]]></verbatim>" children
  | .VerbatimBlockLineComment text => .leaf (text ++ "\n")
  | .VerbatimLineComment children => .transparent children

/-- The children that a handler of the given form traverses. -/
def Shape.children : Shape → List Comment
  | .absent => []
  | .leaf _ => []
  | .transparent children => children
  | .wrap _ _ children => children
  | .storeBrief children => children
  | .storeReturn children => children
  | .storeParam _ _ children => children

/-- The result of a handler of the given form. -/
def runShape (k : Kind) (s : Shape) (d : Descriptor) : String × Descriptor :=
  match s with
  | .absent => ("", d)
  | .leaf text => (text, d)
  | .transparent children => traverseChildren k children d ""
  | .wrap opening closing children =>
    (opening ++ (traverseChildren k children d "").1 ++ closing,
     (traverseChildren k children d "").2)
  | .storeBrief children =>
    ("", { (traverseChildren k children d "").2 with
            brief := (traverseChildren k children d "").1 })
  | .storeReturn children =>
    ("", { (traverseChildren k children d "").2 with
            ret := (traverseChildren k children d "").1 })
  | .storeParam index name children =>
    ("", { (traverseChildren k children d "").2 with
            cout := (traverseChildren k children d "").2.cout ++ printedName index name
            params := (traverseChildren k children d "").2.params
              ++ [⟨storedIndex index, name, (traverseChildren k children d "").1⟩] })

/-- The comment itself as entered, unless it is a null pointer. -/
def enteredSelf (k : Kind) (c : Comment) : List Comment :=
  match shape k c with
  | .absent => []
  | _ => [c]

/-- The text that a `return` or `returns` block command stores in a method
descriptor: the text of its children. -/
def returnDoc (k : Kind) (c : Comment) : Option String :=
  match shape k c with
  | .storeReturn children => some (childrenText k children)
  | _ => none

/-- The texts of the entered block commands that store a return comment, in the order
in which the traversal enters them. -/
def returnsInOrder (k : Kind) (c : Comment) : List String :=
  (visitedNodes k c).filterMap (returnDoc k)

/-- Whether a comment is a block command that stores a return comment and below which
another such block command is entered. -/
def returnInsideReturn (k : Kind) (c : Comment) : Bool :=
  match shape k c with
  | .storeReturn children =>
    (visitedNodesChildren k children).any (fun n => (returnDoc k n).isSome)
  | _ => false

/-- A comment with a `return` block and then a `returns` block. -/
def commentReturnAB : Comment :=
  .FullComment
    [.BlockCommandComment .KCI_return [.ParagraphComment [.TextComment "A" false]],
     .BlockCommandComment .KCI_returns [.ParagraphComment [.TextComment "B" false]]]

/-- A comment with a `note` block command. -/
def commentNote : Comment :=
  .FullComment
    [.BlockCommandComment .KCI_note [.ParagraphComment [.TextComment "x" false]]]

/-- A comment with a brief description, a paragraph, a parameter, a return comment and
a note; the letter `w` occurs once in each of them. -/
def commentMixed : Comment :=
  .FullComment
    [.BlockCommandComment .KCI_brief [.ParagraphComment [.TextComment "xw" false]],
     .ParagraphComment [.TextComment "w & y" false],
     .ParamCommandComment (some 0) "p" [.ParagraphComment [.TextComment "wz" false]],
     .BlockCommandComment .KCI_returns [.ParagraphComment [.TextComment "w" false]],
     .BlockCommandComment .KCI_note [.ParagraphComment [.TextComment "w lost" false]]]

mutual
/-- All comments of a comment tree, depth first: a comment, then the comments below
it, child by child from left to right.  A null pointer is no comment. -/
def allNodes : Comment → List Comment
  | .null => []
  | .BlockCommandComment commandID children =>
    .BlockCommandComment commandID children :: allNodesChildren children
  | .FullComment children => .FullComment children :: allNodesChildren children
  | .HTMLEndTagComment children => .HTMLEndTagComment children :: allNodesChildren children
  | .HTMLStartTagComment children =>
    .HTMLStartTagComment children :: allNodesChildren children
  | .InlineCommandComment commandID => [.InlineCommandComment commandID]
  | .ParamCommandComment paramIndex name children =>
    .ParamCommandComment paramIndex name children :: allNodesChildren children
  | .ParagraphComment children => .ParagraphComment children :: allNodesChildren children
  | .TextComment text isWhitespace => [.TextComment text isWhitespace]
  | .TParamCommandComment position name children =>
    .TParamCommandComment position name children :: allNodesChildren children
  | .VerbatimBlockComment children =>
    .VerbatimBlockComment children :: allNodesChildren children
  | .VerbatimBlockLineComment text => [.VerbatimBlockLineComment text]
  | .VerbatimLineComment children =>
    .VerbatimLineComment children :: allNodesChildren children
/-- All comments of a list of comment trees. -/
def allNodesChildren : List Comment → List Comment
  | [] => []
  | c :: rest => allNodes c ++ allNodesChildren rest
end

/-- Whether a comment is a block command whose handler, in a descriptor of class `k`,
takes the path `skip` although there are comments below it. -/
def skipsChildren (k : Kind) : Comment → Bool
  | .BlockCommandComment commandID children =>
    !(decide (k = .MethodDescriptor) && returnCommand commandID)
      && decide (blockPath commandID = .skip)
      && !(allNodesChildren children).isEmpty
  | _ => false

mutual
/-- A comment tree without its parameter commands: every `ParamCommandComment` is
taken out of the list of children it stands in (one that is the root becomes a null
pointer). -/
def removeParams : Comment → Comment
  | .null => .null
  | .BlockCommandComment commandID children =>
    .BlockCommandComment commandID (removeParamsChildren children)
  | .FullComment children => .FullComment (removeParamsChildren children)
  | .HTMLEndTagComment children => .HTMLEndTagComment (removeParamsChildren children)
  | .HTMLStartTagComment children => .HTMLStartTagComment (removeParamsChildren children)
  | .InlineCommandComment commandID => .InlineCommandComment commandID
  | .ParamCommandComment _ _ _ => .null
  | .ParagraphComment children => .ParagraphComment (removeParamsChildren children)
  | .TextComment text isWhitespace => .TextComment text isWhitespace
  | .TParamCommandComment position name children =>
    .TParamCommandComment position name (removeParamsChildren children)
  | .VerbatimBlockComment children => .VerbatimBlockComment (removeParamsChildren children)
  | .VerbatimBlockLineComment text => .VerbatimBlockLineComment text
  | .VerbatimLineComment children => .VerbatimLineComment (removeParamsChildren children)
/-- A list of comment trees without the parameter commands. -/
def removeParamsChildren : List Comment → List Comment
  | [] => []
  | c :: rest =>
    if isParamCommand c then removeParamsChildren rest
    else removeParams c :: removeParamsChildren rest
end

/-- Modelled from the spec: what the output operators read from the clang declaration
and the visitor, as the text they write: the name, the qualified name, the
attributes of the `info` element (one ` key="true"` for each property of the
declaration that holds, then the access), the USR, the pretty-printed declaration
and the output of the member declarations. -/
structure DeclText where
  name : String
  qualified : String
  info : String
  usr : String
  pretty : String
  members : String
deriving DecidableEq, Repr

/-- The body of the loop over `obj._params` in the output operators: one `param`
element. -/
def outputParam (param : ParamDescriptor) : String :=
  "<param index=\"" ++ toString param.index ++ "\">"
    ++ "<name>" ++ escape param.name ++ "</name>"
    ++ "<brief>" ++ escape param.description ++ "</brief>"
    ++ "</param>"

/-- The statement `if (!obj._params.empty()) ...` of the output operators of the class,
constructor, destructor and method descriptors. -/
def outputParams (params : List ParamDescriptor) : String :=
  if params.isEmpty then ""
  else "<parameters>" ++ String.join (params.map outputParam) ++ "</parameters>"

/-- The output operators `operator<<` of the descriptors, as the string they write to
the stream. -/
def output (k : Kind) (t : DeclText) (d : Descriptor) : String :=
  match k with
  | .NamespaceDescriptor =>
    "<namespace" ++ " name=\"" ++ escape t.name ++ "\""
      ++ " qualified=\"" ++ escape t.qualified ++ "\"" ++ ">"
      ++ "<brief>" ++ d.brief ++ "</brief>"
      ++ "<detailed>" ++ d.detailed ++ "</detailed>"
      ++ t.members ++ "</namespace>"
  | .ClassDescriptor =>
    "<class" ++ " name=\"" ++ escape t.name ++ "\""
      ++ " qualified=\"" ++ escape t.qualified ++ "\"" ++ ">"
      ++ "<usr>" ++ escape t.usr ++ "</usr>"
      ++ "<declaration>" ++ escape t.pretty ++ "</declaration>"
      ++ outputParams d.params
      ++ "<brief>" ++ d.brief ++ "</brief>"
      ++ "<detailed>" ++ d.detailed ++ "</detailed>"
      ++ t.members ++ "</class>"
  | .ConstructorDescriptor =>
    "<method" ++ " name=\"" ++ escape t.name ++ "\"" ++ ">"
      ++ "<info constructor=\"true\" " ++ t.info ++ "/>"
      ++ "<usr>" ++ escape t.usr ++ "</usr>"
      ++ "<declaration>" ++ escape t.pretty ++ "</declaration>"
      ++ outputParams d.params
      ++ "<brief>" ++ d.brief ++ "</brief>"
      ++ "<detailed>" ++ d.detailed ++ "</detailed>"
      ++ "</method>"
  | .DestructorDescriptor =>
    "<method" ++ " name=\"" ++ escape t.name ++ "\"" ++ ">"
      ++ "<info destructor=\"true\" " ++ t.info ++ "/>"
      ++ "<usr>" ++ escape t.usr ++ "</usr>"
      ++ "<declaration>" ++ escape t.pretty ++ "</declaration>"
      ++ outputParams d.params
      ++ "<brief>" ++ d.brief ++ "</brief>"
      ++ "<detailed>" ++ d.detailed ++ "</detailed>"
      ++ "</method>"
  | .MethodDescriptor =>
    "<method" ++ " name=\"" ++ escape t.name ++ "\"" ++ ">"
      ++ "<info" ++ t.info ++ "/>"
      ++ "<usr>" ++ escape t.usr ++ "</usr>"
      ++ "<declaration>" ++ escape t.pretty ++ "</declaration>"
      ++ outputParams d.params
      ++ (if d.ret = "" then "" else "<return>" ++ d.ret ++ "</return>")
      ++ "<brief>" ++ d.brief ++ "</brief>"
      ++ "<detailed>" ++ d.detailed ++ "</detailed>"
      ++ "</method>"
  | .EnumDescriptor =>
    "<enum" ++ " name=\"" ++ escape t.name ++ "\">"
      ++ "<brief>" ++ d.brief ++ "</brief>"
      ++ "<detailed>" ++ d.detailed ++ "</detailed>"
      ++ "<values>" ++ t.members ++ "</values>"
      ++ "</enum>"
  | .EnumConstantDescriptor =>
    "<value" ++ " name=\"" ++ escape t.name ++ "\">"
      ++ "<brief>" ++ d.brief ++ "</brief>"
      ++ "<detailed>" ++ d.detailed ++ "</detailed>"
      ++ "</value>"

/-- The name warnings for two parameter lists as a function of the pairs of names alone:
the lists are paired in order, and a pair of different names gives its warning. -/
def pairWarnings (descs : List ParamDescriptor) (decls : List String) : List String :=
  (descs.zip decls).filterMap
    (fun pair => if pair.1.name ≠ pair.2 then some (nameMessage pair.2 pair.1.name) else none)

/-- A comment that documents the parameter `b` only. -/
def commentB : Comment :=
  .FullComment
    [.ParamCommandComment (some 0) "b" [.ParagraphComment [.TextComment "second" false]]]

/-- A comment with a brief description and a parameter whose texts hold the reserved
character `<`. -/
def commentLess : Comment :=
  .FullComment
    [.BlockCommandComment .KCI_brief [.ParagraphComment [.TextComment "a<b" false]],
     .ParamCommandComment (some 0) "p" [.ParagraphComment [.TextComment "a<b" false]]]

/-- The five entities that `escape` writes, in the order of the case labels. -/
def entities : List String :=
  ["&apos;", "&quot;", "&lt;", "&gt;", "&amp;"]

/-- The four reserved characters other than the ampersand. -/
def bareChars : List Char :=
  [Char.ofNat 39, Char.ofNat 34, Char.ofNat 60, Char.ofNat 62]

/-- A `brief` block command with a paragraph, another `brief` block command and a
second paragraph below it. -/
def commentNestedBrief : Comment :=
  .FullComment
    [.BlockCommandComment .KCI_brief
      [.ParagraphComment [.TextComment "outer " false],
       .BlockCommandComment .KCI_brief [.ParagraphComment [.TextComment "inner" false]],
       .ParagraphComment [.TextComment "text" false]]]

/-- A comment with a `returns` block command that holds whitespace only. -/
def commentBlankReturn : Comment :=
  .FullComment
    [.ParagraphComment [.TextComment "Text." false],
     .BlockCommandComment .KCI_returns [.ParagraphComment [.TextComment " " true]]]

/-! ## The visitor of `visitor.cpp` -/

/-- Modelled from the spec: the type `CXChildVisitResult` of libclang, which the
repository only uses: what a visitor callback tells `clang_visitChildren` to do
next. -/
inductive CXChildVisitResult where
  | CXChildVisit_Break
  | CXChildVisit_Continue
  | CXChildVisit_Recurse
deriving DecidableEq, Repr

/-- Modelled from the spec: the cursor kinds of libclang (`CXCursorKind`) that the
switch of `Visitor::visit` names; every other kind is `other`, with the spelling that
`clang_getCursorKindSpelling` gives for it. -/
inductive CXCursorKind where
  | CXCursor_PreprocessingDirective
  | CXCursor_MacroDefinition
  | CXCursor_MacroExpansion
  | CXCursor_InclusionDirective
  | CXCursor_Namespace
  | CXCursor_StructDecl
  | CXCursor_UnionDecl
  | CXCursor_ClassDecl
  | CXCursor_ClassTemplate
  | CXCursor_ClassTemplatePartialSpecialization
  | CXCursor_EnumDecl
  | CXCursor_EnumConstantDecl
  | CXCursor_TypedefDecl
  | CXCursor_Constructor
  | CXCursor_Destructor
  | CXCursor_CXXMethod
  | CXCursor_FunctionTemplate
  | CXCursor_FieldDecl
  | CXCursor_CXXAccessSpecifier
  | CXCursor_FriendDecl
  | other (kindSpelling : String)
deriving DecidableEq, Repr

/-- Modelled from the spec: what the visitor and the descriptors read from a clang
cursor and its declaration: the kind, the file name and line of the presumed
location, the spelling, whether the access is private, whether the declaration is a
definition, the comment of the declaration, and what the checks and the output
operators read. -/
structure CursorInfo where
  kind : CXCursorKind
  filename : String
  line : Nat
  spelling : String
  isPrivate : Bool
  isDefinition : Bool
  comment : Comment
  decl : Decl
  text : DeclText

/-- Modelled from the spec: a clang cursor with the cursors below it, in the order in
which `clang_visitChildren` passes them to the callback. -/
inductive Cursor where
  | mk (info : CursorInfo) (children : List Cursor)

/-- The classes `AnyFilter` and `FileFilter` of `visitor.h`. -/
inductive Filter where
  | AnyFilter
  | FileFilter (path : String)
deriving DecidableEq, Repr

/-- The functions `AnyFilter::match` and `FileFilter::match`: the file filter compares
the file name of the presumed location with its path. -/
def Filter.matchCursor : Filter → CursorInfo → Bool
  | .AnyFilter, _ => true
  | .FileFilter path, info => decide (info.filename = path)

/-- The streams that the visitor and the descriptors write to: the stream `ostr` of
the client data, `std::cout` and `std::cerr` (one entry per line). -/
structure Streams where
  ostr : String
  cout : List String
  cerr : List String
deriving DecidableEq, Repr

/-- The line that `warn` of `warn_error.cpp` writes for a cursor and a message. -/
def warnLine (info : CursorInfo) (msg : String) : String :=
  "[warn]: " ++ info.filename ++ ":" ++ toString info.line ++ ": " ++ msg

/-- The lines that the descriptor of a cursor has written, appended to `std::cout`
and `std::cerr`. -/
def Streams.lines (s : Streams) (info : CursorInfo) (d : Descriptor) : Streams :=
  { s with cout := s.cout ++ d.cout, cerr := s.cerr ++ d.cerr.map (warnLine info) }

/-- The overloads of `Visitor::generate` for a declaration without member
declarations (`EnumConstantDecl`, `CXXMethodDecl`, `CXXConstructorDecl`,
`CXXDestructorDecl`): nothing for a private declaration, else `generate` of the
descriptor and its output on `ostr`. -/
def generateLeaf (k : Kind) (info : CursorInfo) (s : Streams) : Streams :=
  if info.isPrivate then s
  else
    let d := generate k info.comment info.decl
    { s.lines info d with ostr := s.ostr ++ output k info.text d }

mutual
/-- The function `Visitor::visit`.  The switch either leaves with `break` (`none`) or
returns a result by itself (`some`); every case ends in `break`, also the case
`CXCursor_Namespace`, where `return CXChildVisit_Recurse` stands after the `break`.
The overloads of `Visitor::generate` for a namespace, a record and an enum are
written out here: their descriptors call `Visitor::generate(CXCursor)`, which visits
the children into a fresh stream; the class descriptor sets the pretty-printed
declaration to `class` and the name. -/
def Visitor.visit (filter : Filter) : Cursor → Streams → CXChildVisitResult × Streams
  | .mk info children, s =>
    if filter.matchCursor info = false then (.CXChildVisit_Continue, s)
    else
      let switch : Option CXChildVisitResult × Streams :=
        match info.kind with
        | .CXCursor_PreprocessingDirective => (none, s)
        | .CXCursor_MacroDefinition => (none, s)
        | .CXCursor_MacroExpansion => (none, s)
        | .CXCursor_InclusionDirective => (none, s)
        | .CXCursor_Namespace =>
          (none,
            if info.isPrivate then s
            else
              let d := generate .NamespaceDescriptor info.comment info.decl
              let m := Visitor.visitChildren filter children
                { s.lines info d with ostr := "" }
              { m.2 with
                ostr := s.ostr
                  ++ output .NamespaceDescriptor { info.text with members := m.2.ostr } d })
        | .CXCursor_StructDecl | .CXCursor_UnionDecl | .CXCursor_ClassDecl =>
          (none,
            if info.isPrivate then s
            else if info.isDefinition = false then s
            else
              let d := generate .ClassDescriptor info.comment info.decl
              let m := Visitor.visitChildren filter children
                { s.lines info d with ostr := "" }
              { m.2 with
                ostr := s.ostr
                  ++ output .ClassDescriptor
                      { info.text with
                        pretty := "class " ++ info.text.name, members := m.2.ostr } d })
        | .CXCursor_ClassTemplate => (none, s)
        | .CXCursor_ClassTemplatePartialSpecialization => (none, s)
        | .CXCursor_EnumDecl =>
          (none,
            if info.isPrivate then s
            else
              let d := generate .EnumDescriptor info.comment info.decl
              let m := Visitor.visitChildren filter children
                { s.lines info d with ostr := "" }
              { m.2 with
                ostr := s.ostr
                  ++ output .EnumDescriptor { info.text with members := m.2.ostr } d })
        | .CXCursor_EnumConstantDecl => (none, generateLeaf .EnumConstantDescriptor info s)
        | .CXCursor_TypedefDecl => (none, s)
        | .CXCursor_Constructor => (none, generateLeaf .ConstructorDescriptor info s)
        | .CXCursor_Destructor => (none, generateLeaf .DestructorDescriptor info s)
        | .CXCursor_CXXMethod => (none, generateLeaf .MethodDescriptor info s)
        | .CXCursor_FunctionTemplate => (none, s)
        | .CXCursor_FieldDecl => (none, s)
        | .CXCursor_CXXAccessSpecifier => (none, s)
        | .CXCursor_FriendDecl => (none, s)
        | .other kindSpelling =>
          (none,
            { s with
              cerr := s.cerr ++
                [warnLine info ("Unsupported declaration type " ++ kindSpelling
                  ++ " for '" ++ info.spelling ++ "'")] })
      match switch.1 with
      | some result => (result, switch.2)
      | none => (.CXChildVisit_Continue, switch.2)
/-- Modelled from the spec: the function `clang_visitChildren` of libclang with the
callback `__visit`, on the children of a cursor: the callback is called for each
child in turn; `CXChildVisit_Break` ends the traversal, `CXChildVisit_Continue` goes
on with the next sibling, and `CXChildVisit_Recurse` first visits the children of the
child in the same way.  The first component tells whether the traversal was ended
by `CXChildVisit_Break`. -/
def Visitor.visitChildren (filter : Filter) : List Cursor → Streams → Bool × Streams
  | [], s => (false, s)
  | .mk info children :: rest, s =>
    match Visitor.visit filter (.mk info children) s with
    | (.CXChildVisit_Break, s1) => (true, s1)
    | (.CXChildVisit_Continue, s1) => Visitor.visitChildren filter rest s1
    | (.CXChildVisit_Recurse, s1) =>
      match Visitor.visitChildren filter children s1 with
      | (true, s2) => (true, s2)
      | (false, s2) => Visitor.visitChildren filter rest s2
end

/-- The function `Visitor::generate(std::ostream&, const Filter&)`: the output of the
cursors of the translation unit between `<doc>` and `</doc>`. -/
def Visitor.generate (filter : Filter) (unit : List Cursor) (s : Streams) : Streams :=
  let r := Visitor.visitChildren filter unit { s with ostr := s.ostr ++ "<doc>" }
  { r.2 with ostr := r.2.ostr ++ "</doc>" }

/-- What the callback of `clang_visitChildren` does to the streams for each cursor of a
list in turn, without any visit of the cursors below them by libclang. -/
def visitSiblings (filter : Filter) (cursors : List Cursor) (s : Streams) : Streams :=
  cursors.foldl (fun acc c => (Visitor.visit filter c acc).2) s

/-- A cursor in the file `a.h`, of the given kind, with a method below it. -/
def cursorOfKind (kind : CXCursorKind) : Cursor :=
  .mk ⟨kind, "a.h", 3, "N", false, true, commentNote, ⟨[], false⟩,
        ⟨"N", "N", "", "c:@N", "N", ""⟩⟩
    [.mk ⟨.CXCursor_CXXMethod, "a.h", 5, "f", false, true, commentParamX, ⟨["x"], true⟩,
          ⟨"f", "N::f", "", "c:@N@f", "int f(int x)", ""⟩⟩ []]

/-! ## The traversal and the checks with bounds on calls and iterations -/

/-- The loop of `Descriptor::traverse(child_iterator begin, child_iterator end)` over
a handler that may give no result: the loop ends without a result as soon as one
call does. -/
def traverseChildrenFuel (handler : Comment → Descriptor → Option (String × Descriptor)) :
    List Comment → Descriptor → String → Option (String × Descriptor)
  | [], d, result => some (result, d)
  | c :: rest, d, result =>
    match handler c d with
    | none => none
    | some r => traverseChildrenFuel handler rest r.2 (result ++ r.1)

/-- One call of `traverse(const Comment*)` with the handler it dispatches to, as in
`traverse`, where the calls for the children go to `handler`, which may give no
result. -/
def traverseCall (k : Kind)
    (handler : Comment → Descriptor → Option (String × Descriptor)) :
    Comment → Descriptor → Option (String × Descriptor)
  | .null, d => some ("", d)
  | .BlockCommandComment commandID children, d =>
    if k = .MethodDescriptor ∧ returnCommand commandID = true then
      (traverseChildrenFuel handler children d "").map
        (fun r => ("", { r.2 with ret := r.1 }))
    else
      match blockPath commandID with
      | .skip => some ("", d)
      | .brief =>
        (traverseChildrenFuel handler children d "").map
          (fun r => ("", { r.2 with brief := r.1 }))
      | .verbatim =>
        (traverseChildrenFuel handler children d "").map
          (fun r => ("" ++ "<verbatim>" ++ r.1 ++ "</verbatim>", r.2))
  | .FullComment children, d => traverseChildrenFuel handler children d ""
  | .HTMLEndTagComment children, d => traverseChildrenFuel handler children d ""
  | .HTMLStartTagComment children, d => traverseChildrenFuel handler children d ""
  | .InlineCommandComment _, d => some ("", d)
  | .ParamCommandComment paramIndex name children, d =>
    match k with
    | .ConstructorDescriptor | .DestructorDescriptor | .MethodDescriptor =>
      (traverseChildrenFuel handler children d "").map
        (fun r =>
          match paramIndex with
          | some i => ("", { r.2 with params := r.2.params ++ [⟨i, name, r.1⟩] })
          | none =>
            ("", { r.2 with
                    cout := r.2.cout ++ [name]
                    params := r.2.params ++ [⟨unsignedMinusOne, name, r.1⟩] }))
    | _ => traverseChildrenFuel handler children d ""
  | .ParagraphComment children, d => traverseChildrenFuel handler children d ""
  | .TextComment text isWhitespace, d =>
    if isWhitespace then some ("", d) else some (escape text, d)
  | .TParamCommandComment position name children, d =>
    match k with
    | .ClassDescriptor =>
      (traverseChildrenFuel handler children d "").map
        (fun r =>
          match position with
          | some i => ("", { r.2 with params := r.2.params ++ [⟨i, name, r.1⟩] })
          | none =>
            ("", { r.2 with
                    cout := r.2.cout ++ [name]
                    params := r.2.params ++ [⟨unsignedMinusOne, name, r.1⟩] }))
    | _ => traverseChildrenFuel handler children d ""
  | .VerbatimBlockComment children, d =>
    (traverseChildrenFuel handler children d "").map
      (fun r => ("" ++ "<verbatim><![CDATA[" ++ r.1 ++ "]]></verbatim>", r.2))
  | .VerbatimBlockLineComment text, d => some ("" ++ (text ++ "\n"), d)
  | .VerbatimLineComment children, d => traverseChildrenFuel handler children d ""

/-- The function `traverse(const Comment*)` with a bound on the depth of the nested
calls: each call takes one from the bound, and a call with the bound at zero gives no
result. -/
def traverseFuel (k : Kind) : Nat → Comment → Descriptor → Option (String × Descriptor)
  | 0 => fun _ _ => none
  | fuel + 1 => traverseCall k (traverseFuel k fuel)

/-- The function `Descriptor::traverse()` with a bound on the depth of the calls of
`traverse(const Comment*)`. -/
def traverseDeclFuel (k : Kind) (fuel : Nat) (fc : Comment) (d : Descriptor) :
    Option Descriptor :=
  match fc with
  | .null => some (warn d "No comment for declaration.")
  | fc => (traverseFuel k fuel fc d).map (fun r => { r.2 with detailed := r.1 })

/-- The loop over `desc_iter` and `decl_iter` in `generate` with a bound on the number
of iterations: an iteration with the bound at zero gives no result. -/
def matchNamesFuel : Nat → List ParamDescriptor → List String → Descriptor →
    Option Descriptor
  | 0, _ :: _, _ :: _, _ => none
  | steps + 1, desc :: descs, declName :: declNames, d =>
    matchNamesFuel steps descs declNames
      (if desc.name ≠ declName then warn d (nameMessage declName desc.name) else d)
  | _, _, _, d => some d

/-- The function `generate` of the descriptor of class `k`, on a fresh descriptor, with
a bound on the depth of the calls of the traversal and a bound on the iterations of
the loop over the parameters. -/
def generateFuel (fuel steps : Nat) (k : Kind) (fc : Comment) (decl : Decl) :
    Option Descriptor :=
  match traverseDeclFuel k fuel fc Descriptor.init with
  | none => none
  | some d =>
    let checked : Option Descriptor :=
      if d.params.length ≠ decl.params.length then
        some (warn d (countMessage decl.params.length d.params.length))
      else
        matchNamesFuel steps d.params decl.params d
    match k with
    | .ConstructorDescriptor => checked
    | .DestructorDescriptor => checked
    | .MethodDescriptor => checked.map (checkReturn decl)
    | _ => some d

mutual
/-- The number of nested calls of `traverse(const Comment*)` down to the deepest
comment of a tree; a null pointer takes none below the call for it. -/
def height : Comment → Nat
  | .null => 0
  | .BlockCommandComment _ children => heightChildren children + 1
  | .FullComment children => heightChildren children + 1
  | .HTMLEndTagComment children => heightChildren children + 1
  | .HTMLStartTagComment children => heightChildren children + 1
  | .InlineCommandComment _ => 0
  | .ParamCommandComment _ _ children => heightChildren children + 1
  | .ParagraphComment children => heightChildren children + 1
  | .TextComment _ _ => 0
  | .TParamCommandComment _ _ children => heightChildren children + 1
  | .VerbatimBlockComment children => heightChildren children + 1
  | .VerbatimBlockLineComment _ => 0
  | .VerbatimLineComment children => heightChildren children + 1
/-- The largest height among the comments of a list; zero for the empty list. -/
def heightChildren : List Comment → Nat
  | [] => 0
  | c :: rest => max (height c) (heightChildren rest)
end

/-- The comments directly below a comment. -/
def childrenOf : Comment → List Comment
  | .BlockCommandComment _ children => children
  | .FullComment children => children
  | .HTMLEndTagComment children => children
  | .HTMLStartTagComment children => children
  | .ParamCommandComment _ _ children => children
  | .ParagraphComment children => children
  | .TParamCommandComment _ _ children => children
  | .VerbatimBlockComment children => children
  | .VerbatimLineComment children => children
  | _ => []

/-- A comment of a class that is no template, with a `tparam` command for `T`: no
position is resolved for it. -/
def commentTparam : Comment :=
  .FullComment
    [.ParagraphComment [.TextComment "A box." false],
     .TParamCommandComment none "T" [.ParagraphComment [.TextComment "the type" false]]]

/-- The cursor of the definition of the class `Box` in `a.h`, which is no template and
has no members, with the comment `commentTparam`. -/
def cursorBox : Cursor :=
  .mk ⟨.CXCursor_ClassDecl, "a.h", 3, "Box", false, true, commentTparam, ⟨[], false⟩,
        ⟨"Box", "Box", "", "c:@S@Box", "", ""⟩⟩ []

/-- A comment with a `return` block command and then a `returns` block command that
holds whitespace only. -/
def commentReturnThenBlank : Comment :=
  .FullComment
    [.BlockCommandComment .KCI_return [.ParagraphComment [.TextComment "A" false]],
     .BlockCommandComment .KCI_returns [.ParagraphComment [.TextComment " " true]]]

/-- A comment with a `returns` block command that holds whitespace only and then a
`return` block command. -/
def commentBlankThenReturn : Comment :=
  .FullComment
    [.BlockCommandComment .KCI_returns [.ParagraphComment [.TextComment " " true]],
     .BlockCommandComment .KCI_return [.ParagraphComment [.TextComment "B" false]]]

/-! ## Lemmas on the checks of `generate` -/

theorem warn_cerr (d : Descriptor) (msg : String) : (warn d msg).cerr = d.cerr ++ [msg] := rfl

theorem mismatchAt_succ (p : ParamDescriptor) (ps : List ParamDescriptor) (n : String)
    (ns : List String) (i : Nat) :
    mismatchAt (p :: ps) (n :: ns) (i + 1) = mismatchAt ps ns i := by
  simp [mismatchAt]

theorem mismatches_cons (p : ParamDescriptor) (ps : List ParamDescriptor) (n : String)
    (ns : List String) :
    mismatches (p :: ps) (n :: ns)
      = (if p.name ≠ n then [nameMessage n p.name] else []) ++ mismatches ps ns := by
  have hfun : (mismatchAt (p :: ps) (n :: ns)) ∘ Nat.succ = mismatchAt ps ns := by
    funext i
    exact mismatchAt_succ p ps n ns i
  simp only [mismatches, List.length_cons, List.range_succ_eq_map, List.filterMap_cons,
    List.filterMap_map, hfun]
  by_cases h : p.name = n <;> simp [mismatchAt, h]

theorem mismatches_nil_right (descs : List ParamDescriptor) : mismatches descs [] = [] := by
  simp [mismatches, mismatchAt]

theorem matchNames_eq (descs : List ParamDescriptor) :
    ∀ (decls : List String) (d : Descriptor),
      matchNames descs decls d = { d with cerr := d.cerr ++ mismatches descs decls } := by
  induction descs with
  | nil => intro decls d; simp [matchNames, mismatches]
  | cons p ps ih =>
    intro decls d
    cases decls with
    | nil => simp [matchNames, mismatches_nil_right]
    | cons n ns =>
      rw [matchNames, ih, mismatches_cons]
      by_cases h : p.name = n
      · simp [h]
      · simp [h, warn]

theorem checkReturn_eq (decl : Decl) (d : Descriptor) :
    checkReturn decl d = { d with cerr := d.cerr ++ returnWarnings decl d } := by
  unfold checkReturn returnWarnings
  split <;> simp [warn]

theorem countMessage_head (a b : Nat) : (countMessage a b).data.head? = some 'N' := by
  simp [countMessage, String.data_append]

theorem nameMessage_head (a b : String) : (nameMessage a b).data.head? = some 'P' := by
  simp [nameMessage, String.data_append]

theorem returnMessage_head : returnMessage.data.head? = some 'M' := by
  simp [returnMessage]

theorem countMessage_ne_nameMessage (a b : Nat) (x y : String) :
    countMessage a b ≠ nameMessage x y := by
  intro h
  have h1 := countMessage_head a b
  rw [h, nameMessage_head] at h1
  exact absurd h1 (by decide)

theorem returnMessage_ne_nameMessage (x y : String) : returnMessage ≠ nameMessage x y := by
  intro h
  have h1 := returnMessage_head
  rw [h, nameMessage_head] at h1
  exact absurd h1 (by decide)

theorem returnMessage_ne_countMessage (a b : Nat) : returnMessage ≠ countMessage a b := by
  intro h
  have h1 := returnMessage_head
  rw [h, countMessage_head] at h1
  exact absurd h1 (by decide)

theorem mem_mismatches {m : String} {descs : List ParamDescriptor} {decls : List String}
    (h : m ∈ mismatches descs decls) : ∃ x y, m = nameMessage x y := by
  simp only [mismatches, List.mem_filterMap] at h
  obtain ⟨i, _, hi⟩ := h
  unfold mismatchAt at hi
  split at hi
  · split at hi
    · exact ⟨_, _, (Option.some.inj hi).symm⟩
    · exact absurd hi (by simp)
  · exact absurd hi (by simp)

theorem checkParams_eq (decl : Decl) (d : Descriptor) :
    checkParams decl d =
      { d with cerr := d.cerr ++
          (if d.params.length ≠ decl.params.length then
            [countMessage decl.params.length d.params.length]
           else mismatches d.params decl.params) } := by
  unfold checkParams
  split
  · rfl
  · exact matchNames_eq _ _ _

theorem emitted_constructor (decl : Decl) (d : Descriptor) :
    emitted .ConstructorDescriptor decl d =
      (if d.params.length ≠ decl.params.length then
        [countMessage decl.params.length d.params.length]
       else mismatches d.params decl.params) := by
  simp [emitted, validate, checkParams_eq]

theorem emitted_destructor (decl : Decl) (d : Descriptor) :
    emitted .DestructorDescriptor decl d =
      (if d.params.length ≠ decl.params.length then
        [countMessage decl.params.length d.params.length]
       else mismatches d.params decl.params) := by
  simp [emitted, validate, checkParams_eq]

theorem emitted_method (decl : Decl) (d : Descriptor) :
    emitted .MethodDescriptor decl d =
      (if d.params.length ≠ decl.params.length then
        [countMessage decl.params.length d.params.length]
       else mismatches d.params decl.params) ++ returnWarnings decl d := by
  simp [emitted, validate, checkParams_eq, checkReturn_eq, returnWarnings]

theorem validate_cerr (k : Kind) (decl : Decl) (d : Descriptor) :
    (validate k decl d).cerr = d.cerr ++ emitted k decl d := by
  cases k <;> simp [emitted, validate, checkParams_eq, checkReturn_eq]


/-! ## Lemmas on the traversal -/

theorem string_empty_append (s : String) : "" ++ s = s := by
  apply String.ext
  simp [String.data_append]

theorem string_append_empty (s : String) : s ++ "" = s := by
  apply String.ext
  simp [String.data_append]

theorem string_append_assoc (a b c : String) : a ++ b ++ c = a ++ (b ++ c) := by
  apply String.ext
  simp [String.data_append]

/-! The defining equations of `traverse` and `traverseChildren`, one for each kind of
comment. -/

theorem traverse_null (k : Kind) (d : Descriptor) : traverse k .null d = ("", d) := rfl

theorem traverse_block (k : Kind) (commandID : CommandID) (cs : List Comment)
    (d : Descriptor) :
    traverse k (.BlockCommandComment commandID cs) d =
      if k = .MethodDescriptor ∧ returnCommand commandID = true then
        ("", { (traverseChildren k cs d "").2 with ret := (traverseChildren k cs d "").1 })
      else
        match blockPath commandID with
        | .skip => ("", d)
        | .brief =>
          ("", { (traverseChildren k cs d "").2 with brief := (traverseChildren k cs d "").1 })
        | .verbatim =>
          ("" ++ "<verbatim>" ++ (traverseChildren k cs d "").1 ++ "</verbatim>",
           (traverseChildren k cs d "").2) := rfl

theorem traverse_full (k : Kind) (cs : List Comment) (d : Descriptor) :
    traverse k (.FullComment cs) d = traverseChildren k cs d "" := rfl

theorem traverse_htmlEnd (k : Kind) (cs : List Comment) (d : Descriptor) :
    traverse k (.HTMLEndTagComment cs) d = traverseChildren k cs d "" := rfl

theorem traverse_htmlStart (k : Kind) (cs : List Comment) (d : Descriptor) :
    traverse k (.HTMLStartTagComment cs) d = traverseChildren k cs d "" := rfl

theorem traverse_inline (k : Kind) (commandID : CommandID) (d : Descriptor) :
    traverse k (.InlineCommandComment commandID) d = ("", d) := rfl

theorem traverse_param (k : Kind) (index : Option Nat) (name : String)
    (cs : List Comment) (d : Descriptor) :
    traverse k (.ParamCommandComment index name cs) d =
      match k with
      | .ConstructorDescriptor | .DestructorDescriptor | .MethodDescriptor =>
        match index with
        | some i =>
          ("", { (traverseChildren k cs d "").2 with
                  params := (traverseChildren k cs d "").2.params
                    ++ [⟨i, name, (traverseChildren k cs d "").1⟩] })
        | none =>
          ("", { (traverseChildren k cs d "").2 with
                  cout := (traverseChildren k cs d "").2.cout ++ [name]
                  params := (traverseChildren k cs d "").2.params
                    ++ [⟨unsignedMinusOne, name, (traverseChildren k cs d "").1⟩] })
      | _ => traverseChildren k cs d "" := by
  cases k <;> rfl

theorem traverse_paragraph (k : Kind) (cs : List Comment) (d : Descriptor) :
    traverse k (.ParagraphComment cs) d = traverseChildren k cs d "" := rfl

theorem traverse_text (k : Kind) (text : String) (isWhitespace : Bool) (d : Descriptor) :
    traverse k (.TextComment text isWhitespace) d =
      if isWhitespace then ("", d) else (escape text, d) := rfl

theorem traverse_tparam (k : Kind) (index : Option Nat) (name : String)
    (cs : List Comment) (d : Descriptor) :
    traverse k (.TParamCommandComment index name cs) d =
      match k with
      | .ClassDescriptor =>
        match index with
        | some i =>
          ("", { (traverseChildren k cs d "").2 with
                  params := (traverseChildren k cs d "").2.params
                    ++ [⟨i, name, (traverseChildren k cs d "").1⟩] })
        | none =>
          ("", { (traverseChildren k cs d "").2 with
                  cout := (traverseChildren k cs d "").2.cout ++ [name]
                  params := (traverseChildren k cs d "").2.params
                    ++ [⟨unsignedMinusOne, name, (traverseChildren k cs d "").1⟩] })
      | _ => traverseChildren k cs d "" := by
  cases k <;> rfl

theorem traverse_verbatimBlock (k : Kind) (cs : List Comment) (d : Descriptor) :
    traverse k (.VerbatimBlockComment cs) d =
      ("" ++ "<verbatim><![CDATA[" ++ (traverseChildren k cs d "").1 ++ "]]></verbatim>",
       (traverseChildren k cs d "").2) := rfl

theorem traverse_verbatimBlockLine (k : Kind) (text : String) (d : Descriptor) :
    traverse k (.VerbatimBlockLineComment text) d = ("" ++ (text ++ "\n"), d) := rfl

theorem traverse_verbatimLine (k : Kind) (cs : List Comment) (d : Descriptor) :
    traverse k (.VerbatimLineComment cs) d = traverseChildren k cs d "" := rfl

theorem traverseChildren_nil (k : Kind) (d : Descriptor) (acc : String) :
    traverseChildren k [] d acc = (acc, d) := rfl

theorem traverseChildren_cons (k : Kind) (c : Comment) (rest : List Comment)
    (d : Descriptor) (acc : String) :
    traverseChildren k (c :: rest) d acc
      = traverseChildren k rest (traverse k c d).2 (acc ++ (traverse k c d).1) := rfl

/-- The loop over the children with a `result` that is not empty at the start. -/
theorem traverseChildren_acc (k : Kind) (cs : List Comment) :
    ∀ (d : Descriptor) (acc : String),
      traverseChildren k cs d acc
        = (acc ++ (traverseChildren k cs d "").1, (traverseChildren k cs d "").2) := by
  induction cs with
  | nil => intro d acc; simp [traverseChildren_nil, string_append_empty]
  | cons c rest ih =>
    intro d acc
    simp only [traverseChildren_cons]
    rw [ih (traverse k c d).2 (acc ++ (traverse k c d).1),
      ih (traverse k c d).2 ("" ++ (traverse k c d).1)]
    simp [string_empty_append, string_append_assoc]

theorem Effect.apply_andThen (e₁ e₂ : Effect) (d : Descriptor) :
    (e₁.andThen e₂).apply d = e₂.apply (e₁.apply d) := by
  cases h2 : e₂.brief <;> cases h3 : e₂.ret <;>
    simp [Effect.apply, Effect.andThen, h2, h3]

/-- The block handler for a command identifier on the path `skip` (and, in a method
descriptor, other than `return` and `returns`): nothing is returned, nothing
changes and the children are not traversed. -/
theorem traverse_block_skip (k : Kind) (commandID : CommandID) (cs : List Comment)
    (d : Descriptor) (hpath : blockPath commandID = .skip)
    (hret : k = .MethodDescriptor → returnCommand commandID = false) :
    traverse k (.BlockCommandComment commandID cs) d = ("", d) := by
  have h : ¬ (k = .MethodDescriptor ∧ returnCommand commandID = true) := by
    rintro ⟨h1, h2⟩
    rw [hret h1] at h2
    exact absurd h2 (by decide)
  simp [traverse_block, h, hpath]

theorem traverse_block_brief (k : Kind) (cs : List Comment) (d : Descriptor) :
    traverse k (.BlockCommandComment .KCI_brief cs) d
      = ("", { (traverseChildren k cs d "").2 with brief := (traverseChildren k cs d "").1 }) := by
  have h1 : returnCommand .KCI_brief = false := rfl
  have h2 : blockPath .KCI_brief = .brief := rfl
  simp [traverse_block, h1, h2]

theorem traverse_block_verbatim (k : Kind) (commandID : CommandID) (cs : List Comment)
    (d : Descriptor) (hpath : blockPath commandID = .verbatim) :
    traverse k (.BlockCommandComment commandID cs) d
      = ("<verbatim>" ++ (traverseChildren k cs d "").1 ++ "</verbatim>",
         (traverseChildren k cs d "").2) := by
  have h : returnCommand commandID = false := by
    cases commandID <;> first | rfl | (exact absurd hpath (by decide))
  simp [traverse_block, h, hpath, string_empty_append]

theorem traverse_block_return (commandID : CommandID) (cs : List Comment)
    (d : Descriptor) (hret : returnCommand commandID = true) :
    traverse .MethodDescriptor (.BlockCommandComment commandID cs) d
      = ("", { (traverseChildren .MethodDescriptor cs d "").2 with
                ret := (traverseChildren .MethodDescriptor cs d "").1 }) := by
  simp [traverse_block, hret]

theorem Effect.apply_empty (text : String) (d : Descriptor) :
    (Effect.mk text none [] none []).apply d = d := by
  simp [Effect.apply]

theorem traverse_param_aware (k : Kind) (index : Option Nat) (name : String)
    (cs : List Comment) (d : Descriptor)
    (hk : k = .ConstructorDescriptor ∨ k = .DestructorDescriptor ∨ k = .MethodDescriptor) :
    traverse k (.ParamCommandComment index name cs) d =
      ("", { (traverseChildren k cs d "").2 with
              cout := (traverseChildren k cs d "").2.cout ++ printedName index name
              params := (traverseChildren k cs d "").2.params
                ++ [⟨storedIndex index, name, (traverseChildren k cs d "").1⟩] }) := by
  rw [traverse_param]
  rcases hk with rfl | rfl | rfl <;> cases index <;> simp [printedName, storedIndex]

theorem traverse_param_base (k : Kind) (index : Option Nat) (name : String)
    (cs : List Comment) (d : Descriptor)
    (hk : k ≠ .ConstructorDescriptor ∧ k ≠ .DestructorDescriptor ∧ k ≠ .MethodDescriptor) :
    traverse k (.ParamCommandComment index name cs) d = traverseChildren k cs d "" := by
  rw [traverse_param]
  obtain ⟨h1, h2, h3⟩ := hk
  cases k <;> first | rfl | contradiction

theorem traverse_tparam_aware (index : Option Nat) (name : String)
    (cs : List Comment) (d : Descriptor) :
    traverse .ClassDescriptor (.TParamCommandComment index name cs) d =
      ("", { (traverseChildren .ClassDescriptor cs d "").2 with
              cout := (traverseChildren .ClassDescriptor cs d "").2.cout ++ printedName index name
              params := (traverseChildren .ClassDescriptor cs d "").2.params
                ++ [⟨storedIndex index, name, (traverseChildren .ClassDescriptor cs d "").1⟩] }) := by
  rw [traverse_tparam]
  cases index <;> simp [printedName, storedIndex]

theorem traverse_tparam_base (k : Kind) (index : Option Nat) (name : String)
    (cs : List Comment) (d : Descriptor) (hk : k ≠ .ClassDescriptor) :
    traverse k (.TParamCommandComment index name cs) d = traverseChildren k cs d "" := by
  rw [traverse_tparam]
  cases k <;> first | rfl | contradiction

mutual
/-- Every traversal of a comment has an effect that does not depend on the descriptor
it starts from. -/
theorem traverse_effect (k : Kind) :
    ∀ (c : Comment), ∃ e : Effect, ∀ d, traverse k c d = (e.text, e.apply d)
  | .null => ⟨⟨"", none, [], none, []⟩, fun d => by rw [traverse_null, Effect.apply_empty]⟩
  | .BlockCommandComment commandID cs => by
    obtain ⟨e, he⟩ := traverseChildren_effect k cs
    by_cases hm : k = .MethodDescriptor ∧ returnCommand commandID = true
    · refine ⟨⟨"", e.brief, e.params, some e.text, e.cout⟩, fun d => ?_⟩
      rw [traverse_block, if_pos hm, he]
      simp [Effect.apply, string_empty_append]
    · cases hp : blockPath commandID with
      | skip =>
        refine ⟨⟨"", none, [], none, []⟩, fun d => ?_⟩
        rw [traverse_block, if_neg hm, hp, Effect.apply_empty]
      | brief =>
        refine ⟨⟨"", some e.text, e.params, e.ret, e.cout⟩, fun d => ?_⟩
        rw [traverse_block, if_neg hm, hp, he]
        simp [Effect.apply, string_empty_append]
      | verbatim =>
        refine ⟨⟨"<verbatim>" ++ e.text ++ "</verbatim>", e.brief, e.params, e.ret, e.cout⟩,
          fun d => ?_⟩
        rw [traverse_block, if_neg hm, hp, he]
        simp [Effect.apply, string_empty_append]
  | .FullComment cs => by
    obtain ⟨e, he⟩ := traverseChildren_effect k cs
    exact ⟨e, fun d => by rw [traverse_full, he, string_empty_append]⟩
  | .HTMLEndTagComment cs => by
    obtain ⟨e, he⟩ := traverseChildren_effect k cs
    exact ⟨e, fun d => by rw [traverse_htmlEnd, he, string_empty_append]⟩
  | .HTMLStartTagComment cs => by
    obtain ⟨e, he⟩ := traverseChildren_effect k cs
    exact ⟨e, fun d => by rw [traverse_htmlStart, he, string_empty_append]⟩
  | .InlineCommandComment commandID =>
    ⟨⟨"", none, [], none, []⟩, fun d => by rw [traverse_inline, Effect.apply_empty]⟩
  | .ParamCommandComment index name cs => by
    obtain ⟨e, he⟩ := traverseChildren_effect k cs
    by_cases hk : k = .ConstructorDescriptor ∨ k = .DestructorDescriptor ∨ k = .MethodDescriptor
    · refine ⟨⟨"", e.brief, e.params ++ [⟨storedIndex index, name, e.text⟩], e.ret,
        e.cout ++ printedName index name⟩, fun d => ?_⟩
      rw [traverse_param_aware k index name cs d hk, he]
      simp [Effect.apply, string_empty_append]
    · refine ⟨e, fun d => ?_⟩
      rw [traverse_param_base k index name cs d (by simpa [not_or] using hk), he,
        string_empty_append]
  | .ParagraphComment cs => by
    obtain ⟨e, he⟩ := traverseChildren_effect k cs
    exact ⟨e, fun d => by rw [traverse_paragraph, he, string_empty_append]⟩
  | .TextComment text isWhitespace => by
    cases isWhitespace
    · exact ⟨⟨escape text, none, [], none, []⟩, fun d => by
        rw [traverse_text, Effect.apply_empty]; rfl⟩
    · exact ⟨⟨"", none, [], none, []⟩, fun d => by
        rw [traverse_text, Effect.apply_empty]; rfl⟩
  | .TParamCommandComment index name cs => by
    obtain ⟨e, he⟩ := traverseChildren_effect k cs
    by_cases hk : k = .ClassDescriptor
    · subst hk
      refine ⟨⟨"", e.brief, e.params ++ [⟨storedIndex index, name, e.text⟩], e.ret,
        e.cout ++ printedName index name⟩, fun d => ?_⟩
      rw [traverse_tparam_aware, he]
      simp [Effect.apply, string_empty_append]
    · refine ⟨e, fun d => ?_⟩
      rw [traverse_tparam_base k index name cs d hk, he, string_empty_append]
  | .VerbatimBlockComment cs => by
    obtain ⟨e, he⟩ := traverseChildren_effect k cs
    refine ⟨⟨"<verbatim><![CDATA[" ++ e.text ++ "]]></verbatim>", e.brief, e.params, e.ret,
      e.cout⟩, fun d => ?_⟩
    rw [traverse_verbatimBlock, he]
    simp [Effect.apply, string_empty_append]
  | .VerbatimBlockLineComment text =>
    ⟨⟨text ++ "\n", none, [], none, []⟩, fun d => by
      rw [traverse_verbatimBlockLine, Effect.apply_empty, string_empty_append]⟩
  | .VerbatimLineComment cs => by
    obtain ⟨e, he⟩ := traverseChildren_effect k cs
    exact ⟨e, fun d => by rw [traverse_verbatimLine, he, string_empty_append]⟩
/-- Every traversal of a list of children has an effect that does not depend on the
descriptor it starts from; its text is appended to `result`. -/
theorem traverseChildren_effect (k : Kind) :
    ∀ (cs : List Comment), ∃ e : Effect,
      ∀ d acc, traverseChildren k cs d acc = (acc ++ e.text, e.apply d)
  | [] => ⟨⟨"", none, [], none, []⟩, fun d acc => by
      rw [traverseChildren_nil, Effect.apply_empty, string_append_empty]⟩
  | c :: rest => by
    obtain ⟨e₁, h₁⟩ := traverse_effect k c
    obtain ⟨e₂, h₂⟩ := traverseChildren_effect k rest
    refine ⟨e₁.andThen e₂, fun d acc => ?_⟩
    rw [traverseChildren_cons, h₁, h₂, Effect.apply_andThen]
    simp [Effect.andThen, string_append_assoc]
end

/-- The string returned by the loop over the children does not depend on the
descriptor: it is `result` followed by the text of the children. -/
theorem traverseChildren_fst (k : Kind) (cs : List Comment) (d : Descriptor) (acc : String) :
    (traverseChildren k cs d acc).1 = acc ++ childrenText k cs := by
  obtain ⟨e, he⟩ := traverseChildren_effect k cs
  simp [childrenText, he, string_empty_append]

theorem traverseChildren_snd (k : Kind) (cs : List Comment) (d : Descriptor) (acc : String) :
    (traverseChildren k cs d acc).2 = (traverseChildren k cs d "").2 := by
  rw [traverseChildren_acc]

theorem filterMap_paramDoc_eq_nil (k : Kind) (l : List Comment)
    (h : l.any isParamCommand = false) : l.filterMap (paramDoc k) = [] := by
  rw [List.filterMap_eq_nil_iff]
  intro c hc
  have hc' := (List.any_eq_false.mp h) c hc
  cases c <;> first | rfl | (exact absurd rfl hc')

theorem filterMap_briefDoc_eq_nil (k : Kind) (l : List Comment)
    (h : l.any (fun n => (briefDoc k n).isSome) = false) : l.filterMap (briefDoc k) = [] := by
  rw [List.filterMap_eq_nil_iff]
  intro c hc
  have hc' := (List.any_eq_false.mp h) c hc
  cases hb : briefDoc k c with
  | none => rfl
  | some t => simp [hb] at hc'

mutual
/-- When no `ParamCommandComment` is entered below another one, the traversal by a
constructor, destructor or method descriptor appends the parameter descriptions in
the order in which the comments are entered. -/
theorem traverse_params (k : Kind)
    (hk : k = .ConstructorDescriptor ∨ k = .DestructorDescriptor ∨ k = .MethodDescriptor) :
    ∀ (c : Comment) (d : Descriptor),
      (visitedNodes k c).any (paramInsideParam k) = false →
        (traverse k c d).2.params = d.params ++ (visitedNodes k c).filterMap (paramDoc k)
  | .null, d, _ => by simp [traverse_null, visitedNodes]
  | .BlockCommandComment commandID cs, d, h => by
    rw [traverse_block]
    simp only [visitedNodes, List.any_cons, paramInsideParam, Bool.false_or] at h
    simp only [visitedNodes, List.filterMap_cons, paramDoc]
    by_cases hm : k = .MethodDescriptor ∧ returnCommand commandID = true
    · simp only [if_pos hm] at h ⊢
      exact traverseChildren_params k hk cs d "" h
    · simp only [if_neg hm] at h ⊢
      cases hp : blockPath commandID with
      | skip => simp
      | brief =>
        simp only [hp] at h ⊢
        exact traverseChildren_params k hk cs d "" h
      | verbatim =>
        simp only [hp] at h ⊢
        exact traverseChildren_params k hk cs d "" h
  | .FullComment cs, d, h => by
    simp only [visitedNodes, List.any_cons, paramInsideParam, Bool.false_or] at h
    simp only [traverse_full, visitedNodes, List.filterMap_cons, paramDoc]
    exact traverseChildren_params k hk cs d "" h
  | .HTMLEndTagComment cs, d, h => by
    simp only [visitedNodes, List.any_cons, paramInsideParam, Bool.false_or] at h
    simp only [traverse_htmlEnd, visitedNodes, List.filterMap_cons, paramDoc]
    exact traverseChildren_params k hk cs d "" h
  | .HTMLStartTagComment cs, d, h => by
    simp only [visitedNodes, List.any_cons, paramInsideParam, Bool.false_or] at h
    simp only [traverse_htmlStart, visitedNodes, List.filterMap_cons, paramDoc]
    exact traverseChildren_params k hk cs d "" h
  | .InlineCommandComment commandID, d, _ => by
    simp [traverse_inline, visitedNodes, paramDoc]
  | .ParamCommandComment index name cs, d, h => by
    simp only [visitedNodes, List.any_cons, paramInsideParam, Bool.or_eq_false_iff] at h
    have ih := traverseChildren_params k hk cs d "" h.2
    rw [traverse_param_aware k index name cs d hk]
    simp only [visitedNodes, List.filterMap_cons, paramDoc]
    rw [filterMap_paramDoc_eq_nil k _ h.1] at ih ⊢
    simp [ih, traverseChildren_fst, string_empty_append]
  | .ParagraphComment cs, d, h => by
    simp only [visitedNodes, List.any_cons, paramInsideParam, Bool.false_or] at h
    simp only [traverse_paragraph, visitedNodes, List.filterMap_cons, paramDoc]
    exact traverseChildren_params k hk cs d "" h
  | .TextComment text isWhitespace, d, _ => by
    cases isWhitespace <;> simp [traverse_text, visitedNodes, paramDoc]
  | .TParamCommandComment index name cs, d, h => by
    simp only [visitedNodes, List.any_cons, paramInsideParam, Bool.false_or] at h
    have hc : k ≠ .ClassDescriptor := by rcases hk with rfl | rfl | rfl <;> decide
    rw [traverse_tparam_base k index name cs d hc]
    simp only [visitedNodes, List.filterMap_cons, paramDoc]
    exact traverseChildren_params k hk cs d "" h
  | .VerbatimBlockComment cs, d, h => by
    simp only [visitedNodes, List.any_cons, paramInsideParam, Bool.false_or] at h
    simp only [traverse_verbatimBlock, visitedNodes, List.filterMap_cons, paramDoc]
    exact traverseChildren_params k hk cs d "" h
  | .VerbatimBlockLineComment text, d, _ => by
    simp [traverse_verbatimBlockLine, visitedNodes, paramDoc]
  | .VerbatimLineComment cs, d, h => by
    simp only [visitedNodes, List.any_cons, paramInsideParam, Bool.false_or] at h
    simp only [traverse_verbatimLine, visitedNodes, List.filterMap_cons, paramDoc]
    exact traverseChildren_params k hk cs d "" h
theorem traverseChildren_params (k : Kind)
    (hk : k = .ConstructorDescriptor ∨ k = .DestructorDescriptor ∨ k = .MethodDescriptor) :
    ∀ (cs : List Comment) (d : Descriptor) (acc : String),
      (visitedNodesChildren k cs).any (paramInsideParam k) = false →
        (traverseChildren k cs d acc).2.params
          = d.params ++ (visitedNodesChildren k cs).filterMap (paramDoc k)
  | [], d, acc, _ => by simp [traverseChildren_nil, visitedNodesChildren]
  | c :: rest, d, acc, h => by
    simp only [visitedNodesChildren, List.any_append, Bool.or_eq_false_iff] at h
    rw [traverseChildren_cons, traverseChildren_params k hk rest _ _ h.2,
      traverse_params k hk c d h.1]
    simp [visitedNodesChildren]
end

theorem option_or_getD {α : Type} (a b : Option α) (x : α) :
    (a.or b).getD x = a.getD (b.getD x) := by
  cases a <;> rfl

mutual
/-- When no `brief` block command is entered below another one, the brief description
after a traversal is the text of the `brief` block command entered last, and the
earlier brief description if none is entered. -/
theorem traverse_brief (k : Kind) :
    ∀ (c : Comment) (d : Descriptor),
      (visitedNodes k c).any (briefInsideBrief k) = false →
        (traverse k c d).2.brief
          = ((visitedNodes k c).filterMap (briefDoc k)).getLast?.getD d.brief
  | .null, d, _ => by simp [traverse_null, visitedNodes]
  | .BlockCommandComment commandID cs, d, h => by
    rw [traverse_block]
    simp only [visitedNodes, List.any_cons, Bool.or_eq_false_iff] at h
    simp only [visitedNodes, List.filterMap_cons]
    by_cases hm : k = .MethodDescriptor ∧ returnCommand commandID = true
    · have hb : briefDoc k (.BlockCommandComment commandID cs) = none := by
        simp [briefDoc, hm]
      simp only [if_pos hm] at h ⊢
      rw [hb]
      exact traverseChildren_brief k cs d "" h.2
    · simp only [if_neg hm] at h ⊢
      cases hp : blockPath commandID with
      | skip =>
        have hb : briefDoc k (.BlockCommandComment commandID cs) = none := by
          simp [briefDoc, hp]
        simp [hb]
      | brief =>
        have hb : briefDoc k (.BlockCommandComment commandID cs)
            = some (childrenText k cs) := by
          simp [briefDoc, hp, hm]
        have h1 := h.1
        simp only [briefInsideBrief, hb, Option.isSome_some, Bool.true_and] at h1
        simp only [hp, hb]
        rw [filterMap_briefDoc_eq_nil k _ h1]
        simp [traverseChildren_fst, string_empty_append]
      | verbatim =>
        have hb : briefDoc k (.BlockCommandComment commandID cs) = none := by
          simp [briefDoc, hp]
        simp only [hp] at h ⊢
        rw [hb]
        exact traverseChildren_brief k cs d "" h.2
  | .FullComment cs, d, h => by
    simp only [visitedNodes, List.any_cons, briefInsideBrief, Bool.false_or] at h
    simp only [traverse_full, visitedNodes, List.filterMap_cons, briefDoc]
    exact traverseChildren_brief k cs d "" h
  | .HTMLEndTagComment cs, d, h => by
    simp only [visitedNodes, List.any_cons, briefInsideBrief, Bool.false_or] at h
    simp only [traverse_htmlEnd, visitedNodes, List.filterMap_cons, briefDoc]
    exact traverseChildren_brief k cs d "" h
  | .HTMLStartTagComment cs, d, h => by
    simp only [visitedNodes, List.any_cons, briefInsideBrief, Bool.false_or] at h
    simp only [traverse_htmlStart, visitedNodes, List.filterMap_cons, briefDoc]
    exact traverseChildren_brief k cs d "" h
  | .InlineCommandComment commandID, d, _ => by
    simp [traverse_inline, visitedNodes, briefDoc]
  | .ParamCommandComment index name cs, d, h => by
    simp only [visitedNodes, List.any_cons, briefInsideBrief, Bool.false_or] at h
    simp only [visitedNodes, List.filterMap_cons, briefDoc]
    have ih := traverseChildren_brief k cs d "" h
    by_cases hk : k = .ConstructorDescriptor ∨ k = .DestructorDescriptor
        ∨ k = .MethodDescriptor
    · rw [traverse_param_aware k index name cs d hk]
      exact ih
    · rw [traverse_param_base k index name cs d (by simpa [not_or] using hk)]
      exact ih
  | .ParagraphComment cs, d, h => by
    simp only [visitedNodes, List.any_cons, briefInsideBrief, Bool.false_or] at h
    simp only [traverse_paragraph, visitedNodes, List.filterMap_cons, briefDoc]
    exact traverseChildren_brief k cs d "" h
  | .TextComment text isWhitespace, d, _ => by
    cases isWhitespace <;> simp [traverse_text, visitedNodes, briefDoc]
  | .TParamCommandComment index name cs, d, h => by
    simp only [visitedNodes, List.any_cons, briefInsideBrief, Bool.false_or] at h
    simp only [visitedNodes, List.filterMap_cons, briefDoc]
    have ih := traverseChildren_brief k cs d "" h
    by_cases hk : k = .ClassDescriptor
    · subst hk
      rw [traverse_tparam_aware]
      exact ih
    · rw [traverse_tparam_base k index name cs d hk]
      exact ih
  | .VerbatimBlockComment cs, d, h => by
    simp only [visitedNodes, List.any_cons, briefInsideBrief, Bool.false_or] at h
    simp only [traverse_verbatimBlock, visitedNodes, List.filterMap_cons, briefDoc]
    exact traverseChildren_brief k cs d "" h
  | .VerbatimBlockLineComment text, d, _ => by
    simp [traverse_verbatimBlockLine, visitedNodes, briefDoc]
  | .VerbatimLineComment cs, d, h => by
    simp only [visitedNodes, List.any_cons, briefInsideBrief, Bool.false_or] at h
    simp only [traverse_verbatimLine, visitedNodes, List.filterMap_cons, briefDoc]
    exact traverseChildren_brief k cs d "" h
theorem traverseChildren_brief (k : Kind) :
    ∀ (cs : List Comment) (d : Descriptor) (acc : String),
      (visitedNodesChildren k cs).any (briefInsideBrief k) = false →
        (traverseChildren k cs d acc).2.brief
          = ((visitedNodesChildren k cs).filterMap (briefDoc k)).getLast?.getD d.brief
  | [], d, acc, _ => by simp [traverseChildren_nil, visitedNodesChildren]
  | c :: rest, d, acc, h => by
    simp only [visitedNodesChildren, List.any_append, Bool.or_eq_false_iff] at h
    rw [traverseChildren_cons, traverseChildren_brief k rest _ _ h.2,
      traverse_brief k c d h.1]
    simp only [visitedNodesChildren, List.filterMap_append, List.getLast?_append,
      option_or_getD]
end

/-! ## The checks of `generate`: parameter count, parameter names, return comment -/

/-- C1: for a constructor, destructor or method descriptor whose number of documented
parameters differs from the number of declared parameters, the checks add to the
earlier warnings a first line that is the count warning with the declared and the
documented count, no further count warning, and no name warning at all. -/
theorem count_mismatch_one_count_warning (k : Kind) (decl : Decl) (d : Descriptor)
    (hk : k = .ConstructorDescriptor ∨ k = .DestructorDescriptor ∨ k = .MethodDescriptor)
    (hne : d.params.length ≠ decl.params.length) :
    (validate k decl d).cerr = d.cerr ++ emitted k decl d
    ∧ (emitted k decl d).head? =
        some ("Number of parameters in declaration (" ++ toString decl.params.length
          ++ ") does not match comment (" ++ toString d.params.length ++ ").")
    ∧ (∀ m ∈ (emitted k decl d).tail, ∀ a b, m ≠ countMessage a b)
    ∧ (∀ m ∈ emitted k decl d, ∀ x y, m ≠ nameMessage x y) := by
  have hmeth : emitted .MethodDescriptor decl d =
      countMessage decl.params.length d.params.length :: returnWarnings decl d := by
    rw [emitted_method, if_pos hne]; rfl
  have hret : ∀ m ∈ returnWarnings decl d, m = returnMessage := by
    intro m hm
    unfold returnWarnings at hm
    split at hm <;> simp_all
  refine ⟨validate_cerr k decl d, ?_, ?_, ?_⟩
  · rcases hk with rfl | rfl | rfl
    · rw [emitted_constructor, if_pos hne]; rfl
    · rw [emitted_destructor, if_pos hne]; rfl
    · rw [hmeth]; rfl
  · rcases hk with rfl | rfl | rfl
    · rw [emitted_constructor, if_pos hne]; simp
    · rw [emitted_destructor, if_pos hne]; simp
    · rw [hmeth]
      intro m hm a b
      rw [hret m (by simpa using hm)]
      exact returnMessage_ne_countMessage a b
  · rcases hk with rfl | rfl | rfl
    · rw [emitted_constructor, if_pos hne]
      intro m hm x y
      rw [List.mem_singleton.mp hm]
      exact countMessage_ne_nameMessage _ _ x y
    · rw [emitted_destructor, if_pos hne]
      intro m hm x y
      rw [List.mem_singleton.mp hm]
      exact countMessage_ne_nameMessage _ _ x y
    · rw [hmeth]
      intro m hm x y
      rcases List.mem_cons.mp hm with rfl | hm
      · exact countMessage_ne_nameMessage _ _ x y
      · rw [hret m hm]
        exact returnMessage_ne_nameMessage x y

/-- Witness for C1: a constructor that declares `a`, `b`, `c` with a comment that
documents `a` and `b`. -/
theorem count_mismatch_one_count_warning_witness :
    (emitted .ConstructorDescriptor ⟨["a", "b", "c"], false⟩
        (traverseDecl .ConstructorDescriptor commentAB Descriptor.init))
      = ["Number of parameters in declaration (3) does not match comment (2)."]
    ∧ (∀ m ∈ emitted .ConstructorDescriptor ⟨["a", "b", "c"], false⟩
          (traverseDecl .ConstructorDescriptor commentAB Descriptor.init),
        ∀ x y, m ≠ nameMessage x y) :=
  ⟨by decide,
   (count_mismatch_one_count_warning .ConstructorDescriptor ⟨["a", "b", "c"], false⟩
      (traverseDecl .ConstructorDescriptor commentAB Descriptor.init)
      (Or.inl rfl) (by decide)).2.2.2⟩

/-- C2, as stated, fails: a method that declares `a`, `b`, `c` and returns a value,
with a comment that documents `a` and `b` and no return value, gets two warnings, the
count warning and the return warning. -/
theorem count_mismatch_two_warnings :
    (traverseDecl .MethodDescriptor commentAB Descriptor.init).params.length
        ≠ (Decl.mk ["a", "b", "c"] true).params.length
    ∧ (generate .MethodDescriptor commentAB ⟨["a", "b", "c"], true⟩).cerr
        = ["Number of parameters in declaration (3) does not match comment (2).",
           "Method has a non-void return type, but no return comment"]
    ∧ (emitted .MethodDescriptor ⟨["a", "b", "c"], true⟩
        (traverseDecl .MethodDescriptor commentAB Descriptor.init)).length ≠ 1 := by
  decide

/-- C2, amended: for a method descriptor whose number of documented parameters
differs from the number of declared parameters, the checks emit the count warning
and after it only what the return check gives: one warning in total when the return
type is void or a return comment is present, two when the return type is not void
and the return comment is empty. -/
theorem count_mismatch_method_warnings (decl : Decl) (d : Descriptor)
    (hne : d.params.length ≠ decl.params.length) :
    emitted .MethodDescriptor decl d =
        countMessage decl.params.length d.params.length ::
          (if decl.returnsNonVoid = true ∧ d.ret = "" then [returnMessage] else [])
    ∧ (emitted .MethodDescriptor decl d).length =
        (if decl.returnsNonVoid = true ∧ d.ret = "" then 2 else 1) := by
  have h : emitted .MethodDescriptor decl d =
      countMessage decl.params.length d.params.length ::
        (if decl.returnsNonVoid = true ∧ d.ret = "" then [returnMessage] else []) := by
    rw [emitted_method, if_pos hne]; rfl
  refine ⟨h, ?_⟩
  rw [h]
  split <;> rfl

/-- Witness for C2, amended: the method of the counterexample with a void return
type gets the count warning only. -/
theorem count_mismatch_method_warnings_witness :
    (traverseDecl .MethodDescriptor commentAB Descriptor.init).params.length
        ≠ (Decl.mk ["a", "b", "c"] false).params.length
    ∧ (emitted .MethodDescriptor ⟨["a", "b", "c"], false⟩
        (traverseDecl .MethodDescriptor commentAB Descriptor.init)).length = 1 :=
  ⟨by decide,
   (count_mismatch_method_warnings ⟨["a", "b", "c"], false⟩
      (traverseDecl .MethodDescriptor commentAB Descriptor.init) (by decide)).2⟩

/-- C3: for a constructor, destructor or method descriptor whose number of documented
parameters equals the number of declared parameters, the checks emit, in increasing
order of the position `i`, one name warning for each position at which the documented
name differs from the declared name and none for a position at which they are equal
(followed, for a method, by what the return check gives); the documented name at
position `i` is always compared with the declared name at the same position, and the
warning holds the declared and the written name. -/
theorem name_mismatch_per_position (k : Kind) (decl : Decl) (d : Descriptor)
    (hk : k = .ConstructorDescriptor ∨ k = .DestructorDescriptor ∨ k = .MethodDescriptor)
    (heq : d.params.length = decl.params.length) :
    emitted k decl d =
        (List.range d.params.length).filterMap (mismatchAt d.params decl.params)
          ++ (if k = .MethodDescriptor then returnWarnings decl d else [])
    ∧ ∀ (i : Nat) (h1 : i < d.params.length) (h2 : i < decl.params.length),
        mismatchAt d.params decl.params i =
          if (d.params[i]).name ≠ decl.params[i] then
            some ("Parameter \"" ++ decl.params[i] ++ "\" " ++ "in declaration does not match "
              ++ "parameter \"" ++ (d.params[i]).name ++ "\" " ++ "in the comment.")
          else none := by
  constructor
  · rcases hk with rfl | rfl | rfl
    · rw [emitted_constructor, if_neg (not_not.mpr heq)]; simp [mismatches]
    · rw [emitted_destructor, if_neg (not_not.mpr heq)]; simp [mismatches]
    · rw [emitted_method, if_neg (not_not.mpr heq)]; simp [mismatches]
  · intro i h1 h2
    simp only [mismatchAt, List.getElem?_eq_getElem h1, List.getElem?_eq_getElem h2]
    rfl

/-- Witness for C3: the comment `a`, `b` against the declaration `a`, `x` gives one
warning, for position 1; the comment `b`, `a` against the declaration `a`, `b` gives
two warnings, no documented name being matched with a declared name at another
position. -/
theorem name_mismatch_per_position_witness :
    (traverseDecl .ConstructorDescriptor commentAB Descriptor.init).params.length
        = (Decl.mk ["a", "x"] false).params.length
    ∧ emitted .ConstructorDescriptor ⟨["a", "x"], false⟩
          (traverseDecl .ConstructorDescriptor commentAB Descriptor.init)
        = ["Parameter \"x\" in declaration does not match parameter \"b\" in the comment."]
    ∧ emitted .MethodDescriptor ⟨["a", "b"], false⟩
          (traverseDecl .MethodDescriptor commentBA Descriptor.init)
        = ["Parameter \"a\" in declaration does not match parameter \"b\" in the comment.",
           "Parameter \"b\" in declaration does not match parameter \"a\" in the comment."]
    ∧ emitted .ConstructorDescriptor ⟨["a", "x"], false⟩
          (traverseDecl .ConstructorDescriptor commentAB Descriptor.init)
        = (List.range
            (traverseDecl .ConstructorDescriptor commentAB Descriptor.init).params.length).filterMap
            (mismatchAt (traverseDecl .ConstructorDescriptor commentAB Descriptor.init).params
              (Decl.mk ["a", "x"] false).params)
          ++ (if Kind.ConstructorDescriptor = Kind.MethodDescriptor then
                returnWarnings ⟨["a", "x"], false⟩
                  (traverseDecl .ConstructorDescriptor commentAB Descriptor.init)
              else []) :=
  ⟨by decide, by decide, by decide,
   (name_mismatch_per_position .ConstructorDescriptor ⟨["a", "x"], false⟩
      (traverseDecl .ConstructorDescriptor commentAB Descriptor.init)
      (Or.inl rfl) (by decide)).1⟩

/-- C4: for a method descriptor the checks emit what the parameter check emits (the
same lines as for a constructor) followed by the return warning if the return type
is not void and the return comment is empty, and by nothing otherwise; so the number
of return warnings is one in the first case and zero in every other case, also for a
return comment on a method that returns void. -/
theorem return_warning_iff (decl : Decl) (d : Descriptor) :
    emitted .MethodDescriptor decl d =
        emitted .ConstructorDescriptor decl d
          ++ (if decl.returnsNonVoid = true ∧ d.ret = "" then [returnMessage] else [])
    ∧ (emitted .MethodDescriptor decl d).count returnMessage =
        (if decl.returnsNonVoid = true ∧ d.ret = "" then 1 else 0)
    ∧ emitted .MethodDescriptor ⟨[], true⟩ { Descriptor.init with ret := "" }
        = ["Method has a non-void return type, but no return comment"]
    ∧ emitted .MethodDescriptor ⟨[], false⟩ { Descriptor.init with ret := "" } = []
    ∧ emitted .MethodDescriptor ⟨[], true⟩ { Descriptor.init with ret := "result" } = []
    ∧ emitted .MethodDescriptor ⟨[], false⟩ { Descriptor.init with ret := "result" } = [] := by
  have h : emitted .MethodDescriptor decl d =
      emitted .ConstructorDescriptor decl d
        ++ (if decl.returnsNonVoid = true ∧ d.ret = "" then [returnMessage] else []) := by
    rw [emitted_method, emitted_constructor]; rfl
  have hnot : returnMessage ∉ emitted .ConstructorDescriptor decl d := by
    rw [emitted_constructor]
    split
    · intro hm
      exact returnMessage_ne_countMessage _ _ (List.mem_singleton.mp hm)
    · intro hm
      obtain ⟨x, y, hxy⟩ := mem_mismatches hm
      exact returnMessage_ne_nameMessage x y hxy
  refine ⟨h, ?_, by decide, by decide, by decide, by decide⟩
  rw [h, List.count_append, List.count_eq_zero_of_not_mem hnot]
  split <;> simp

/-! ## The traversal: block commands, the brief description, parameters -/

/-- C5: checked at the block command `bug`, where the code does not do what the claim
says: the case labels from `KCI_bug` to `KCI_coclass` have no `break` and run the
statements of `KCI_code`, so a `bug` block is not dropped; its text is returned inside
`<verbatim>` and becomes part of the detailed description. -/
theorem bug_block_returned_as_verbatim :
    labelsBeforeCode.map blockPath = List.replicate 10 BlockPath.verbatim
    ∧ traverse .NamespaceDescriptor
        (.BlockCommandComment .KCI_bug [.ParagraphComment [.TextComment "x" false]])
        Descriptor.init
      = ("<verbatim>x</verbatim>", Descriptor.init)
    ∧ (traverseDecl .NamespaceDescriptor commentBug Descriptor.init).detailed
      = "<verbatim>x</verbatim>" := by
  decide

/-- C6: in every descriptor class, a `brief` block command stores the text of its
children as the brief description (after whatever the traversal of the children has
stored) and returns the empty string; the loop of the caller goes on with an
unchanged `result`, and a comment that is only a `brief` block has an empty detailed
description. -/
theorem brief_block_sets_brief (k : Kind) (cs : List Comment) (d : Descriptor) :
    traverse k (.BlockCommandComment .KCI_brief cs) d
      = ("", { (traverseChildren k cs d "").2 with brief := childrenText k cs })
    ∧ (∀ (rest : List Comment) (acc : String),
        traverseChildren k (.BlockCommandComment .KCI_brief cs :: rest) d acc
          = traverseChildren k rest
              { (traverseChildren k cs d "").2 with brief := childrenText k cs } acc)
    ∧ (traverseDecl k (.FullComment [.BlockCommandComment .KCI_brief cs]) d).brief
        = childrenText k cs
    ∧ (traverseDecl k (.FullComment [.BlockCommandComment .KCI_brief cs]) d).detailed
        = "" := by
  have h : traverse k (.BlockCommandComment .KCI_brief cs) d
      = ("", { (traverseChildren k cs d "").2 with brief := childrenText k cs }) := by
    rw [traverse_block_brief, traverseChildren_fst, string_empty_append]
  refine ⟨h, ?_, ?_, ?_⟩
  · intro rest acc
    rw [traverseChildren_cons, h, string_append_empty]
  · simp [traverseDecl, traverse_full, traverseChildren_cons, traverseChildren_nil, h]
  · simp [traverseDecl, traverse_full, traverseChildren_cons, traverseChildren_nil, h,
      string_append_empty]

/-- C7: when no `brief` block command is entered below another one, the brief
description after the traversal of a comment is the text of the `brief` block command
that is entered last (and stays what it was if none is entered); so it is for the
descriptor that `Descriptor::traverse()` leaves. -/
theorem brief_last_writer_wins (k : Kind) (c : Comment) (d : Descriptor)
    (h : (visitedNodes k c).any (briefInsideBrief k) = false) :
    (traverse k c d).2.brief = (briefsInOrder k c).getLast?.getD d.brief
    ∧ (traverseDecl k c d).brief = (briefsInOrder k c).getLast?.getD d.brief := by
  have h1 := traverse_brief k c d h
  refine ⟨h1, ?_⟩
  cases c <;> exact h1

/-- Witness for C7: two `brief` blocks with the texts `A` and `B`, in this order, give
the brief description `B`. -/
theorem brief_last_writer_wins_witness :
    (visitedNodes .MethodDescriptor commentBriefAB).any
        (briefInsideBrief .MethodDescriptor) = false
    ∧ briefsInOrder .MethodDescriptor commentBriefAB = ["A", "B"]
    ∧ (traverseDecl .MethodDescriptor commentBriefAB Descriptor.init).brief = "B"
    ∧ (traverseDecl .MethodDescriptor commentBriefAB Descriptor.init).brief
        = (briefsInOrder .MethodDescriptor commentBriefAB).getLast?.getD
            Descriptor.init.brief :=
  ⟨by decide, by decide, by decide,
   (brief_last_writer_wins .MethodDescriptor commentBriefAB Descriptor.init
      (by decide)).2⟩

/-- C8, as stated, fails: in a namespace descriptor a parameter command is not
dropped; the handler of the base class returns the text of its children, which
becomes part of the detailed description (and so does a template parameter command
in a method descriptor). -/
theorem param_text_kept_by_base_handler :
    traverse .NamespaceDescriptor
        (.ParamCommandComment none "x" [.ParagraphComment [.TextComment "the value" false]])
        Descriptor.init
      = ("the value", Descriptor.init)
    ∧ (traverseDecl .NamespaceDescriptor commentParamX Descriptor.init).detailed
        = "the value"
    ∧ (traverseDecl .NamespaceDescriptor commentParamX Descriptor.init).detailed ≠ ""
    ∧ traverse .MethodDescriptor
        (.TParamCommandComment none "T" [.ParagraphComment [.TextComment "a type" false]])
        Descriptor.init
      = ("a type", Descriptor.init) := by
  decide

/-- C8, amended: where the handler of the base class is used (a parameter command in
a namespace, class, enum or enum constant descriptor, a template parameter command
in every descriptor but the class descriptor), the command itself stores nothing
and adds no markup, and its children are traversed like those of a paragraph: it
returns their text and leaves the descriptor as their traversal leaves it. -/
theorem param_in_base_handler (k : Kind) (index : Option Nat) (name : String)
    (cs : List Comment) (d : Descriptor) :
    (k = .NamespaceDescriptor ∨ k = .ClassDescriptor ∨ k = .EnumDescriptor
        ∨ k = .EnumConstantDescriptor →
      traverse k (.ParamCommandComment index name cs) d = traverseChildren k cs d ""
        ∧ traverse k (.ParamCommandComment index name cs) d
            = traverse k (.ParagraphComment cs) d)
    ∧ (k ≠ .ClassDescriptor →
      traverse k (.TParamCommandComment index name cs) d = traverseChildren k cs d ""
        ∧ traverse k (.TParamCommandComment index name cs) d
            = traverse k (.ParagraphComment cs) d) := by
  constructor
  · intro hk
    have h : traverse k (.ParamCommandComment index name cs) d
        = traverseChildren k cs d "" := by
      apply traverse_param_base
      rcases hk with rfl | rfl | rfl | rfl <;> decide
    exact ⟨h, by rw [h, traverse_paragraph]⟩
  · intro hk
    have h := traverse_tparam_base k index name cs d hk
    exact ⟨h, by rw [h, traverse_paragraph]⟩

/-- Witness for C8, amended: the parameter command of the counterexample in an enum
descriptor, and a template parameter command in a constructor descriptor. -/
theorem param_in_base_handler_witness :
    traverse .EnumDescriptor
        (.ParamCommandComment none "x" [.ParagraphComment [.TextComment "the value" false]])
        Descriptor.init
      = traverseChildren .EnumDescriptor
          [.ParagraphComment [.TextComment "the value" false]] Descriptor.init ""
    ∧ traverse .ConstructorDescriptor
        (.TParamCommandComment none "T" [.ParagraphComment [.TextComment "a type" false]])
        Descriptor.init
      = traverseChildren .ConstructorDescriptor
          [.ParagraphComment [.TextComment "a type" false]] Descriptor.init "" :=
  ⟨((param_in_base_handler .EnumDescriptor none "x"
        [.ParagraphComment [.TextComment "the value" false]] Descriptor.init).1
      (Or.inr (Or.inr (Or.inl rfl)))).1,
   ((param_in_base_handler .ConstructorDescriptor none "T"
        [.ParagraphComment [.TextComment "a type" false]] Descriptor.init).2
      (by decide)).1⟩

/-- C9: in a constructor, destructor or method descriptor the handler of a parameter
command (and in the class descriptor the handler of a template parameter command)
returns the empty string and, after the traversal of the children, appends one
parameter description to the end of the parameters: the resolved index if there is
one and `unsigned(-1)` otherwise, the name as written, and the text of the children.
The traversal goes on with the rest of the children in both cases, and what it stores
and returns is the same up to the stored index. -/
theorem param_command_appends_one (k : Kind) (index : Option Nat) (name : String)
    (cs : List Comment) (d : Descriptor)
    (hk : k = .ConstructorDescriptor ∨ k = .DestructorDescriptor ∨ k = .MethodDescriptor) :
    traverse k (.ParamCommandComment index name cs) d
      = ("", { (traverseChildren k cs d "").2 with
                cout := (traverseChildren k cs d "").2.cout
                  ++ (if index.isSome then [] else [name])
                params := (traverseChildren k cs d "").2.params
                  ++ [⟨index.getD unsignedMinusOne, name, childrenText k cs⟩] })
    ∧ traverse .ClassDescriptor (.TParamCommandComment index name cs) d
      = ("", { (traverseChildren .ClassDescriptor cs d "").2 with
                cout := (traverseChildren .ClassDescriptor cs d "").2.cout
                  ++ (if index.isSome then [] else [name])
                params := (traverseChildren .ClassDescriptor cs d "").2.params
                  ++ [⟨index.getD unsignedMinusOne, name,
                        childrenText .ClassDescriptor cs⟩] })
    ∧ (∀ (i : Nat) (rest : List Comment) (acc : String),
        (traverseChildren k (.ParamCommandComment none name cs :: rest) d acc).1
          = (traverseChildren k (.ParamCommandComment (some i) name cs :: rest) d acc).1
        ∧ sameUpToIndex
            (traverseChildren k (.ParamCommandComment none name cs :: rest) d acc).2
            (traverseChildren k (.ParamCommandComment (some i) name cs :: rest) d acc).2) := by
  refine ⟨?_, ?_, ?_⟩
  · rw [traverse_param_aware k index name cs d hk, traverseChildren_fst,
      string_empty_append]
    cases index <;> rfl
  · rw [traverse_tparam_aware, traverseChildren_fst, string_empty_append]
    cases index <;> rfl
  · intro i rest acc
    obtain ⟨e, he⟩ := traverseChildren_effect k rest
    simp only [traverseChildren_cons, traverse_param_aware k _ name cs d hk, he]
    simp [sameUpToIndex, Effect.apply]

/-- Witness for C9: the comment that documents `p1`, `p2`, `p3` in a method
descriptor; the index of `p2` is not resolved, and all three are stored. -/
theorem param_command_appends_one_witness :
    (traverseDecl .MethodDescriptor commentP123 Descriptor.init).params
      = [⟨2, "p1", "one"⟩, ⟨4294967295, "p2", "two"⟩, ⟨0, "p3", "three"⟩]
    ∧ traverse .MethodDescriptor
        (.ParamCommandComment none "p2" [.ParagraphComment [.TextComment "two" false]])
        Descriptor.init
      = ("", { (traverseChildren .MethodDescriptor
                  [.ParagraphComment [.TextComment "two" false]] Descriptor.init "").2 with
                cout := (traverseChildren .MethodDescriptor
                  [.ParagraphComment [.TextComment "two" false]] Descriptor.init "").2.cout
                  ++ (if (none : Option Nat).isSome then [] else ["p2"])
                params := (traverseChildren .MethodDescriptor
                  [.ParagraphComment [.TextComment "two" false]] Descriptor.init "").2.params
                  ++ [⟨(none : Option Nat).getD unsignedMinusOne, "p2",
                        childrenText .MethodDescriptor
                          [.ParagraphComment [.TextComment "two" false]]⟩] }) :=
  ⟨by decide,
   (param_command_appends_one .MethodDescriptor none "p2"
      [.ParagraphComment [.TextComment "two" false]] Descriptor.init
      (Or.inr (Or.inr rfl))).1⟩

/-- C10, as stated, fails: a parameter command that is entered below another
parameter command is stored before the enclosing one, which is entered first. -/
theorem param_inside_param_stored_first :
    (traverseDecl .MethodDescriptor commentParamInParam Descriptor.init).params
      = [⟨1, "b", "inner"⟩, ⟨0, "a", "outer"⟩]
    ∧ paramsInOrder .MethodDescriptor commentParamInParam
      = [⟨0, "a", "outer"⟩, ⟨1, "b", "inner"⟩]
    ∧ (traverseDecl .MethodDescriptor commentParamInParam Descriptor.init).params
      ≠ paramsInOrder .MethodDescriptor commentParamInParam := by
  decide

/-- C10, amended: for a comment in which no parameter command is entered below
another parameter command, the traversal by a constructor, destructor or method
descriptor appends one parameter description for each parameter command it enters,
in the order in which it enters them, whatever their indices are; so the parameters
that `Descriptor::traverse()` leaves on a fresh descriptor are those of the comment
in this order. -/
theorem params_in_document_order (k : Kind) (c : Comment) (d : Descriptor)
    (hk : k = .ConstructorDescriptor ∨ k = .DestructorDescriptor ∨ k = .MethodDescriptor)
    (hn : (visitedNodes k c).any (paramInsideParam k) = false) :
    (traverse k c d).2.params = d.params ++ paramsInOrder k c
    ∧ (traverseDecl k c Descriptor.init).params = paramsInOrder k c
    ∧ (paramsInOrder k c).length = ((visitedNodes k c).filter isParamCommand).length := by
  have h1 := traverse_params k hk c d hn
  have h2 := traverse_params k hk c Descriptor.init hn
  refine ⟨h1, ?_, ?_⟩
  · cases c <;> simpa [Descriptor.init] using h2
  · unfold paramsInOrder
    generalize visitedNodes k c = l
    induction l with
    | nil => rfl
    | cons n rest ih =>
      cases n <;> simp [paramDoc, isParamCommand, ih]

/-- Witness for C10, amended: the parameter commands `p1`, `p2`, `p3` with the
resolved indices 2, none and 0 are stored in the order `p1`, `p2`, `p3`. -/
theorem params_in_document_order_witness :
    (visitedNodes .MethodDescriptor commentP123).any
        (paramInsideParam .MethodDescriptor) = false
    ∧ (paramsInOrder .MethodDescriptor commentP123).map (fun p => p.name)
        = ["p1", "p2", "p3"]
    ∧ (paramsInOrder .MethodDescriptor commentP123).map (fun p => p.index)
        = [2, 4294967295, 0]
    ∧ (traverseDecl .MethodDescriptor commentP123 Descriptor.init).params
        = paramsInOrder .MethodDescriptor commentP123 :=
  ⟨by decide, by decide, by decide,
   (params_in_document_order .MethodDescriptor commentP123 Descriptor.init
      (Or.inr (Or.inr rfl)) (by decide)).2.1⟩

/-! ## Lemmas on `escape` and on the text that the handlers return -/

theorem string_join_cons (s : String) (l : List String) :
    String.join (s :: l) = s ++ String.join l := by
  apply String.ext
  simp [String.data_append]

theorem string_join_nil : String.join [] = "" := rfl

theorem escape_step (result : String) (ch : Char) :
    (if ch = Char.ofNat 39 then result ++ "&apos;"
      else if ch = Char.ofNat 34 then result ++ "&quot;"
      else if ch = Char.ofNat 60 then result ++ "&lt;"
      else if ch = Char.ofNat 62 then result ++ "&gt;"
      else if ch = Char.ofNat 38 then result ++ "&amp;"
      else result.push ch) = result ++ escapeChar ch := by
  have h60 : Char.ofNat 60 = '<' := rfl
  have h62 : Char.ofNat 62 = '>' := rfl
  have h38 : Char.ofNat 38 = '&' := rfl
  rw [h60, h62, h38]
  unfold escapeChar
  split
  · rfl
  · split
    · rfl
    · split
      · rfl
      · split
        · rfl
        · split
          · rfl
          · apply String.ext
            simp [String.data_append, String.singleton]

theorem escape_foldl (l : List Char) :
    ∀ (acc : String),
      l.foldl
        (fun result ch =>
          if ch = Char.ofNat 39 then result ++ "&apos;"
          else if ch = Char.ofNat 34 then result ++ "&quot;"
          else if ch = Char.ofNat 60 then result ++ "&lt;"
          else if ch = Char.ofNat 62 then result ++ "&gt;"
          else if ch = Char.ofNat 38 then result ++ "&amp;"
          else result.push ch)
        acc
      = acc ++ String.join (l.map escapeChar) := by
  induction l with
  | nil => intro acc; simp [string_join_nil, string_append_empty]
  | cons ch rest ih =>
    intro acc
    rw [List.foldl_cons, escape_step, ih, List.map_cons, string_join_cons,
      string_append_assoc]

/-- The loop of `escape` yields the replacements of the characters, one after the
other. -/
theorem escape_eq_join (s : String) : escape s = String.join (s.data.map escapeChar) := by
  unfold escape
  rw [escape_foldl, string_empty_append]

theorem escapeChar_of_not_reserved (ch : Char) (h : ch ∉ reservedChars) :
    escapeChar ch = String.singleton ch := by
  simp only [reservedChars, List.mem_cons, List.mem_singleton, not_or, List.mem_nil_iff,
    or_false] at h
  obtain ⟨h1, h2, h3, h4, h5⟩ := h
  simp [escapeChar, h1, h2, h3, h4, h5]

theorem escapeChar_length_of_reserved (ch : Char) (h : ch ∈ reservedChars) :
    2 ≤ (escapeChar ch).data.length := by
  simp only [reservedChars, List.mem_cons, List.mem_singleton, List.mem_nil_iff,
    or_false] at h
  rcases h with rfl | rfl | rfl | rfl | rfl <;> decide

theorem escapeChar_length_pos (ch : Char) : 1 ≤ (escapeChar ch).data.length := by
  by_cases h : ch ∈ reservedChars
  · exact Nat.le_trans (by decide) (escapeChar_length_of_reserved ch h)
  · rw [escapeChar_of_not_reserved ch h]
    simp [String.singleton]

theorem join_escapeChar_length (l : List Char) :
    l.length ≤ (String.join (l.map escapeChar)).data.length
    ∧ ((∃ ch ∈ l, ch ∈ reservedChars) →
        l.length < (String.join (l.map escapeChar)).data.length) := by
  induction l with
  | nil => simp [string_join_nil]
  | cons ch rest ih =>
    rw [List.map_cons, string_join_cons, String.data_append, List.length_append,
      List.length_cons]
    have h1 := escapeChar_length_pos ch
    refine ⟨by omega, ?_⟩
    rintro ⟨x, hx, hr⟩
    rcases List.mem_cons.mp hx with rfl | hx
    · have h2 := escapeChar_length_of_reserved x hr
      omega
    · have h3 := ih.2 ⟨x, hx, hr⟩
      omega

theorem join_escapeChar_of_not_reserved (l : List Char)
    (h : ∀ ch ∈ l, ch ∉ reservedChars) : (String.join (l.map escapeChar)).data = l := by
  induction l with
  | nil => rfl
  | cons ch rest ih =>
    rw [List.map_cons, string_join_cons, String.data_append,
      ih (fun x hx => h x (List.mem_cons_of_mem _ hx)),
      escapeChar_of_not_reserved ch (h ch (List.mem_cons_self _ _))]
    simp [String.singleton]

/-- The string that a handler returns does not depend on the descriptor. -/
theorem traverse_fst (k : Kind) (c : Comment) (d : Descriptor) :
    (traverse k c d).1 = nodeText k c := by
  obtain ⟨e, he⟩ := traverse_effect k c
  simp [nodeText, he]

/-- The text of a list of children is the concatenation, from left to right, of the
strings that the handlers of the children return. -/
theorem childrenText_eq_join (k : Kind) (cs : List Comment) :
    childrenText k cs = String.join (cs.map (nodeText k)) := by
  induction cs with
  | nil => rfl
  | cons c rest ih =>
    have h := traverseChildren_fst k rest (traverse k c Descriptor.init).2
      ("" ++ (traverse k c Descriptor.init).1)
    rw [List.map_cons, string_join_cons, ← ih]
    unfold childrenText at h ⊢
    rw [traverseChildren_cons, h, string_empty_append]
    rfl

theorem traverse_shape (k : Kind) (c : Comment) (d : Descriptor) :
    traverse k c d = runShape k (shape k c) d := by
  cases c with
  | null => rfl
  | BlockCommandComment commandID cs =>
    rw [traverse_block]
    simp only [shape]
    by_cases hm : k = .MethodDescriptor ∧ returnCommand commandID = true
    · simp only [if_pos hm, runShape]
    · simp only [if_neg hm]
      cases hp : blockPath commandID <;> simp [runShape, string_empty_append]
  | FullComment cs => rfl
  | HTMLEndTagComment cs => rfl
  | HTMLStartTagComment cs => rfl
  | InlineCommandComment commandID => rfl
  | ParamCommandComment index name cs =>
    by_cases hk : k = .ConstructorDescriptor ∨ k = .DestructorDescriptor
        ∨ k = .MethodDescriptor
    · rw [traverse_param_aware k index name cs d hk]
      rcases hk with rfl | rfl | rfl <;> rfl
    · rw [traverse_param_base k index name cs d (by simpa [not_or] using hk)]
      cases k <;> first | rfl | (exact absurd (by simp) hk)
  | ParagraphComment cs => rfl
  | TextComment text isWhitespace =>
    rw [traverse_text]
    cases isWhitespace <;> rfl
  | TParamCommandComment index name cs =>
    by_cases hk : k = .ClassDescriptor
    · subst hk
      rw [traverse_tparam_aware]
      rfl
    · rw [traverse_tparam_base k index name cs d hk]
      cases k <;> first | rfl | contradiction
  | VerbatimBlockComment cs =>
    rw [traverse_verbatimBlock]
    simp [shape, runShape, string_empty_append]
  | VerbatimBlockLineComment text =>
    rw [traverse_verbatimBlockLine, string_empty_append]
    rfl
  | VerbatimLineComment cs => rfl

theorem visitedNodes_shape (k : Kind) (c : Comment) :
    visitedNodes k c = enteredSelf k c ++ visitedNodesChildren k (shape k c).children := by
  cases c with
  | null => rfl
  | BlockCommandComment commandID cs =>
    simp only [visitedNodes, enteredSelf, shape]
    by_cases hm : k = .MethodDescriptor ∧ returnCommand commandID = true
    · simp [if_pos hm, Shape.children]
    · simp only [if_neg hm]
      cases hp : blockPath commandID <;> simp [Shape.children, visitedNodesChildren]
  | FullComment cs => simp [visitedNodes, enteredSelf, shape, Shape.children]
  | HTMLEndTagComment cs => simp [visitedNodes, enteredSelf, shape, Shape.children]
  | HTMLStartTagComment cs => simp [visitedNodes, enteredSelf, shape, Shape.children]
  | InlineCommandComment commandID =>
    simp [visitedNodes, enteredSelf, shape, Shape.children, visitedNodesChildren]
  | ParamCommandComment index name cs =>
    cases k <;> simp [visitedNodes, enteredSelf, shape, Shape.children]
  | ParagraphComment cs => simp [visitedNodes, enteredSelf, shape, Shape.children]
  | TextComment text isWhitespace =>
    simp [visitedNodes, enteredSelf, shape, Shape.children, visitedNodesChildren]
  | TParamCommandComment index name cs =>
    cases k <;> simp [visitedNodes, enteredSelf, shape, Shape.children]
  | VerbatimBlockComment cs => simp [visitedNodes, enteredSelf, shape, Shape.children]
  | VerbatimBlockLineComment text =>
    simp [visitedNodes, enteredSelf, shape, Shape.children, visitedNodesChildren]
  | VerbatimLineComment cs => simp [visitedNodes, enteredSelf, shape, Shape.children]

mutual
/-- Induction over a comment along the children that the handlers traverse. -/
theorem comment_induction (k : Kind) {P : Comment → Prop} {Q : List Comment → Prop}
    (hnil : Q []) (hcons : ∀ c rest, P c → Q rest → Q (c :: rest))
    (hnode : ∀ c, Q (shape k c).children → P c) : ∀ c, P c
  | .null => hnode _ hnil
  | .BlockCommandComment commandID cs => by
    apply hnode
    have ih := children_induction k hnil hcons hnode cs
    simp only [shape]
    by_cases hm : k = .MethodDescriptor ∧ returnCommand commandID = true
    · simpa [if_pos hm, Shape.children] using ih
    · simp only [if_neg hm]
      cases hp : blockPath commandID
      · exact hnil
      · exact ih
      · exact ih
  | .FullComment cs => hnode _ (children_induction k hnil hcons hnode cs)
  | .HTMLEndTagComment cs => hnode _ (children_induction k hnil hcons hnode cs)
  | .HTMLStartTagComment cs => hnode _ (children_induction k hnil hcons hnode cs)
  | .InlineCommandComment _ => hnode _ hnil
  | .ParamCommandComment index name cs => by
    apply hnode
    have ih := children_induction k hnil hcons hnode cs
    cases k <;> exact ih
  | .ParagraphComment cs => hnode _ (children_induction k hnil hcons hnode cs)
  | .TextComment _ _ => hnode _ hnil
  | .TParamCommandComment index name cs => by
    apply hnode
    have ih := children_induction k hnil hcons hnode cs
    cases k <;> exact ih
  | .VerbatimBlockComment cs => hnode _ (children_induction k hnil hcons hnode cs)
  | .VerbatimBlockLineComment _ => hnode _ hnil
  | .VerbatimLineComment cs => hnode _ (children_induction k hnil hcons hnode cs)
/-- Induction over a list of children, together with `comment_induction`. -/
theorem children_induction (k : Kind) {P : Comment → Prop} {Q : List Comment → Prop}
    (hnil : Q []) (hcons : ∀ c rest, P c → Q rest → Q (c :: rest))
    (hnode : ∀ c, Q (shape k c).children → P c) : ∀ cs, Q cs
  | [] => hnil
  | c :: rest =>
    hcons c rest (comment_induction k hnil hcons hnode c)
      (children_induction k hnil hcons hnode rest)
end

/-- Induction over comments and lists of children at once. -/
theorem comment_children_induction (k : Kind) {P : Comment → Prop}
    {Q : List Comment → Prop}
    (hnil : Q []) (hcons : ∀ c rest, P c → Q rest → Q (c :: rest))
    (hnode : ∀ c, Q (shape k c).children → P c) : (∀ c, P c) ∧ (∀ cs, Q cs) :=
  ⟨comment_induction k hnil hcons hnode, children_induction k hnil hcons hnode⟩

/-! ## The return comment that a traversal leaves -/

theorem filterMap_returnDoc_eq_nil (k : Kind) (l : List Comment)
    (h : l.any (fun n => (returnDoc k n).isSome) = false) :
    l.filterMap (returnDoc k) = [] := by
  rw [List.filterMap_eq_nil_iff]
  intro c hc
  have hc' := (List.any_eq_false.mp h) c hc
  cases hb : returnDoc k c with
  | none => rfl
  | some t => simp [hb] at hc'

/-- When no block command that stores a return comment is entered below another one,
the return comment after a traversal is the text of the one entered last, and the
earlier return comment if none is entered. -/
theorem traverse_ret_both (k : Kind) :
    (∀ (c : Comment) (d : Descriptor),
      (visitedNodes k c).any (returnInsideReturn k) = false →
        (traverse k c d).2.ret
          = ((visitedNodes k c).filterMap (returnDoc k)).getLast?.getD d.ret)
    ∧ (∀ (cs : List Comment) (d : Descriptor) (acc : String),
      (visitedNodesChildren k cs).any (returnInsideReturn k) = false →
        (traverseChildren k cs d acc).2.ret
          = ((visitedNodesChildren k cs).filterMap (returnDoc k)).getLast?.getD d.ret) := by
  apply comment_children_induction k
    (P := fun c => ∀ (d : Descriptor),
      (visitedNodes k c).any (returnInsideReturn k) = false →
        (traverse k c d).2.ret
          = ((visitedNodes k c).filterMap (returnDoc k)).getLast?.getD d.ret)
    (Q := fun cs => ∀ (d : Descriptor) (acc : String),
      (visitedNodesChildren k cs).any (returnInsideReturn k) = false →
        (traverseChildren k cs d acc).2.ret
          = ((visitedNodesChildren k cs).filterMap (returnDoc k)).getLast?.getD d.ret)
  · intro d acc _
    simp [traverseChildren_nil, visitedNodesChildren]
  · intro c rest hc hrest d acc h
    simp only [visitedNodesChildren, List.any_append, Bool.or_eq_false_iff] at h
    rw [traverseChildren_cons, hrest _ _ h.2, hc d h.1]
    simp only [visitedNodesChildren, List.filterMap_append, List.getLast?_append,
      option_or_getD]
  · intro c ih d h
    rw [visitedNodes_shape] at h ⊢
    rw [traverse_shape]
    simp only [List.any_append, Bool.or_eq_false_iff] at h
    have ih' := ih d "" h.2
    have h1 := h.1
    simp only [List.filterMap_append, List.getLast?_append, option_or_getD]
    cases hs : shape k c with
    | absent =>
      simp [runShape, enteredSelf, hs, Shape.children, visitedNodesChildren]
    | leaf text =>
      simp [runShape, enteredSelf, hs, Shape.children, visitedNodesChildren, returnDoc]
    | transparent cs =>
      rw [hs] at ih'
      simp only [Shape.children] at ih'
      simp [runShape, enteredSelf, hs, Shape.children, returnDoc, ih',
        List.filterMap_append, List.getLast?_append, option_or_getD]
    | wrap opening closing cs =>
      rw [hs] at ih'
      simp only [Shape.children] at ih'
      simp [runShape, enteredSelf, hs, Shape.children, returnDoc, ih']
    | storeBrief cs =>
      rw [hs] at ih'
      simp only [Shape.children] at ih'
      simp [runShape, enteredSelf, hs, Shape.children, returnDoc, ih']
    | storeReturn cs =>
      simp only [enteredSelf, hs, List.any_cons, List.any_nil, Bool.or_false,
        returnInsideReturn] at h1
      simp [runShape, enteredSelf, hs, Shape.children, returnDoc,
        filterMap_returnDoc_eq_nil k _ h1, traverseChildren_fst, string_empty_append]
    | storeParam index name cs =>
      rw [hs] at ih'
      simp only [Shape.children] at ih'
      simp [runShape, enteredSelf, hs, Shape.children, returnDoc, ih']

theorem traverse_ret (k : Kind) (c : Comment) (d : Descriptor)
    (h : (visitedNodes k c).any (returnInsideReturn k) = false) :
    (traverse k c d).2.ret
      = ((visitedNodes k c).filterMap (returnDoc k)).getLast?.getD d.ret :=
  (traverse_ret_both k).1 c d h

theorem any_returnInsideReturn_of_nil (k : Kind) (l : List Comment)
    (h : l.filterMap (returnDoc k) = []) : l.any (returnInsideReturn k) = false := by
  rw [List.any_eq_false]
  intro x hx
  have hn := (List.filterMap_eq_nil_iff.mp h) x hx
  unfold returnDoc at hn
  unfold returnInsideReturn
  cases hs : shape k x <;> simp [hs] at hn ⊢

/-- A traversal that enters no block command that stores a return comment leaves the
return comment as it is. -/
theorem traverse_ret_unchanged (k : Kind) (c : Comment) (d : Descriptor)
    (h : (visitedNodes k c).filterMap (returnDoc k) = []) :
    (traverse k c d).2.ret = d.ret := by
  rw [(traverse_ret_both k).1 c d (any_returnInsideReturn_of_nil k _ h), h]
  rfl

theorem traverseChildren_ret_unchanged (k : Kind) (cs : List Comment) (d : Descriptor)
    (acc : String) (h : (visitedNodesChildren k cs).filterMap (returnDoc k) = []) :
    (traverseChildren k cs d acc).2.ret = d.ret := by
  rw [(traverse_ret_both k).2 cs d acc (any_returnInsideReturn_of_nil k _ h), h]
  rfl

theorem traverseDecl_of_ne_null (k : Kind) (c : Comment) (d : Descriptor)
    (h : c ≠ .null) :
    traverseDecl k c d = { (traverse k c d).2 with detailed := (traverse k c d).1 } := by
  cases c <;> first | rfl | contradiction

/-- C12: in every descriptor class the handler of a text comment returns the empty
string if the text is whitespace, and `escape` of the text otherwise, and leaves the
descriptor as it is; `escape` of the text is the text with each of the five reserved
characters replaced by its entity and every other character copied. -/
theorem text_comment_escaped (k : Kind) (text : String) (d : Descriptor) :
    traverse k (.TextComment text true) d = ("", d)
    ∧ traverse k (.TextComment text false) d = (escape text, d)
    ∧ escape text = String.join (text.data.map escapeChar)
    ∧ (∀ ch, ch ∉ reservedChars → escapeChar ch = String.singleton ch)
    ∧ reservedChars.map escapeChar = ["&apos;", "&quot;", "&lt;", "&gt;", "&amp;"] :=
  ⟨rfl, rfl, escape_eq_join text, escapeChar_of_not_reserved, by decide⟩

/-- C13: `escape s` is the concatenation, character by character, of the replacements
`&apos;` for the apostrophe, `&quot;` for the double quote, `&lt;` for `<`, `&gt;` for
`>`, `&amp;` for `&`, and the character itself for every other character; a
replacement differs from the character exactly for these five, and `escape s = s`
exactly when `s` holds none of them. -/
theorem escape_char_by_char (s : String) :
    escape s = String.join (s.data.map escapeChar)
    ∧ escapeChar (Char.ofNat 39) = "&apos;"
    ∧ escapeChar (Char.ofNat 34) = "&quot;"
    ∧ escapeChar '<' = "&lt;"
    ∧ escapeChar '>' = "&gt;"
    ∧ escapeChar '&' = "&amp;"
    ∧ (∀ ch, escapeChar ch = String.singleton ch ↔ ch ∉ reservedChars)
    ∧ (escape s = s ↔ ∀ ch ∈ s.data, ch ∉ reservedChars) := by
  refine ⟨escape_eq_join s, by decide, by decide, by decide, by decide, by decide, ?_, ?_⟩
  · intro ch
    constructor
    · intro h hr
      have h2 := escapeChar_length_of_reserved ch hr
      rw [h] at h2
      simp [String.singleton] at h2
    · exact escapeChar_of_not_reserved ch
  · rw [escape_eq_join]
    constructor
    · intro h ch hch hr
      have h2 := (join_escapeChar_length s.data).2 ⟨ch, hch, hr⟩
      rw [h] at h2
      exact Nat.lt_irrefl _ h2
    · intro h
      exact String.ext (join_escapeChar_of_not_reserved s.data h)

/-- C14: in every descriptor class the handler of a `code` block command returns
`<verbatim>`, then the text of the children, then `</verbatim>`; the loop of the
caller appends this string to its `result` like the string of any other child. -/
theorem code_block_verbatim (k : Kind) (cs : List Comment) (d : Descriptor) :
    traverse k (.BlockCommandComment .KCI_code cs) d
      = ("<verbatim>" ++ childrenText k cs ++ "</verbatim>", (traverseChildren k cs d "").2)
    ∧ (∀ (rest : List Comment) (acc : String),
        traverseChildren k (.BlockCommandComment .KCI_code cs :: rest) d acc
          = traverseChildren k rest (traverseChildren k cs d "").2
              (acc ++ ("<verbatim>" ++ childrenText k cs ++ "</verbatim>")))
    ∧ (traverseDecl k (.FullComment [.BlockCommandComment .KCI_code cs]) d).detailed
        = "<verbatim>" ++ childrenText k cs ++ "</verbatim>" := by
  have h : traverse k (.BlockCommandComment .KCI_code cs) d
      = ("<verbatim>" ++ childrenText k cs ++ "</verbatim>",
         (traverseChildren k cs d "").2) := by
    rw [traverse_block_verbatim k .KCI_code cs d rfl, traverseChildren_fst,
      string_empty_append]
  refine ⟨h, ?_, ?_⟩
  · intro rest acc
    rw [traverseChildren_cons, h]
  · simp [traverseDecl, traverse_full, traverseChildren_cons, traverseChildren_nil, h,
      string_empty_append]

/-- C15: the handlers of a paragraph, a full comment, an HTML start tag, an HTML end
tag and a verbatim line return what the loop over their children returns, which is
the concatenation from left to right of the strings that the handlers of the
children return, with nothing added; so the detailed description that
`Descriptor::traverse()` stores is this concatenation for the children of the full
comment. -/
theorem containers_concatenate_children (k : Kind) (cs : List Comment) (d : Descriptor) :
    traverse k (.ParagraphComment cs) d = traverseChildren k cs d ""
    ∧ traverse k (.FullComment cs) d = traverseChildren k cs d ""
    ∧ traverse k (.HTMLStartTagComment cs) d = traverseChildren k cs d ""
    ∧ traverse k (.HTMLEndTagComment cs) d = traverseChildren k cs d ""
    ∧ traverse k (.VerbatimLineComment cs) d = traverseChildren k cs d ""
    ∧ (traverseChildren k cs d "").1 = String.join (cs.map (fun c => (traverse k c d).1))
    ∧ (traverseChildren k cs d "").1 = String.join (cs.map (nodeText k))
    ∧ (traverseDecl k (.FullComment cs) d).detailed = String.join (cs.map (nodeText k)) := by
  have h : (traverseChildren k cs d "").1 = String.join (cs.map (nodeText k)) := by
    rw [traverseChildren_fst, string_empty_append, childrenText_eq_join]
  have hfun : (fun c => (traverse k c d).1) = nodeText k := by
    funext c
    exact traverse_fst k c d
  refine ⟨rfl, rfl, rfl, rfl, rfl, ?_, h, ?_⟩
  · rw [hfun, h]
  · simp [traverseDecl, traverse_full, h]

/-- C16: in every descriptor class the handler of a verbatim block whose children are
verbatim block lines with the texts `t1`, ..., `tn` returns `<verbatim><![CDATA[`,
then each text followed by one newline, then `]]></verbatim>`, and leaves the
descriptor as it is; the texts are not passed to `escape`. -/
theorem verbatim_block_lines (k : Kind) (texts : List String) (d : Descriptor) :
    traverse k (.VerbatimBlockComment (texts.map .VerbatimBlockLineComment)) d
      = ("<verbatim><![CDATA[" ++ String.join (texts.map (fun t => t ++ "\n"))
          ++ "]]></verbatim>", d)
    ∧ (∀ t, traverse k (.VerbatimBlockLineComment t) d = (t ++ "\n", d))
    ∧ traverse k (.VerbatimBlockComment [.VerbatimBlockLineComment "a < b && c"]) d
      = ("<verbatim><![CDATA[a < b && c\n]]></verbatim>", d) := by
  have hline : ∀ t, traverse k (.VerbatimBlockLineComment t) d = (t ++ "\n", d) := by
    intro t
    rw [traverse_verbatimBlockLine, string_empty_append]
  have hloop : ∀ (ts : List String) (acc : String),
      traverseChildren k (ts.map .VerbatimBlockLineComment) d acc
        = (acc ++ String.join (ts.map (fun t => t ++ "\n")), d) := by
    intro ts
    induction ts with
    | nil => intro acc; simp [traverseChildren_nil, string_join_nil, string_append_empty]
    | cons t rest ih =>
      intro acc
      rw [List.map_cons, traverseChildren_cons, hline, ih, List.map_cons, string_join_cons,
        string_append_assoc]
  refine ⟨?_, hline, ?_⟩
  · rw [traverse_verbatimBlock, hloop, string_empty_append, string_empty_append]
  · have h := hloop ["a < b && c"] ""
    rw [traverse_verbatimBlock]
    simp only [List.map_cons, List.map_nil] at h
    rw [h]
    rfl

/-- C17: for a declaration without comment, `Descriptor::traverse()` on a fresh
descriptor, of every class, leaves brief and detailed description, parameters and
return comment empty and writes exactly one line to `std::cerr`, the note that
there is no comment; `generate` goes on with its checks on this empty record, which
they do not change. -/
theorem missing_comment_noted (k : Kind) (decl : Decl) :
    traverseDecl k .null Descriptor.init
      = ⟨"", "", [], "", [], ["No comment for declaration."]⟩
    ∧ generate k .null decl
      = validate k decl ⟨"", "", [], "", [], ["No comment for declaration."]⟩
    ∧ record (generate k .null decl) = ("", "", [], "")
    ∧ (generate k .null decl).cerr.head? = some "No comment for declaration." := by
  refine ⟨rfl, rfl, ?_, ?_⟩
  · cases k <;>
      simp [generate, validate, traverseDecl, warn, Descriptor.init, record,
        checkParams_eq, checkReturn_eq]
  · rw [generate, validate_cerr]
    rfl

/-- C20: the record that `Descriptor::traverse()` leaves is determined by the class of
the descriptor and the comment: two traversals of the same comment by descriptors of
the same class that both start with an empty record end with the same brief and
detailed description, the same parameters (index, name, description) and the same
return comment, whatever has been written to the output streams before. -/
theorem extraction_deterministic (k : Kind) (c : Comment) (d₁ d₂ : Descriptor)
    (h₁ : record d₁ = record Descriptor.init) (h₂ : record d₂ = record Descriptor.init) :
    record (traverseDecl k c d₁) = record (traverseDecl k c d₂)
    ∧ record (traverseDecl k c d₁) = record (traverseDecl k c Descriptor.init) := by
  have key : ∀ d, record d = record Descriptor.init →
      record (traverseDecl k c d) = record (traverseDecl k c Descriptor.init) := by
    intro d hd
    simp only [record, Descriptor.init, Prod.mk.injEq] at hd
    obtain ⟨hb, hde, hp, hr⟩ := hd
    obtain ⟨e, he⟩ := traverse_effect k c
    cases c <;>
      simp [traverseDecl, warn, record, he, Effect.apply, Descriptor.init, hb, hde, hp, hr]
  exact ⟨(key d₁ h₁).trans (key d₂ h₂).symm, key d₁ h₁⟩

/-- Witness for C20: the comment with `p1`, `p2`, `p3` in a method descriptor, once on
a fresh descriptor and once on a descriptor with earlier output. -/
theorem extraction_deterministic_witness :
    record { Descriptor.init with cout := ["earlier"], cerr := ["earlier"] }
        = record Descriptor.init
    ∧ record (traverseDecl .MethodDescriptor commentP123 Descriptor.init)
        = record (traverseDecl .MethodDescriptor commentP123
            { Descriptor.init with cout := ["earlier"], cerr := ["earlier"] }) :=
  ⟨rfl,
   (extraction_deterministic .MethodDescriptor commentP123 Descriptor.init
      { Descriptor.init with cout := ["earlier"], cerr := ["earlier"] } rfl rfl).1⟩

/-! ## The traversal: the return comment, and where the text of a comment ends up -/

/-- C11: in a method descriptor a `return` or `returns` block command stores the text
of its children as the return comment (after whatever the traversal of the children
has stored) and returns the empty string; and when no such block command is entered
below another one, the return comment after the traversal of a comment is the text of
the one that is entered last, also in the descriptor that `Descriptor::traverse()`
leaves. -/
theorem return_block_sets_return (cs : List Comment) (c : Comment) (d : Descriptor)
    (h : (visitedNodes .MethodDescriptor c).any
          (returnInsideReturn .MethodDescriptor) = false) :
    traverse .MethodDescriptor (.BlockCommandComment .KCI_return cs) d
      = ("", { (traverseChildren .MethodDescriptor cs d "").2 with
                ret := childrenText .MethodDescriptor cs })
    ∧ traverse .MethodDescriptor (.BlockCommandComment .KCI_returns cs) d
      = ("", { (traverseChildren .MethodDescriptor cs d "").2 with
                ret := childrenText .MethodDescriptor cs })
    ∧ (traverse .MethodDescriptor c d).2.ret
      = (returnsInOrder .MethodDescriptor c).getLast?.getD d.ret
    ∧ (traverseDecl .MethodDescriptor c d).ret
      = (returnsInOrder .MethodDescriptor c).getLast?.getD d.ret := by
  have h1 := traverse_ret .MethodDescriptor c d h
  refine ⟨?_, ?_, h1, ?_⟩
  · rw [traverse_block_return .KCI_return cs d rfl, traverseChildren_fst,
      string_empty_append]
  · rw [traverse_block_return .KCI_returns cs d rfl, traverseChildren_fst,
      string_empty_append]
  · cases c <;> exact h1

/-- Witness for C11: a `return` block with the text `A` and then a `returns` block
with the text `B` give the return comment `B`. -/
theorem return_block_sets_return_witness :
    (visitedNodes .MethodDescriptor commentReturnAB).any
        (returnInsideReturn .MethodDescriptor) = false
    ∧ returnsInOrder .MethodDescriptor commentReturnAB = ["A", "B"]
    ∧ (traverseDecl .MethodDescriptor commentReturnAB Descriptor.init).ret = "B"
    ∧ (traverseDecl .MethodDescriptor commentReturnAB Descriptor.init).ret
        = (returnsInOrder .MethodDescriptor commentReturnAB).getLast?.getD
            Descriptor.init.ret :=
  ⟨by decide, by decide, by decide,
   (return_block_sets_return [] commentReturnAB Descriptor.init (by decide)).2.2.2⟩

theorem mismatches_nil_left (decls : List String) : mismatches [] decls = [] := by
  simp [mismatches]

theorem pairWarnings_cons (p : ParamDescriptor) (ps : List ParamDescriptor) (n : String)
    (ns : List String) :
    pairWarnings (p :: ps) (n :: ns)
      = (if p.name ≠ n then [nameMessage n p.name] else []) ++ pairWarnings ps ns := by
  by_cases h : p.name = n <;> simp [pairWarnings, h]

/-- The name warnings position by position are those of the pairs of names in
order. -/
theorem mismatches_eq_pairWarnings (descs : List ParamDescriptor) :
    ∀ (decls : List String), mismatches descs decls = pairWarnings descs decls := by
  induction descs with
  | nil => intro decls; simp [mismatches_nil_left, pairWarnings]
  | cons p ps ih =>
    intro decls
    cases decls with
    | nil => simp [mismatches_nil_right, pairWarnings]
    | cons n ns => rw [mismatches_cons, pairWarnings_cons, ih]

theorem pairWarnings_congr (descs : List ParamDescriptor) :
    ∀ (descs' : List ParamDescriptor) (decls : List String),
      descs.map (fun p => p.name) = descs'.map (fun p => p.name) →
        pairWarnings descs decls = pairWarnings descs' decls := by
  induction descs with
  | nil =>
    intro descs' decls h
    cases descs' with
    | nil => rfl
    | cons q qs => simp at h
  | cons p ps ih =>
    intro descs' decls h
    cases descs' with
    | nil => simp at h
    | cons q qs =>
      simp only [List.map_cons, List.cons.injEq] at h
      cases decls with
      | nil => simp [pairWarnings]
      | cons n ns => rw [pairWarnings_cons, pairWarnings_cons, ih qs ns h.2, h.1]

/-- The warnings of the checks depend on the descriptor only through the names of its
parameters and its return comment. -/
theorem emitted_congr (k : Kind) (decl : Decl) (d d' : Descriptor)
    (hn : d.params.map (fun p => p.name) = d'.params.map (fun p => p.name))
    (hr : d.ret = d'.ret) : emitted k decl d = emitted k decl d' := by
  have hlen : d.params.length = d'.params.length := by
    have h := congrArg List.length hn
    simpa using h
  have hm : mismatches d.params decl.params = mismatches d'.params decl.params := by
    rw [mismatches_eq_pairWarnings, mismatches_eq_pairWarnings,
      pairWarnings_congr d.params d'.params decl.params hn]
  have hw : returnWarnings decl d = returnWarnings decl d' := by
    simp [returnWarnings, hr]
  cases k
  · simp [emitted, validate]
  · simp [emitted, validate]
  · rw [emitted_constructor, emitted_constructor, hlen, hm]
  · rw [emitted_destructor, emitted_destructor, hlen, hm]
  · rw [emitted_method, emitted_method, hlen, hm, hw]
  · simp [emitted, validate]
  · simp [emitted, validate]

/-- The checks change nothing but the lines on `std::cerr`. -/
theorem validate_frame (k : Kind) (decl : Decl) (d : Descriptor) :
    validate k decl d = { d with cerr := d.cerr ++ emitted k decl d } := by
  cases k <;> simp [emitted, validate, checkParams_eq, checkReturn_eq]

/-! ## Lemmas on `escape` applied twice, and on what the descriptor classes store -/

theorem returnDoc_of_not_method (k : Kind) (c : Comment) (hk : k ≠ .MethodDescriptor) :
    returnDoc k c = none := by
  unfold returnDoc
  cases c with
  | BlockCommandComment commandID cs =>
    have h : ¬ (k = .MethodDescriptor ∧ returnCommand commandID = true) := fun h => hk h.1
    simp only [shape, if_neg h]
    cases blockPath commandID <;> rfl
  | ParamCommandComment index name cs => cases k <;> rfl
  | TParamCommandComment index name cs => cases k <;> rfl
  | _ => rfl

/-- Only a method descriptor stores a return comment. -/
theorem traverse_ret_of_not_method (k : Kind) (c : Comment) (d : Descriptor)
    (hk : k ≠ .MethodDescriptor) : (traverse k c d).2.ret = d.ret := by
  apply traverse_ret_unchanged
  rw [List.filterMap_eq_nil_iff]
  intro n _
  exact returnDoc_of_not_method k n hk

theorem shape_ne_storeParam (k : Kind) (c : Comment)
    (hk : k = .NamespaceDescriptor ∨ k = .EnumDescriptor ∨ k = .EnumConstantDescriptor) :
    ∀ index name cs, shape k c ≠ .storeParam index name cs := by
  intro index name cs
  cases c with
  | BlockCommandComment commandID cs' =>
    simp only [shape]
    split
    · simp
    · split <;> simp
  | ParamCommandComment i n cs' => rcases hk with rfl | rfl | rfl <;> simp [shape]
  | TParamCommandComment i n cs' => rcases hk with rfl | rfl | rfl <;> simp [shape]
  | _ => simp [shape]

/-- A namespace, enum or enum constant descriptor stores no parameters. -/
theorem traverse_params_of_base (k : Kind)
    (hk : k = .NamespaceDescriptor ∨ k = .EnumDescriptor ∨ k = .EnumConstantDescriptor) :
    (∀ (c : Comment) (d : Descriptor), (traverse k c d).2.params = d.params)
    ∧ (∀ (cs : List Comment) (d : Descriptor) (acc : String),
        (traverseChildren k cs d acc).2.params = d.params) := by
  apply comment_children_induction k
    (P := fun c => ∀ (d : Descriptor), (traverse k c d).2.params = d.params)
    (Q := fun cs => ∀ (d : Descriptor) (acc : String),
      (traverseChildren k cs d acc).2.params = d.params)
  · intro d acc
    rfl
  · intro c rest hc hrest d acc
    rw [traverseChildren_cons, hrest, hc]
  · intro c ih d
    rw [traverse_shape]
    have hne := shape_ne_storeParam k c hk
    cases hs : shape k c with
    | absent => rfl
    | leaf text => rfl
    | transparent cs => rw [hs] at ih; exact ih d ""
    | wrap opening closing cs => rw [hs] at ih; exact ih d ""
    | storeBrief cs => rw [hs] at ih; exact ih d ""
    | storeReturn cs => rw [hs] at ih; exact ih d ""
    | storeParam index name cs => exact absurd hs (hne index name cs)

/-! ## The entered comments among all comments of a tree -/

mutual
/-- The comments that a traversal enters are comments of the tree, in the order of the
tree and none twice; they are all comments of the tree if no entered block command
leaves out comments below it. -/
theorem visitedNodes_allNodes (k : Kind) :
    ∀ (c : Comment),
      (visitedNodes k c).Sublist (allNodes c)
      ∧ ((visitedNodes k c).any (skipsChildren k) = false → visitedNodes k c = allNodes c)
  | .null => ⟨List.Sublist.refl _, fun _ => rfl⟩
  | .BlockCommandComment commandID cs => by
    have ih := visitedNodesChildren_allNodes k cs
    simp only [visitedNodes, allNodes]
    by_cases hm : k = .MethodDescriptor ∧ returnCommand commandID = true
    · simp only [if_pos hm]
      refine ⟨List.Sublist.cons₂ _ ih.1, fun h => ?_⟩
      simp only [List.any_cons, Bool.or_eq_false_iff] at h
      rw [ih.2 h.2]
    · simp only [if_neg hm]
      cases hp : blockPath commandID with
      | skip =>
        refine ⟨List.Sublist.cons₂ _ (List.nil_sublist _), fun h => ?_⟩
        have hm' : (decide (k = .MethodDescriptor) && returnCommand commandID) = false := by
          cases hk : decide (k = .MethodDescriptor) <;> cases hr : returnCommand commandID
            <;> simp_all
        simp only [List.any_cons, List.any_nil, Bool.or_false, skipsChildren, hm', hp,
          Bool.not_false, decide_True, Bool.true_and, Bool.not_eq_false',
          List.isEmpty_iff] at h
        rw [h]
      | brief =>
        refine ⟨List.Sublist.cons₂ _ ih.1, fun h => ?_⟩
        simp only [List.any_cons, Bool.or_eq_false_iff] at h
        rw [ih.2 h.2]
      | verbatim =>
        refine ⟨List.Sublist.cons₂ _ ih.1, fun h => ?_⟩
        simp only [List.any_cons, Bool.or_eq_false_iff] at h
        rw [ih.2 h.2]
  | .FullComment cs => by
    have ih := visitedNodesChildren_allNodes k cs
    simp only [visitedNodes, allNodes]
    refine ⟨List.Sublist.cons₂ _ ih.1, fun h => ?_⟩
    simp only [List.any_cons, Bool.or_eq_false_iff] at h
    rw [ih.2 h.2]
  | .HTMLEndTagComment cs => by
    have ih := visitedNodesChildren_allNodes k cs
    simp only [visitedNodes, allNodes]
    refine ⟨List.Sublist.cons₂ _ ih.1, fun h => ?_⟩
    simp only [List.any_cons, Bool.or_eq_false_iff] at h
    rw [ih.2 h.2]
  | .HTMLStartTagComment cs => by
    have ih := visitedNodesChildren_allNodes k cs
    simp only [visitedNodes, allNodes]
    refine ⟨List.Sublist.cons₂ _ ih.1, fun h => ?_⟩
    simp only [List.any_cons, Bool.or_eq_false_iff] at h
    rw [ih.2 h.2]
  | .InlineCommandComment _ => ⟨List.Sublist.refl _, fun _ => rfl⟩
  | .ParamCommandComment index name cs => by
    have ih := visitedNodesChildren_allNodes k cs
    simp only [visitedNodes, allNodes]
    refine ⟨List.Sublist.cons₂ _ ih.1, fun h => ?_⟩
    simp only [List.any_cons, Bool.or_eq_false_iff] at h
    rw [ih.2 h.2]
  | .ParagraphComment cs => by
    have ih := visitedNodesChildren_allNodes k cs
    simp only [visitedNodes, allNodes]
    refine ⟨List.Sublist.cons₂ _ ih.1, fun h => ?_⟩
    simp only [List.any_cons, Bool.or_eq_false_iff] at h
    rw [ih.2 h.2]
  | .TextComment _ _ => ⟨List.Sublist.refl _, fun _ => rfl⟩
  | .TParamCommandComment index name cs => by
    have ih := visitedNodesChildren_allNodes k cs
    simp only [visitedNodes, allNodes]
    refine ⟨List.Sublist.cons₂ _ ih.1, fun h => ?_⟩
    simp only [List.any_cons, Bool.or_eq_false_iff] at h
    rw [ih.2 h.2]
  | .VerbatimBlockComment cs => by
    have ih := visitedNodesChildren_allNodes k cs
    simp only [visitedNodes, allNodes]
    refine ⟨List.Sublist.cons₂ _ ih.1, fun h => ?_⟩
    simp only [List.any_cons, Bool.or_eq_false_iff] at h
    rw [ih.2 h.2]
  | .VerbatimBlockLineComment _ => ⟨List.Sublist.refl _, fun _ => rfl⟩
  | .VerbatimLineComment cs => by
    have ih := visitedNodesChildren_allNodes k cs
    simp only [visitedNodes, allNodes]
    refine ⟨List.Sublist.cons₂ _ ih.1, fun h => ?_⟩
    simp only [List.any_cons, Bool.or_eq_false_iff] at h
    rw [ih.2 h.2]
theorem visitedNodesChildren_allNodes (k : Kind) :
    ∀ (cs : List Comment),
      (visitedNodesChildren k cs).Sublist (allNodesChildren cs)
      ∧ ((visitedNodesChildren k cs).any (skipsChildren k) = false →
          visitedNodesChildren k cs = allNodesChildren cs)
  | [] => ⟨List.Sublist.refl _, fun _ => rfl⟩
  | c :: rest => by
    have h1 := visitedNodes_allNodes k c
    have h2 := visitedNodesChildren_allNodes k rest
    simp only [visitedNodesChildren, allNodesChildren]
    refine ⟨List.Sublist.append h1.1 h2.1, fun h => ?_⟩
    simp only [List.any_append, Bool.or_eq_false_iff] at h
    rw [h1.2 h.1, h2.2 h.2]
end

/-! ## The text that a method descriptor passes on, without the parameter commands -/

theorem childrenText_nil (k : Kind) : childrenText k [] = "" := rfl

theorem childrenText_cons (k : Kind) (c : Comment) (rest : List Comment) :
    childrenText k (c :: rest) = nodeText k c ++ childrenText k rest := by
  rw [childrenText_eq_join, childrenText_eq_join, List.map_cons, string_join_cons]

/-- The string that a handler returns, by the form of the handler. -/
theorem nodeText_shape (k : Kind) (c : Comment) :
    nodeText k c =
      match shape k c with
      | .absent => ""
      | .leaf text => text
      | .transparent cs => childrenText k cs
      | .wrap opening closing cs => opening ++ childrenText k cs ++ closing
      | .storeBrief _ => ""
      | .storeReturn _ => ""
      | .storeParam _ _ _ => "" := by
  unfold nodeText
  rw [traverse_shape]
  cases shape k c <;> simp [runShape, childrenText]

theorem blockPath_of_returnCommand (commandID : CommandID)
    (h : returnCommand commandID = true) : blockPath commandID = .skip := by
  cases commandID <;> first | rfl | (exact absurd h (by decide))

mutual
/-- A method descriptor passes on from a comment what a namespace descriptor passes on
from the comment without its parameter commands. -/
theorem nodeText_removeParams :
    ∀ (c : Comment),
      nodeText .MethodDescriptor c = nodeText .NamespaceDescriptor (removeParams c)
  | .null => rfl
  | .BlockCommandComment commandID cs => by
    have ih := childrenText_removeParams cs
    rw [nodeText_shape, nodeText_shape]
    simp only [removeParams, shape]
    by_cases hr : returnCommand commandID = true
    · simp [hr, blockPath_of_returnCommand commandID hr]
    · simp only [hr]
      cases hp : blockPath commandID <;> simp [ih]
  | .FullComment cs => by
    have ih := childrenText_removeParams cs
    rw [nodeText_shape, nodeText_shape]
    simpa [removeParams, shape] using ih
  | .HTMLEndTagComment cs => by
    have ih := childrenText_removeParams cs
    rw [nodeText_shape, nodeText_shape]
    simpa [removeParams, shape] using ih
  | .HTMLStartTagComment cs => by
    have ih := childrenText_removeParams cs
    rw [nodeText_shape, nodeText_shape]
    simpa [removeParams, shape] using ih
  | .InlineCommandComment _ => rfl
  | .ParamCommandComment index name cs => by
    rw [nodeText_shape, nodeText_shape]
    simp [removeParams, shape]
  | .ParagraphComment cs => by
    have ih := childrenText_removeParams cs
    rw [nodeText_shape, nodeText_shape]
    simpa [removeParams, shape] using ih
  | .TextComment _ _ => rfl
  | .TParamCommandComment index name cs => by
    have ih := childrenText_removeParams cs
    rw [nodeText_shape, nodeText_shape]
    simpa [removeParams, shape] using ih
  | .VerbatimBlockComment cs => by
    have ih := childrenText_removeParams cs
    rw [nodeText_shape, nodeText_shape]
    simp [removeParams, shape, ih]
  | .VerbatimBlockLineComment _ => rfl
  | .VerbatimLineComment cs => by
    have ih := childrenText_removeParams cs
    rw [nodeText_shape, nodeText_shape]
    simpa [removeParams, shape] using ih
theorem childrenText_removeParams :
    ∀ (cs : List Comment),
      childrenText .MethodDescriptor cs
        = childrenText .NamespaceDescriptor (removeParamsChildren cs)
  | [] => rfl
  | c :: rest => by
    have h1 := nodeText_removeParams c
    have h2 := childrenText_removeParams rest
    rw [childrenText_cons]
    by_cases hp : isParamCommand c = true
    · have hc : nodeText .MethodDescriptor c = "" := by
        cases c with
        | ParamCommandComment index name cs =>
          rw [nodeText_shape]
          rfl
        | _ => simp [isParamCommand] at hp
      simp [removeParamsChildren, hp, hc, h2, string_empty_append]
    · simp [removeParamsChildren, hp, childrenText_cons, h1, h2]
end

/-- The namespace, enum and enum constant descriptors have the same handlers. -/
theorem shape_base (k : Kind) (c : Comment)
    (hk : k = .EnumDescriptor ∨ k = .EnumConstantDescriptor) :
    shape k c = shape .NamespaceDescriptor c := by
  cases c with
  | BlockCommandComment commandID cs =>
    rcases hk with rfl | rfl <;> simp [shape]
  | ParamCommandComment index name cs => rcases hk with rfl | rfl <;> rfl
  | TParamCommandComment index name cs => rcases hk with rfl | rfl <;> rfl
  | _ => rfl

theorem nodeText_base (k : Kind)
    (hk : k = .EnumDescriptor ∨ k = .EnumConstantDescriptor) :
    (∀ (c : Comment), nodeText k c = nodeText .NamespaceDescriptor c)
    ∧ (∀ (cs : List Comment), childrenText k cs = childrenText .NamespaceDescriptor cs) := by
  apply comment_children_induction k
    (P := fun c => nodeText k c = nodeText .NamespaceDescriptor c)
    (Q := fun cs => childrenText k cs = childrenText .NamespaceDescriptor cs)
  · rfl
  · intro c rest hc hrest
    rw [childrenText_cons, childrenText_cons, hc, hrest]
  · intro c ih
    rw [nodeText_shape, nodeText_shape, ← shape_base k c hk]
    cases hs : shape k c <;> simp_all [Shape.children]

theorem detailed_of_full (k : Kind) (cs : List Comment) (d : Descriptor) :
    (traverseDecl k (.FullComment cs) d).detailed = childrenText k cs := by
  simp [traverseDecl, traverse_full, traverseChildren_fst, string_empty_append]

theorem mismatches_length_le (descs : List ParamDescriptor) (decls : List String) :
    (mismatches descs decls).length ≤ descs.length := by
  unfold mismatches
  exact Nat.le_trans (List.length_filterMap_le _ _) (by simp)

theorem emitted_length_le (k : Kind) (decl : Decl) (d : Descriptor) :
    (emitted k decl d).length ≤ d.params.length + 2 := by
  have h1 := mismatches_length_le d.params decl.params
  have h2 : (returnWarnings decl d).length ≤ 1 := by
    unfold returnWarnings
    split <;> simp
  cases k
  · simp [emitted, validate]
  · simp [emitted, validate]
  · rw [emitted_constructor]
    split
    · simp
    · omega
  · rw [emitted_destructor]
    split
    · simp
    · omega
  · rw [emitted_method, List.length_append]
    split
    · simp only [List.length_singleton]; omega
    · omega
  · simp [emitted, validate]
  · simp [emitted, validate]

/-! ## Lemmas on the bounds on calls and iterations -/

theorem height_le_heightChildren (c : Comment) (cs : List Comment) (h : c ∈ cs) :
    height c ≤ heightChildren cs := by
  induction cs with
  | nil => simp at h
  | cons x rest ih =>
    rw [heightChildren]
    rcases List.mem_cons.mp h with rfl | h
    · exact Nat.le_max_left _ _
    · exact Nat.le_trans (ih h) (Nat.le_max_right _ _)

theorem height_child_lt (c child : Comment) (h : child ∈ childrenOf c) :
    height child < height c := by
  cases c <;> simp only [childrenOf, List.not_mem_nil] at h <;>
    (rw [height]; exact Nat.lt_succ_of_le (height_le_heightChildren child _ h))

/-- The loop gives the result of `traverseChildren` when the handler gives the result
of `traverse` for each child. -/
theorem traverseChildrenFuel_eq (k : Kind)
    (handler : Comment → Descriptor → Option (String × Descriptor)) (cs : List Comment) :
    (∀ c ∈ cs, ∀ d, handler c d = some (traverse k c d)) →
      ∀ (d : Descriptor) (acc : String),
        traverseChildrenFuel handler cs d acc = some (traverseChildren k cs d acc) := by
  induction cs with
  | nil => intro _ d acc; rfl
  | cons c rest ih =>
    intro h d acc
    rw [traverseChildrenFuel, h c (List.mem_cons_self _ _) d, traverseChildren_cons]
    exact ih (fun x hx => h x (List.mem_cons_of_mem _ hx)) _ _

/-- One call gives the result of `traverse` when the calls for the children do. -/
theorem traverseCall_eq (k : Kind)
    (handler : Comment → Descriptor → Option (String × Descriptor)) (c : Comment)
    (d : Descriptor)
    (h : ∀ child ∈ childrenOf c, ∀ d, handler child d = some (traverse k child d)) :
    traverseCall k handler c d = some (traverse k c d) := by
  have hloop : ∀ (d : Descriptor) (acc : String),
      traverseChildrenFuel handler (childrenOf c) d acc
        = some (traverseChildren k (childrenOf c) d acc) :=
    traverseChildrenFuel_eq k handler _ h
  cases c with
  | null => rfl
  | BlockCommandComment commandID cs =>
    simp only [childrenOf] at hloop
    rw [traverseCall, traverse_block, hloop]
    split
    · rfl
    · cases blockPath commandID <;> rfl
  | FullComment cs => exact hloop d ""
  | HTMLEndTagComment cs => exact hloop d ""
  | HTMLStartTagComment cs => exact hloop d ""
  | InlineCommandComment commandID => rfl
  | ParamCommandComment index name cs =>
    simp only [childrenOf] at hloop
    rw [traverse_param]
    cases k <;> cases index <;> simp only [traverseCall, hloop] <;> rfl
  | ParagraphComment cs => exact hloop d ""
  | TextComment text isWhitespace =>
    rw [traverse_text]
    cases isWhitespace <;> rfl
  | TParamCommandComment index name cs =>
    simp only [childrenOf] at hloop
    rw [traverse_tparam]
    cases k <;> cases index <;> simp only [traverseCall, hloop] <;> rfl
  | VerbatimBlockComment cs =>
    simp only [childrenOf] at hloop
    rw [traverseCall, traverse_verbatimBlock, hloop]
    rfl
  | VerbatimBlockLineComment text => rfl
  | VerbatimLineComment cs => exact hloop d ""

/-- A bound above the height of the tree is enough for the traversal. -/
theorem traverseFuel_eq (k : Kind) :
    ∀ (fuel : Nat) (c : Comment) (d : Descriptor),
      height c < fuel → traverseFuel k fuel c d = some (traverse k c d) := by
  intro fuel
  induction fuel with
  | zero => intro c d h; exact absurd h (Nat.not_lt_zero _)
  | succ fuel ih =>
    intro c d h
    show traverseCall k (traverseFuel k fuel) c d = _
    exact traverseCall_eq k _ c d
      (fun child hchild d =>
        ih child d (Nat.lt_of_lt_of_le (height_child_lt c child hchild)
          (Nat.le_of_lt_succ h)))

theorem traverseDeclFuel_eq (k : Kind) (fuel : Nat) (c : Comment) (d : Descriptor)
    (h : height c < fuel) : traverseDeclFuel k fuel c d = some (traverseDecl k c d) := by
  cases c <;> first
    | rfl
    | (unfold traverseDeclFuel traverseDecl
       simp only [traverseFuel_eq k fuel _ d h, Option.map_some'])

/-- As many iterations as the shorter of the two lists has are enough for the loop
over the names. -/
theorem matchNamesFuel_eq :
    ∀ (steps : Nat) (descs : List ParamDescriptor) (decls : List String) (d : Descriptor),
      min descs.length decls.length ≤ steps →
        matchNamesFuel steps descs decls d = some (matchNames descs decls d) := by
  intro steps
  induction steps with
  | zero =>
    intro descs decls d h
    cases descs with
    | nil => rfl
    | cons x xs =>
      cases decls with
      | nil => rfl
      | cons y ys => simp at h
  | succ steps ih =>
    intro descs decls d h
    cases descs with
    | nil => rfl
    | cons x xs =>
      cases decls with
      | nil => rfl
      | cons y ys =>
        rw [matchNamesFuel, matchNames]
        apply ih
        simp only [List.length_cons] at h
        omega

theorem generateFuel_eq (fuel steps : Nat) (k : Kind) (c : Comment) (decl : Decl)
    (h : height c < fuel) (hsteps : decl.params.length ≤ steps) :
    generateFuel fuel steps k c decl = some (generate k c decl) := by
  unfold generateFuel generate
  rw [traverseDeclFuel_eq k fuel c _ h]
  have hm : ∀ d : Descriptor,
      matchNamesFuel steps d.params decl.params d
        = some (matchNames d.params decl.params d) :=
    fun d => matchNamesFuel_eq steps _ _ d (Nat.le_trans (Nat.min_le_right _ _) hsteps)
  cases k <;> simp only [validate, checkParams, hm] <;> split <;> rfl

/-! ## The checks of `generate`: classes, positions, and what the checks depend on -/

/-- C21: checked on the class descriptor, where the code does not do what the claim
says: the check of `ClassDescriptor::generate` is commented out, so no warning is
written for a class, whatever the documented and the declared template parameters
are.  The visitor builds the class descriptor for the definition of the class `Box`,
which declares no template parameter and documents `T`: the parameter is stored and
written to the output, and nothing is written to `std::cerr`; the same record in a
constructor descriptor gets the count warning. -/
theorem class_parameters_not_checked (decl : Decl) (d : Descriptor) :
    validate .ClassDescriptor decl d = d
    ∧ emitted .ClassDescriptor decl d = []
    ∧ (traverseDecl .ClassDescriptor commentTparam Descriptor.init).params
        = [⟨4294967295, "T", "the type"⟩]
    ∧ Visitor.visit .AnyFilter cursorBox ⟨"", [], []⟩
        = (.CXChildVisit_Continue,
            ⟨"<class name=\"Box\" qualified=\"Box\"><usr>c:@S@Box</usr>"
              ++ "<declaration>class Box</declaration>"
              ++ "<parameters><param index=\"4294967295\"><name>T</name>"
              ++ "<brief>the type</brief></param></parameters>"
              ++ "<brief></brief><detailed>A box.</detailed></class>",
             ["T"], []⟩)
    ∧ emitted .ConstructorDescriptor ⟨[], false⟩
          (traverseDecl .ClassDescriptor commentTparam Descriptor.init)
        = ["Number of parameters in declaration (0) does not match comment (1)."] := by
  refine ⟨rfl, ?_, by decide, by rfl, by decide⟩
  simp [emitted, validate]

/-- C23, as stated, fails: the warning for the names `b` and `x` at position 1 is the
same line as the warning for these names at position 0, and no position is part of
it. -/
theorem name_warning_without_position :
    (generate .MethodDescriptor commentAB ⟨["a", "x"], false⟩).cerr
      = ["Parameter \"x\" in declaration does not match parameter \"b\" in the comment."]
    ∧ (generate .MethodDescriptor commentB ⟨["x"], false⟩).cerr
      = ["Parameter \"x\" in declaration does not match parameter \"b\" in the comment."]
    ∧ mismatchAt (traverseDecl .MethodDescriptor commentAB Descriptor.init).params
          ["a", "x"] 1
        = mismatchAt (traverseDecl .MethodDescriptor commentB Descriptor.init).params
            ["x"] 0
    ∧ nameMessage "x" "b"
      = "Parameter \"x\" in declaration does not match parameter \"b\" in the comment." := by
  decide

/-- C23, amended: each name warning holds the declared and the written name and
nothing else: for a constructor, destructor or method descriptor with as many
documented as declared parameters, the warnings of the parameter check are those of
the pairs of names in order, each a function of its pair of names alone, so the
position shows only in the order of the warnings. -/
theorem name_warning_names_only (k : Kind) (decl : Decl) (d : Descriptor)
    (hk : k = .ConstructorDescriptor ∨ k = .DestructorDescriptor ∨ k = .MethodDescriptor)
    (heq : d.params.length = decl.params.length) :
    emitted k decl d =
        (d.params.zip decl.params).filterMap
            (fun pair =>
              if pair.1.name ≠ pair.2 then
                some ("Parameter \"" ++ pair.2 ++ "\" " ++ "in declaration does not match "
                  ++ "parameter \"" ++ pair.1.name ++ "\" " ++ "in the comment.")
              else none)
          ++ (if k = .MethodDescriptor then returnWarnings decl d else []) := by
  have h : (d.params.zip decl.params).filterMap
      (fun pair =>
        if pair.1.name ≠ pair.2 then
          some ("Parameter \"" ++ pair.2 ++ "\" " ++ "in declaration does not match "
            ++ "parameter \"" ++ pair.1.name ++ "\" " ++ "in the comment.")
        else none) = mismatches d.params decl.params := by
    rw [mismatches_eq_pairWarnings]
    rfl
  rw [h]
  rcases hk with rfl | rfl | rfl
  · rw [emitted_constructor, if_neg (not_not.mpr heq)]; simp
  · rw [emitted_destructor, if_neg (not_not.mpr heq)]; simp
  · rw [emitted_method, if_neg (not_not.mpr heq)]; simp

/-- Witness for C23, amended: the comment `a`, `b` against the declaration `a`, `x`. -/
theorem name_warning_names_only_witness :
    (traverseDecl .MethodDescriptor commentAB Descriptor.init).params.length
        = (Decl.mk ["a", "x"] false).params.length
    ∧ emitted .MethodDescriptor ⟨["a", "x"], false⟩
          (traverseDecl .MethodDescriptor commentAB Descriptor.init)
        = ((traverseDecl .MethodDescriptor commentAB Descriptor.init).params.zip
              (Decl.mk ["a", "x"] false).params).filterMap
            (fun pair =>
              if pair.1.name ≠ pair.2 then
                some ("Parameter \"" ++ pair.2 ++ "\" " ++ "in declaration does not match "
                  ++ "parameter \"" ++ pair.1.name ++ "\" " ++ "in the comment.")
              else none)
          ++ (if Kind.MethodDescriptor = Kind.MethodDescriptor then
                returnWarnings ⟨["a", "x"], false⟩
                  (traverseDecl .MethodDescriptor commentAB Descriptor.init)
              else []) :=
  ⟨by decide,
   name_warning_names_only .MethodDescriptor ⟨["a", "x"], false⟩
      (traverseDecl .MethodDescriptor commentAB Descriptor.init)
      (Or.inr (Or.inr rfl)) (by decide)⟩

/-- C24: the checks of `generate` leave the brief description, the detailed description,
the parameters and the return comment as they are (and write nothing to `std::cout`);
they only add their warnings to `std::cerr`, and these warnings are the same for two
descriptors with the same parameter names and the same return comment, checked
against the same declared names and return type. -/
theorem validation_pure (k : Kind) (decl : Decl) (d d' : Descriptor)
    (hn : d.params.map (fun p => p.name) = d'.params.map (fun p => p.name))
    (hr : d.ret = d'.ret) :
    record (validate k decl d) = record d
    ∧ (validate k decl d).cout = d.cout
    ∧ (validate k decl d).cerr = d.cerr ++ emitted k decl d
    ∧ emitted k decl d = emitted k decl d' := by
  refine ⟨?_, ?_, ?_, emitted_congr k decl d d' hn hr⟩
  · rw [validate_frame]; rfl
  · rw [validate_frame]
  · rw [validate_frame]

/-- Witness for C24: the record of the comment `a`, `b` and a record with the same
names and other descriptions, against the declaration `a`, `x`. -/
theorem validation_pure_witness :
    record (validate .MethodDescriptor ⟨["a", "x"], true⟩
        (traverseDecl .MethodDescriptor commentAB Descriptor.init))
      = record (traverseDecl .MethodDescriptor commentAB Descriptor.init)
    ∧ emitted .MethodDescriptor ⟨["a", "x"], true⟩
        (traverseDecl .MethodDescriptor commentAB Descriptor.init)
      = emitted .MethodDescriptor ⟨["a", "x"], true⟩
        { Descriptor.init with
            brief := "other", params := [⟨7, "a", "one"⟩, ⟨8, "b", "two"⟩] } :=
  ⟨(validation_pure .MethodDescriptor ⟨["a", "x"], true⟩
      (traverseDecl .MethodDescriptor commentAB Descriptor.init)
      { Descriptor.init with
          brief := "other", params := [⟨7, "a", "one"⟩, ⟨8, "b", "two"⟩] }
      (by decide) (by decide)).1,
   (validation_pure .MethodDescriptor ⟨["a", "x"], true⟩
      (traverseDecl .MethodDescriptor commentAB Descriptor.init)
      { Descriptor.init with
          brief := "other", params := [⟨7, "a", "one"⟩, ⟨8, "b", "two"⟩] }
      (by decide) (by decide)).2.2.2⟩

/-- C25: a comment whose children are all block commands with command identifiers that
the switch does not name leaves, in every descriptor class, a fresh descriptor as it
is, whatever stands below the block commands: the record is empty and nothing is
written to `std::cerr` or `std::cout`. -/
theorem unnamed_blocks_empty_record (k : Kind) (blocks : List (Nat × List Comment)) :
    traverseDecl k
        (.FullComment
          (blocks.map (fun b => .BlockCommandComment (.registered b.1) b.2)))
        Descriptor.init
      = Descriptor.init
    ∧ record (traverseDecl k
        (.FullComment
          (blocks.map (fun b => .BlockCommandComment (.registered b.1) b.2)))
        Descriptor.init)
      = ("", "", [], "") := by
  have hblock : ∀ (n : Nat) (cs : List Comment) (d : Descriptor),
      traverse k (.BlockCommandComment (.registered n) cs) d = ("", d) := by
    intro n cs d
    exact traverse_block_skip k (.registered n) cs d rfl (fun _ => rfl)
  have hloop : ∀ (bs : List (Nat × List Comment)) (d : Descriptor) (acc : String),
      traverseChildren k (bs.map (fun b => .BlockCommandComment (.registered b.1) b.2)) d acc
        = (acc, d) := by
    intro bs
    induction bs with
    | nil => intro d acc; rfl
    | cons b rest ih =>
      intro d acc
      rw [List.map_cons, traverseChildren_cons, hblock, ih, string_append_empty]
  have h : traverseDecl k
      (.FullComment (blocks.map (fun b => .BlockCommandComment (.registered b.1) b.2)))
      Descriptor.init = Descriptor.init := by
    simp only [traverseDecl, traverse_full, hloop]
    rfl
  exact ⟨h, by rw [h]; rfl⟩

/-- C30: the warnings of the checks do not depend on the indices of the parameters: two
descriptors that agree in everything but the stored indices (and the lines on
`std::cout`) get the same warnings against every declaration, in every descriptor
class. -/
theorem warnings_ignore_index (k : Kind) (decl : Decl) (d d' : Descriptor)
    (h : sameUpToIndex d d') : emitted k decl d = emitted k decl d' := by
  obtain ⟨_, _, hr, _, hp⟩ := h
  apply emitted_congr k decl d d' _ hr
  have h1 := congrArg (List.map Prod.fst) hp
  simpa [List.map_map] using h1

/-- Witness for C30: the parameters `a`, `b` with the indices 0 and 1, and with an
unresolved index and the index 5, against the declaration `a`, `x`. -/
theorem warnings_ignore_index_witness :
    sameUpToIndex
        { Descriptor.init with params := [⟨0, "a", "first"⟩, ⟨1, "b", "second"⟩] }
        { Descriptor.init with
            params := [⟨unsignedMinusOne, "a", "first"⟩, ⟨5, "b", "second"⟩] }
    ∧ emitted .MethodDescriptor ⟨["a", "x"], true⟩
        { Descriptor.init with params := [⟨0, "a", "first"⟩, ⟨1, "b", "second"⟩] }
      = emitted .MethodDescriptor ⟨["a", "x"], true⟩
        { Descriptor.init with
            params := [⟨unsignedMinusOne, "a", "first"⟩, ⟨5, "b", "second"⟩] } :=
  ⟨⟨rfl, rfl, rfl, rfl, rfl⟩,
   warnings_ignore_index .MethodDescriptor ⟨["a", "x"], true⟩
      { Descriptor.init with params := [⟨0, "a", "first"⟩, ⟨1, "b", "second"⟩] }
      { Descriptor.init with
          params := [⟨unsignedMinusOne, "a", "first"⟩, ⟨5, "b", "second"⟩] }
      ⟨rfl, rfl, rfl, rfl, rfl⟩⟩

/-! ## The descriptor classes, the order of the traversal, totality, and the output -/

/-- C22: what the descriptor classes store.  (a) Only the method descriptor stores a
return comment: every other class leaves it as it is, and in a constructor or
destructor descriptor a `return` or `returns` block command returns the empty string
and changes nothing.  (b) The constructor, destructor and method descriptors append
a parameter for a parameter command; in every other class the command only passes
on its children.  (c) Only the class descriptor appends a parameter for a template
parameter command.  (d) The namespace, enum and enum constant descriptors never
append a parameter, so their parameters stay empty. -/
theorem capabilities_by_class (k : Kind) (c : Comment) (d : Descriptor)
    (index : Option Nat) (name : String) (cs : List Comment) :
    (k ≠ .MethodDescriptor → (traverse k c d).2.ret = d.ret)
    ∧ (k = .ConstructorDescriptor ∨ k = .DestructorDescriptor →
        traverse k (.BlockCommandComment .KCI_return cs) d = ("", d)
        ∧ traverse k (.BlockCommandComment .KCI_returns cs) d = ("", d))
    ∧ (traverse .MethodDescriptor (.BlockCommandComment .KCI_return cs) d).2.ret
        = childrenText .MethodDescriptor cs
    ∧ (k = .ConstructorDescriptor ∨ k = .DestructorDescriptor ∨ k = .MethodDescriptor →
        (traverse k (.ParamCommandComment index name cs) d).2.params
          = (traverseChildren k cs d "").2.params
              ++ [⟨storedIndex index, name, childrenText k cs⟩])
    ∧ (k ≠ .ConstructorDescriptor ∧ k ≠ .DestructorDescriptor ∧ k ≠ .MethodDescriptor →
        traverse k (.ParamCommandComment index name cs) d = traverseChildren k cs d "")
    ∧ (traverse .ClassDescriptor (.TParamCommandComment index name cs) d).2.params
        = (traverseChildren .ClassDescriptor cs d "").2.params
            ++ [⟨storedIndex index, name, childrenText .ClassDescriptor cs⟩]
    ∧ (k ≠ .ClassDescriptor →
        traverse k (.TParamCommandComment index name cs) d = traverseChildren k cs d "")
    ∧ (k = .NamespaceDescriptor ∨ k = .EnumDescriptor ∨ k = .EnumConstantDescriptor →
        (traverse k c d).2.params = d.params
        ∧ (traverseDecl k c Descriptor.init).params = []) := by
  refine ⟨traverse_ret_of_not_method k c d, ?_, ?_, ?_,
    traverse_param_base k index name cs d, ?_, traverse_tparam_base k index name cs d, ?_⟩
  · intro hk
    have hm : k = .MethodDescriptor → returnCommand .KCI_return = false := by
      rcases hk with rfl | rfl <;> intro h <;> exact absurd h (by decide)
    have hm' : k = .MethodDescriptor → returnCommand .KCI_returns = false := by
      rcases hk with rfl | rfl <;> intro h <;> exact absurd h (by decide)
    exact ⟨traverse_block_skip k .KCI_return cs d rfl hm,
      traverse_block_skip k .KCI_returns cs d rfl hm'⟩
  · rw [traverse_block_return .KCI_return cs d rfl, traverseChildren_fst,
      string_empty_append]
  · intro hk
    rw [traverse_param_aware k index name cs d hk, traverseChildren_fst,
      string_empty_append]
  · rw [traverse_tparam_aware, traverseChildren_fst, string_empty_append]
  · intro hk
    have h := (traverse_params_of_base k hk).1
    refine ⟨h c d, ?_⟩
    have h0 := h c Descriptor.init
    cases c <;> exact h0

/-- Witness for C22: a `returns` block in a constructor descriptor, and the comment
with the parameter `x` in a namespace descriptor. -/
theorem capabilities_by_class_witness :
    (traverse .ConstructorDescriptor commentReturnAB Descriptor.init).2.ret
        = Descriptor.init.ret
    ∧ traverse .ConstructorDescriptor
        (.BlockCommandComment .KCI_returns [.ParagraphComment [.TextComment "B" false]])
        Descriptor.init
      = ("", Descriptor.init)
    ∧ (traverseDecl .NamespaceDescriptor commentParamX Descriptor.init).params = [] :=
  ⟨(capabilities_by_class .ConstructorDescriptor commentReturnAB Descriptor.init
      none "" []).1 (by decide),
   ((capabilities_by_class .ConstructorDescriptor .null Descriptor.init none ""
      [.ParagraphComment [.TextComment "B" false]]).2.1 (Or.inl rfl)).2,
   ((capabilities_by_class .NamespaceDescriptor commentParamX Descriptor.init
      none "" []).2.2.2.2.2.2.2 (Or.inl rfl)).2⟩

/-- C27: the traversal and the checks are total.  With a bound on the depth of the
calls of `traverse(const Comment*)` and on the iterations of the loop over the
parameters, a result comes out as soon as the first bound is above the height of the
comment tree and the second is at least the number of declared parameters, and it is
the result of `traverse` and `generate`: there is no other way to end without a
result.  Every call below a comment is for one of its children, whose height is
smaller; a null pointer and an empty list of children give the empty string at
once.  The traversal enters at most as many comments as the tree has, and the checks
write at most two warnings more than there are documented parameters. -/
theorem extraction_total (k : Kind) (c : Comment) (decl : Decl) (d : Descriptor) :
    (∀ fuel, height c < fuel → traverseFuel k fuel c d = some (traverse k c d))
    ∧ (∀ fuel steps, height c < fuel → decl.params.length ≤ steps →
        generateFuel fuel steps k c decl = some (generate k c decl))
    ∧ (∀ child ∈ childrenOf c, height child < height c)
    ∧ traverseFuel k 0 c d = none
    ∧ traverseFuel k 1 .null d = some ("", d)
    ∧ traverseFuel k 1 (.ParagraphComment []) d = some ("", d)
    ∧ traverseFuel k 2 (.FullComment [.null]) d = some ("", d)
    ∧ (visitedNodes k c).length ≤ (allNodes c).length
    ∧ (emitted k decl d).length ≤ d.params.length + 2 :=
  ⟨fun fuel h => traverseFuel_eq k fuel c d h,
   fun fuel steps h hsteps => generateFuel_eq fuel steps k c decl h hsteps,
   fun child h => height_child_lt c child h,
   rfl, rfl, rfl, rfl,
   (visitedNodes_allNodes k c).1.length_le, emitted_length_le k decl d⟩

/-- Witness for C27: the comment that documents `p1`, `p2`, `p3` has height 3; in a
method descriptor the bound 4 gives the result of `traverse` and the bound 3 gives
none, and with three declared parameters three iterations give the result of
`generate` and two give none. -/
theorem extraction_total_witness :
    height commentP123 < 4
    ∧ traverseFuel .MethodDescriptor 4 commentP123 Descriptor.init
        = some (traverse .MethodDescriptor commentP123 Descriptor.init)
    ∧ traverseFuel .MethodDescriptor 3 commentP123 Descriptor.init = none
    ∧ generateFuel 4 3 .MethodDescriptor commentP123 ⟨["p1", "p2", "p3"], true⟩
        = some (generate .MethodDescriptor commentP123 ⟨["p1", "p2", "p3"], true⟩)
    ∧ generateFuel 4 2 .MethodDescriptor commentP123 ⟨["p1", "p2", "p3"], true⟩ = none :=
  ⟨by decide,
   (extraction_total .MethodDescriptor commentP123 ⟨["p1", "p2", "p3"], true⟩
      Descriptor.init).1 4 (by decide),
   by decide,
   (extraction_total .MethodDescriptor commentP123 ⟨["p1", "p2", "p3"], true⟩
      Descriptor.init).2.1 4 3 (by decide) (by decide),
   by decide⟩

/-- C28: the detailed description that a method descriptor gets from a comment is the
one that a descriptor with the handlers of the base class alone (namespace, enum,
enum constant) gets from the comment without its parameter commands: what stands
below a parameter command, a `return` or a `returns` block command is not part of
it, and the rest is the same. -/
theorem method_detailed_without_params (cs : List Comment) (d d' : Descriptor) :
    (traverseDecl .MethodDescriptor (.FullComment cs) d).detailed
      = (traverseDecl .NamespaceDescriptor (.FullComment (removeParamsChildren cs)) d').detailed
    ∧ (traverseDecl .MethodDescriptor (.FullComment cs) d).detailed
      = (traverseDecl .EnumDescriptor (.FullComment (removeParamsChildren cs)) d').detailed
    ∧ (traverseDecl .MethodDescriptor (.FullComment cs) d).detailed
      = (traverseDecl .EnumConstantDescriptor
          (.FullComment (removeParamsChildren cs)) d').detailed
    ∧ (traverseDecl .MethodDescriptor commentMixed Descriptor.init).detailed = "w &amp; y"
    ∧ (traverseDecl .NamespaceDescriptor (removeParams commentMixed)
        Descriptor.init).detailed = "w &amp; y" := by
  have h := childrenText_removeParams cs
  refine ⟨?_, ?_, ?_, by decide, by decide⟩
  · rw [detailed_of_full, detailed_of_full, h]
  · rw [detailed_of_full, detailed_of_full, h,
      (nodeText_base .EnumDescriptor (Or.inl rfl)).2]
  · rw [detailed_of_full, detailed_of_full, h,
      (nodeText_base .EnumConstantDescriptor (Or.inr rfl)).2]

theorem string_join_append (l₁ l₂ : List String) :
    String.join (l₁ ++ l₂) = String.join l₁ ++ String.join l₂ := by
  induction l₁ with
  | nil => rw [List.nil_append, string_join_nil, string_empty_append]
  | cons s rest ih =>
    rw [List.cons_append, string_join_cons, string_join_cons, ih, string_append_assoc]

theorem escape_data_cons (ch : Char) (rest : List Char) :
    (String.join ((ch :: rest).map escapeChar)).data
      = (escapeChar ch).data ++ (String.join (rest.map escapeChar)).data := by
  rw [List.map_cons, string_join_cons, String.data_append]

theorem escapeChar_cases (ch : Char) :
    (ch ∉ reservedChars ∧ (escapeChar ch).data = [ch])
    ∨ (escapeChar ch ∈ entities) := by
  by_cases h : ch ∈ reservedChars
  · right
    simp only [reservedChars, List.mem_cons, List.mem_singleton, List.mem_nil_iff,
      or_false] at h
    rcases h with rfl | rfl | rfl | rfl | rfl <;> decide
  · left
    refine ⟨h, ?_⟩
    rw [escapeChar_of_not_reserved ch h]
    rfl

/-- An entity starts with its only ampersand and holds none of the other four
reserved characters. -/
theorem entity_form (e : String) (he : e ∈ entities) :
    (∃ tail, e.data = '&' :: tail ∧ '&' ∉ tail) ∧ ∀ ch ∈ bareChars, ch ∉ e.data := by
  simp only [entities, List.mem_cons, List.mem_singleton, List.mem_nil_iff, or_false] at he
  rcases he with rfl | rfl | rfl | rfl | rfl
  · exact ⟨⟨_, rfl, by decide⟩, by decide⟩
  · exact ⟨⟨_, rfl, by decide⟩, by decide⟩
  · exact ⟨⟨_, rfl, by decide⟩, by decide⟩
  · exact ⟨⟨_, rfl, by decide⟩, by decide⟩
  · exact ⟨⟨_, rfl, by decide⟩, by decide⟩

theorem bare_not_mem_escapeChar (c ch : Char) (hch : ch ∈ bareChars) :
    ch ∉ (escapeChar c).data := by
  rcases escapeChar_cases c with ⟨hc, hd⟩ | he
  · rw [hd]
    intro hmem
    have heq : ch = c := by simpa using hmem
    subst heq
    apply hc
    simp only [bareChars, List.mem_cons, List.mem_singleton, List.mem_nil_iff,
      or_false] at hch
    rcases hch with rfl | rfl | rfl | rfl <;> decide
  · exact (entity_form _ he).2 ch hch

theorem bare_not_mem_join_escapeChar (l : List Char) (ch : Char) (hch : ch ∈ bareChars) :
    ch ∉ (String.join (l.map escapeChar)).data := by
  induction l with
  | nil => simp [string_join_nil]
  | cons c rest ih =>
    rw [escape_data_cons, List.mem_append]
    rintro (h | h)
    · exact bare_not_mem_escapeChar c ch hch h
    · exact ih h

/-- An ampersand in the replacement of one character stands at its start, and the
replacement is then an entity. -/
theorem amp_in_escapeChar (c : Char) (pre post : List Char)
    (h : (escapeChar c).data = pre ++ '&' :: post) :
    pre = [] ∧ escapeChar c ∈ entities := by
  rcases escapeChar_cases c with ⟨hc, hd⟩ | he
  · exfalso
    rw [hd] at h
    cases pre with
    | nil =>
      have heq : c = '&' := by simpa using congrArg List.head? h
      subst heq
      exact hc (by decide)
    | cons p ps =>
      have hlen := congrArg List.length h
      simp at hlen
  · refine ⟨?_, he⟩
    obtain ⟨tail, ht, hnot⟩ := (entity_form _ he).1
    rw [ht] at h
    cases pre with
    | nil => rfl
    | cons p ps =>
      exfalso
      rw [List.cons_append] at h
      have h2 := (List.cons.inj h).2
      apply hnot
      rw [h2]
      simp

theorem amp_in_join_escapeChar (l : List Char) :
    ∀ (pre post : List Char),
      (String.join (l.map escapeChar)).data = pre ++ '&' :: post →
        ∃ e ∈ entities, e.data <+: '&' :: post := by
  induction l with
  | nil =>
    intro pre post h
    have hlen := congrArg List.length h
    simp [string_join_nil] at hlen
    omega
  | cons c rest ih =>
    intro pre post h
    rw [escape_data_cons] at h
    rcases List.append_eq_append_iff.mp h with ⟨a, _, h2⟩ | ⟨b, h1, h2⟩
    · exact ih a post h2
    · cases b with
      | nil =>
        rw [List.nil_append] at h2
        exact ih [] post (by rw [← h2, List.nil_append])
      | cons x xs =>
        rw [List.cons_append] at h2
        obtain ⟨hx, hpost⟩ := List.cons.inj h2
        subst hx
        obtain ⟨hpre, he⟩ := amp_in_escapeChar c pre xs h1
        subst hpre
        rw [List.nil_append] at h1
        refine ⟨escapeChar c, he, ?_⟩
        rw [h1, hpost]
        exact ⟨_, rfl⟩

/-! ## Lemmas on the loop over the children of a list in two parts -/

theorem traverseChildren_append (k : Kind) (a b : List Comment) :
    ∀ (d : Descriptor) (acc : String),
      traverseChildren k (a ++ b) d acc
        = traverseChildren k b (traverseChildren k a d acc).2
            (traverseChildren k a d acc).1 := by
  induction a with
  | nil => intro d acc; rfl
  | cons c rest ih =>
    intro d acc
    rw [List.cons_append, traverseChildren_cons, traverseChildren_cons, ih]

theorem childrenText_append (k : Kind) (a b : List Comment) :
    childrenText k (a ++ b) = childrenText k a ++ childrenText k b := by
  rw [childrenText_eq_join, childrenText_eq_join, childrenText_eq_join, List.map_append,
    string_join_append]

/-- An effect applied after the brief description was replaced, with the brief
description replaced again afterwards. -/
theorem Effect.apply_brief (e : Effect) (d : Descriptor) (b b' : String) :
    { e.apply { d with brief := b } with brief := b' } = { e.apply d with brief := b' } := by
  simp [Effect.apply]

/-- An effect applied after the return comment was replaced. -/
theorem Effect.apply_ret (e : Effect) (d : Descriptor) (r : String) :
    (e.apply { d with ret := r }).ret = e.ret.getD r := by
  simp [Effect.apply]

/-! ## Lemmas on the visitor -/

/-- Every path through `Visitor::visit` ends in `return CXChildVisit_Continue`. -/
theorem visit_fst (filter : Filter) (c : Cursor) (s : Streams) :
    (Visitor.visit filter c s).1 = .CXChildVisit_Continue := by
  cases c with
  | mk info children =>
    obtain ⟨kind, filename, line, spelling, isPrivate, isDefinition, comment, decl, text⟩ :=
      info
    cases kind <;> (unfold Visitor.visit; split <;> rfl)

theorem visit_of_not_match (filter : Filter) (info : CursorInfo) (children : List Cursor)
    (s : Streams) (h : filter.matchCursor info = false) :
    Visitor.visit filter (.mk info children) s = (.CXChildVisit_Continue, s) := by
  unfold Visitor.visit
  rw [if_pos h]

theorem visitChildren_cons (filter : Filter) (c : Cursor) (rest : List Cursor)
    (s : Streams) :
    Visitor.visitChildren filter (c :: rest) s
      = Visitor.visitChildren filter rest (Visitor.visit filter c s).2 := by
  have h := visit_fst filter c s
  cases c with
  | mk info children =>
    rw [Visitor.visitChildren]
    generalize Visitor.visit filter (.mk info children) s = r at h ⊢
    obtain ⟨r1, r2⟩ := r
    simp only at h
    subst h
    rfl

theorem visitChildren_eq (filter : Filter) (cursors : List Cursor) :
    ∀ s : Streams,
      Visitor.visitChildren filter cursors s = (false, visitSiblings filter cursors s) := by
  induction cursors with
  | nil => intro s; unfold Visitor.visitChildren; rfl
  | cons c rest ih =>
    intro s
    rw [visitChildren_cons, ih]
    rfl

/-! ## `escape`: concatenation, and what its result holds -/

/-- C34: `escape` distributes over concatenation: the result for `a ++ b` is the result
for `a` followed by the result for `b`, and the result for the empty string is the
empty string. -/
theorem escape_distributes (a b : String) :
    escape (a ++ b) = escape a ++ escape b ∧ escape "" = "" := by
  refine ⟨?_, rfl⟩
  rw [escape_eq_join, escape_eq_join, escape_eq_join, String.data_append, List.map_append,
    string_join_append]

/-- C35: the result of `escape` holds no `<`, `>`, apostrophe or double quote, and every
ampersand in it is the first character of one of the five entities: what stands from
the ampersand on starts with an entity.  So does the string that the handler of a
text comment returns. -/
theorem escape_output_safe (s : String) :
    (∀ ch ∈ bareChars, ch ∉ (escape s).data)
    ∧ (∀ pre post : List Char, (escape s).data = pre ++ '&' :: post →
        ∃ e ∈ entities, e.data <+: '&' :: post)
    ∧ (∀ (k : Kind) (isWhitespace : Bool) (d : Descriptor),
        (∀ ch ∈ bareChars, ch ∉ (traverse k (.TextComment s isWhitespace) d).1.data)
        ∧ (∀ pre post : List Char,
            (traverse k (.TextComment s isWhitespace) d).1.data = pre ++ '&' :: post →
              ∃ e ∈ entities, e.data <+: '&' :: post))
    ∧ bareChars = [Char.ofNat 39, Char.ofNat 34, '<', '>']
    ∧ escape "a<b & 'c'" = "a&lt;b &amp; &apos;c&apos;" := by
  have h1 : ∀ ch ∈ bareChars, ch ∉ (escape s).data := by
    intro ch hch
    rw [escape_eq_join]
    exact bare_not_mem_join_escapeChar s.data ch hch
  have h2 : ∀ pre post : List Char, (escape s).data = pre ++ '&' :: post →
      ∃ e ∈ entities, e.data <+: '&' :: post := by
    intro pre post h
    rw [escape_eq_join] at h
    exact amp_in_join_escapeChar s.data pre post h
  refine ⟨h1, h2, ?_, rfl, by decide⟩
  intro k isWhitespace d
  rw [traverse_text]
  cases isWhitespace
  · exact ⟨h1, h2⟩
  · refine ⟨fun ch _ => by simp, fun pre post h => ?_⟩
    have hlen := congrArg List.length h
    simp at hlen
    omega

/-! ## Nested `brief` blocks, empty return comments, the index of an unresolved
parameter, inline commands -/

/-- C31: a `brief` block command below another `brief` block command: the outer block
command wins.  The inner block command returns the empty string, so the brief
description is the text of the children of the outer block command without the text
of the inner one; everything else in the descriptor is as if the children of the
inner block command stood in its place, so that its text is in none of the detailed
description, the parameters and the return comment either. -/
theorem nested_brief_outer_wins (k : Kind) (pre inner post : List Comment)
    (d : Descriptor) :
    traverse k
        (.BlockCommandComment .KCI_brief
          (pre ++ .BlockCommandComment .KCI_brief inner :: post)) d
      = ("", { (traverseChildren k (pre ++ (inner ++ post)) d "").2 with
                brief := childrenText k pre ++ childrenText k post })
    ∧ nodeText k (.BlockCommandComment .KCI_brief inner) = ""
    ∧ childrenText k (pre ++ .BlockCommandComment .KCI_brief inner :: post)
        = childrenText k pre ++ childrenText k post
    ∧ (traverseDecl k
          (.FullComment
            [.BlockCommandComment .KCI_brief
              (pre ++ .BlockCommandComment .KCI_brief inner :: post)]) d).brief
        = childrenText k pre ++ childrenText k post
    ∧ (traverseDecl k
          (.FullComment
            [.BlockCommandComment .KCI_brief
              (pre ++ .BlockCommandComment .KCI_brief inner :: post)]) d).detailed = ""
    ∧ record (traverseDecl k commentNestedBrief Descriptor.init)
        = ("outer text", "", [], "") := by
  have hnode : nodeText k (.BlockCommandComment .KCI_brief inner) = "" := by
    unfold nodeText
    rw [traverse_block_brief]
  have htext : childrenText k (pre ++ .BlockCommandComment .KCI_brief inner :: post)
      = childrenText k pre ++ childrenText k post := by
    rw [childrenText_append, childrenText_cons, hnode, string_empty_append]
  have hmain : traverse k
        (.BlockCommandComment .KCI_brief
          (pre ++ .BlockCommandComment .KCI_brief inner :: post)) d
      = ("", { (traverseChildren k (pre ++ (inner ++ post)) d "").2 with
                brief := childrenText k pre ++ childrenText k post }) := by
    obtain ⟨e₁, h₁⟩ := traverseChildren_effect k pre
    obtain ⟨e₂, h₂⟩ := traverseChildren_effect k inner
    obtain ⟨e₃, h₃⟩ := traverseChildren_effect k post
    rw [traverse_block_brief, traverseChildren_fst, htext, string_empty_append]
    rw [traverseChildren_append, traverseChildren_cons, traverse_block_brief,
      traverseChildren_append, traverseChildren_append]
    simp only [h₁, h₂, h₃]
    rw [Effect.apply_brief]
  refine ⟨hmain, hnode, htext, ?_, ?_, by cases k <;> rfl⟩
  · rw [traverseDecl_of_ne_null _ _ _ (by simp), traverse_full, traverseChildren_cons,
      traverseChildren_nil, hmain]
  · rw [traverseDecl_of_ne_null _ _ _ (by simp), traverse_full, traverseChildren_cons,
      traverseChildren_nil, hmain]
    rfl

/-- C36: the handler of an inline command returns the empty string and leaves the
descriptor as it is, for every command identifier and in every descriptor class; a
list of children gives the same result with and without an inline command in it. -/
theorem inline_command_contributes_nothing (k : Kind) (commandID : CommandID)
    (d : Descriptor) (pre post : List Comment) (acc : String) :
    traverse k (.InlineCommandComment commandID) d = ("", d)
    ∧ shape k (.InlineCommandComment commandID) = .leaf ""
    ∧ traverseChildren k (pre ++ .InlineCommandComment commandID :: post) d acc
        = traverseChildren k (pre ++ post) d acc
    ∧ generate k (.FullComment (pre ++ .InlineCommandComment commandID :: post))
        = generate k (.FullComment (pre ++ post)) := by
  have h : ∀ d acc,
      traverseChildren k (pre ++ .InlineCommandComment commandID :: post) d acc
        = traverseChildren k (pre ++ post) d acc := by
    intro d acc
    rw [traverseChildren_append, traverseChildren_cons, traverse_inline,
      string_append_empty, traverseChildren_append]
  refine ⟨traverse_inline k commandID d, rfl, h d acc, ?_⟩
  funext decl
  unfold generate
  rw [traverseDecl_of_ne_null _ _ _ (by simp), traverseDecl_of_ne_null _ _ _ (by simp),
    traverse_full, traverse_full, h]

/-- C32, as stated, fails: a `returns` block command that holds whitespace only, after
a `return` block command with the text `A`, replaces the return comment by the empty
string, so the method gets the warning for a missing return comment, which the
comment without the block command does not get; and before a `return` block command
with the text `B` it leaves no empty return comment behind and nothing is
reported. -/
theorem blank_return_block_overwrites :
    returnCommand .KCI_returns = true
    ∧ childrenText .MethodDescriptor [.ParagraphComment [.TextComment " " true]] = ""
    ∧ (generate .MethodDescriptor commentReturnThenBlank ⟨[], true⟩).ret = ""
    ∧ (generate .MethodDescriptor commentReturnThenBlank ⟨[], true⟩).cerr = [returnMessage]
    ∧ (generate .MethodDescriptor
          (.FullComment
            [.BlockCommandComment .KCI_return [.ParagraphComment [.TextComment "A" false]]])
          ⟨[], true⟩).ret = "A"
    ∧ (generate .MethodDescriptor
          (.FullComment
            [.BlockCommandComment .KCI_return [.ParagraphComment [.TextComment "A" false]]])
          ⟨[], true⟩).cerr = []
    ∧ (generate .MethodDescriptor commentBlankThenReturn ⟨[], true⟩).ret = "B"
    ∧ (generate .MethodDescriptor commentBlankThenReturn ⟨[], true⟩).cerr = [] := by
  decide

/-- C32: in a method descriptor, a `return` or `returns` block command whose children
give the empty string stores the empty string as the return comment.  If no return
comment was stored before it, the return comment at the end, and with it the return
warning, is the one that the comment without the block command gives; if no block
command after it stores a return comment, the return comment at the end is empty, and
a method whose return type is not void gets the warning for a missing return comment
as its last warning, as with a comment without any such block command. -/
theorem blank_return_block_reported (commandID : CommandID)
    (pre cs post : List Comment) (decl : Decl) (d : Descriptor)
    (hret : returnCommand commandID = true)
    (htext : childrenText .MethodDescriptor cs = "") :
    (traverse .MethodDescriptor (.BlockCommandComment commandID cs) d).1 = ""
    ∧ (traverse .MethodDescriptor (.BlockCommandComment commandID cs) d).2.ret = ""
    ∧ ((traverseChildren .MethodDescriptor pre Descriptor.init "").2.ret = "" →
        (traverseDecl .MethodDescriptor
            (.FullComment (pre ++ .BlockCommandComment commandID cs :: post))
            Descriptor.init).ret
          = (traverseDecl .MethodDescriptor (.FullComment (pre ++ post))
              Descriptor.init).ret
        ∧ returnWarnings decl
            (traverseDecl .MethodDescriptor
              (.FullComment (pre ++ .BlockCommandComment commandID cs :: post))
              Descriptor.init)
          = returnWarnings decl
              (traverseDecl .MethodDescriptor (.FullComment (pre ++ post))
                Descriptor.init))
    ∧ ((visitedNodesChildren .MethodDescriptor post).filterMap
          (returnDoc .MethodDescriptor) = [] →
        (traverseDecl .MethodDescriptor
            (.FullComment (pre ++ .BlockCommandComment commandID cs :: post))
            Descriptor.init).ret = ""
        ∧ (decl.returnsNonVoid = true →
            returnWarnings decl
                (traverseDecl .MethodDescriptor
                  (.FullComment (pre ++ .BlockCommandComment commandID cs :: post))
                  Descriptor.init)
              = [returnMessage]
            ∧ (generate .MethodDescriptor
                  (.FullComment (pre ++ .BlockCommandComment commandID cs :: post))
                  decl).cerr.getLast? = some returnMessage
            ∧ (generate .MethodDescriptor (.FullComment []) decl).cerr.getLast?
                = some returnMessage)) := by
  have hblock : ∀ d, traverse .MethodDescriptor (.BlockCommandComment commandID cs) d
      = ("", { (traverseChildren .MethodDescriptor cs d "").2 with ret := "" }) := by
    intro d
    rw [traverse_block_return commandID cs d hret, traverseChildren_fst, htext]
    rfl
  have hwith : ∀ post : List Comment,
      (traverseDecl .MethodDescriptor
          (.FullComment (pre ++ .BlockCommandComment commandID cs :: post))
          Descriptor.init).ret
        = (traverseChildren .MethodDescriptor post
            { (traverseChildren .MethodDescriptor cs
                (traverseChildren .MethodDescriptor pre Descriptor.init "").2 "").2
              with ret := "" } "").2.ret := by
    intro post
    rw [traverseDecl_of_ne_null _ _ _ (by simp), traverse_full, traverseChildren_append,
      traverseChildren_cons, hblock, traverseChildren_snd, traverseChildren_snd _ cs]
  refine ⟨by rw [hblock], by rw [hblock], ?_, ?_⟩
  · intro hpre
    have heq : (traverseDecl .MethodDescriptor
          (.FullComment (pre ++ .BlockCommandComment commandID cs :: post))
          Descriptor.init).ret
        = (traverseDecl .MethodDescriptor (.FullComment (pre ++ post))
            Descriptor.init).ret := by
      obtain ⟨e₃, h₃⟩ := traverseChildren_effect .MethodDescriptor post
      rw [hwith, traverseDecl_of_ne_null _ _ _ (by simp), traverse_full,
        traverseChildren_append, traverseChildren_snd]
      simp only [h₃, Effect.apply_ret]
      simp only [Effect.apply, hpre]
    exact ⟨heq, by simp only [returnWarnings, heq]⟩
  · intro hpost
    have hempty : (traverseDecl .MethodDescriptor
          (.FullComment (pre ++ .BlockCommandComment commandID cs :: post))
          Descriptor.init).ret = "" := by
      rw [hwith, traverseChildren_ret_unchanged _ _ _ _ hpost]
    refine ⟨hempty, fun hnonvoid => ?_⟩
    have hwarn : ∀ d : Descriptor, d.ret = "" →
        (validate .MethodDescriptor decl d).cerr.getLast? = some returnMessage := by
      intro d hd
      rw [validate_cerr, emitted_method]
      simp [returnWarnings, hnonvoid, hd]
    refine ⟨by simp [returnWarnings, hnonvoid, hempty], hwarn _ hempty, hwarn _ rfl⟩

/-- Witness for C32: a comment with a paragraph and a `returns` block command that holds
whitespace only, for a method that returns a value: the return comment stays empty
and the one warning is the one for a missing return comment. -/
theorem blank_return_block_reported_witness :
    returnCommand .KCI_returns = true
    ∧ childrenText .MethodDescriptor [.ParagraphComment [.TextComment " " true]] = ""
    ∧ (traverseDecl .MethodDescriptor commentBlankReturn Descriptor.init).ret = ""
    ∧ (generate .MethodDescriptor commentBlankReturn ⟨[], true⟩).cerr = [returnMessage]
    ∧ (generate .MethodDescriptor
          (.FullComment [.ParagraphComment [.TextComment "Text." false]])
          ⟨[], true⟩).cerr = [returnMessage]
    ∧ (generate .MethodDescriptor commentBlankReturn ⟨[], true⟩).cerr.getLast?
        = some returnMessage :=
  ⟨rfl, rfl, by decide, by decide, by decide,
   (((blank_return_block_reported .KCI_returns
        [.ParagraphComment [.TextComment "Text." false]]
        [.ParagraphComment [.TextComment " " true]] [] ⟨[], true⟩ Descriptor.init
        rfl rfl).2.2.2 rfl).2 rfl).2.1⟩

/-- C33: the index stored for a parameter whose index is not resolved is
`unsigned(-1)`, which is `2 ^ 32 - 1 = 4294967295`, and the `param` element is
written with `index="4294967295"`.  A resolved index is the index of a parameter of
the declaration, whose number of parameters is held in an `unsigned`, or the index
`2 ^ 32 - 2` that clang gives to a variadic parameter; it is stored as it is and
differs from the stored index of an unresolved parameter. -/
theorem unset_index_sentinel (k : Kind) (name description : String)
    (cs : List Comment) (d : Descriptor) (decl : Decl) (i : Nat)
    (hcount : decl.params.length < 2 ^ 32)
    (hi : i < decl.params.length ∨ i = 2 ^ 32 - 2) :
    unsignedMinusOne = 2 ^ 32 - 1
    ∧ unsignedMinusOne = 4294967295
    ∧ storedIndex none = 4294967295
    ∧ storedIndex (some i) = i
    ∧ storedIndex (some i) ≠ storedIndex none
    ∧ (k = .ConstructorDescriptor ∨ k = .DestructorDescriptor ∨ k = .MethodDescriptor →
        (traverse k (.ParamCommandComment none name cs) d).2.params
            = (traverseChildren k cs d "").2.params
                ++ [⟨4294967295, name, childrenText k cs⟩]
        ∧ (traverse k (.ParamCommandComment (some i) name cs) d).2.params
            = (traverseChildren k cs d "").2.params ++ [⟨i, name, childrenText k cs⟩])
    ∧ (traverse .ClassDescriptor (.TParamCommandComment none name cs) d).2.params
        = (traverseChildren .ClassDescriptor cs d "").2.params
            ++ [⟨4294967295, name, childrenText .ClassDescriptor cs⟩]
    ∧ outputParam ⟨storedIndex none, name, description⟩
        = "<param index=\"4294967295\">" ++ "<name>" ++ escape name ++ "</name>"
            ++ "<brief>" ++ escape description ++ "</brief>" ++ "</param>" := by
  have h1 : unsignedMinusOne = 4294967295 := by decide
  have h2 : storedIndex none = 4294967295 := by decide
  have h3 : storedIndex (some i) = i := rfl
  refine ⟨by rw [h1]; norm_num, h1, h2, h3, ?_, ?_, ?_, ?_⟩
  · rw [h2, h3]
    omega
  · intro hk
    rw [traverse_param_aware k none name cs d hk, traverse_param_aware k (some i) name cs d hk]
    simp only [traverseChildren_fst, string_empty_append, h2, h3]
    exact ⟨trivial, trivial⟩
  · rw [traverse_tparam_aware]
    simp only [traverseChildren_fst, string_empty_append, h2]
  · have h4 : "<param index=\"" ++ toString (4294967295 : Nat) ++ "\">"
        = "<param index=\"4294967295\">" := by decide
    rw [h2]
    simp only [outputParam, h4]

/-- Witness for C33: a declaration with the parameters `a` and `b`, and the resolved
index 1. -/
theorem unset_index_sentinel_witness :
    (⟨["a", "b"], false⟩ : Decl).params.length < 2 ^ 32
    ∧ storedIndex (some 1) ≠ storedIndex none
    ∧ (traverse .MethodDescriptor
          (.ParamCommandComment none "c" [.TextComment "third" false])
          Descriptor.init).2.params = [⟨4294967295, "c", "third"⟩]
    ∧ outputParam ⟨storedIndex none, "c", "third"⟩
        = "<param index=\"4294967295\"><name>c</name><brief>third</brief></param>" :=
  ⟨by decide,
   (unset_index_sentinel .MethodDescriptor "c" "third" [.TextComment "third" false]
      Descriptor.init ⟨["a", "b"], false⟩ 1 (by decide) (Or.inl (by decide))).2.2.2.2.1,
   by decide, by rfl⟩

/-! ## The visitor -/

/-- C37: `Visitor::visit` returns `CXChildVisit_Continue` for every cursor, whatever
its kind, a namespace included, and never `CXChildVisit_Recurse`; a cursor that the
filter does not match leaves the streams as they are: nothing is written to the
output and no warning.  So `clang_visitChildren` calls the callback for the cursors
of one level only, one after the other, and never ends early. -/
theorem visit_always_continues (filter : Filter) (info : CursorInfo)
    (children cursors : List Cursor) (s : Streams) :
    (Visitor.visit filter (.mk info children) s).1 = .CXChildVisit_Continue
    ∧ (Visitor.visit filter (.mk info children) s).1 ≠ .CXChildVisit_Recurse
    ∧ (filter.matchCursor info = false →
        Visitor.visit filter (.mk info children) s = (.CXChildVisit_Continue, s))
    ∧ Visitor.visitChildren filter cursors s = (false, visitSiblings filter cursors s)
    ∧ (Visitor.visit .AnyFilter (cursorOfKind .CXCursor_Namespace) ⟨"", [], []⟩).1
        = .CXChildVisit_Continue
    ∧ (Visitor.visit .AnyFilter (cursorOfKind (.other "VarDecl")) ⟨"", [], []⟩)
        = (.CXChildVisit_Continue,
            ⟨"", [], ["[warn]: a.h:3: Unsupported declaration type VarDecl for 'N'"]⟩) := by
  have h := visit_fst filter (.mk info children) s
  refine ⟨h, ?_, visit_of_not_match filter info children s,
    visitChildren_eq filter cursors s, visit_fst _ _ _, by decide⟩
  rw [h]
  decide

/-- Witness for C37: a namespace in the file `a.h` with a method below it, and a filter
for the file `b.h`: the visit continues and writes nothing; with the filter that
matches everything the namespace and its method are written. -/
theorem visit_always_continues_witness :
    Filter.matchCursor (.FileFilter "b.h")
        ⟨.CXCursor_Namespace, "a.h", 3, "N", false, true, commentNote, ⟨[], false⟩,
          ⟨"N", "N", "", "c:@N", "N", ""⟩⟩ = false
    ∧ Visitor.visit (.FileFilter "b.h")
          (.mk ⟨.CXCursor_Namespace, "a.h", 3, "N", false, true, commentNote, ⟨[], false⟩,
                ⟨"N", "N", "", "c:@N", "N", ""⟩⟩ [])
          ⟨"<doc>", [], []⟩
        = (.CXChildVisit_Continue, ⟨"<doc>", [], []⟩)
    ∧ (Visitor.visit .AnyFilter (cursorOfKind .CXCursor_Namespace) ⟨"", [], []⟩).2.cerr
        = ["[warn]: a.h:5: Method has a non-void return type, but no return comment"] :=
  ⟨by decide,
   (visit_always_continues (.FileFilter "b.h")
      ⟨.CXCursor_Namespace, "a.h", 3, "N", false, true, commentNote, ⟨[], false⟩,
        ⟨"N", "N", "", "c:@N", "N", ""⟩⟩ [] [] ⟨"<doc>", [], []⟩).2.2.1 (by decide),
   by decide⟩

end muddoc
